import Mathlib

/-! RAID planning of the bare-metal operator (`pkg/provisioner/ironic/raid.go`).

A shallow embedding of the RAID planner: Go pointers are `Option`, Go slices are
`Slice` (the nil slice is `none`), the `(value, err)` result pairs are Lean pairs
whose second component is `none` for a nil error, and the writes that
`BuildRAIDCleanSteps` performs through its two pointer arguments are returned
explicitly as the final values of the pointees.
-/

set_option autoImplicit false

namespace Ironic

/-! ## Go values -/

/-- A Go slice value: `none` is the nil slice, `some l` a non-nil slice holding `l`.
`reflect.DeepEqual` tells the nil slice from the empty non-nil one, and so does `=` here. -/
abbrev Slice (α : Type) := Option (List α)

namespace Slice

/-- Go `len(s)`. -/
def len {α : Type} : Slice α → Nat
  | none => 0
  | some l => l.length

/-- The elements a `range` loop over the slice visits, in order. -/
def toList {α : Type} : Slice α → List α
  | none => []
  | some l => l

/-- Go `append(s, xs...)`: appending nothing gives `s` back, otherwise the result is non-nil. -/
def append {α : Type} (s : Slice α) (xs : List α) : Slice α :=
  match xs with
  | [] => s
  | _ :: _ => some (toList s ++ xs)

end Slice

/-- A Go `map[string]int`, as an association list with at most one entry per key in use. -/
abbrev NameFlags := List (String × Nat)

/-- Go `m[k] = v`. -/
def NameFlags.set (m : NameFlags) (k : String) (v : Nat) : NameFlags :=
  (k, v) :: m.filter (fun e => e.1 ≠ k)

/-! ## Data model -/

/-- Modelled from the spec: the hardware volume type `metal3v1alpha1.HardwareRAIDVolume`
(size, level, name, rotational/non-rotational type, physical-disk count); the fields are
those `raid.go` reads, the pointer fields being `Option`. -/
structure HardwareRAIDVolume where
  SizeGibibytes : Option Int
  Level : String
  Name : String
  Rotational : Option Bool
  NumberOfPhysicalDisks : Option Int
deriving DecidableEq, Repr

/-- Modelled from the spec: the software volume type `metal3v1alpha1.SoftwareRAIDVolume`
(size, level, list of physical-disk selection hints). The hint type `H`
(`metal3v1alpha1.RootDeviceHints`) is never inspected by the planner. -/
structure SoftwareRAIDVolume (H : Type) where
  SizeGibibytes : Option Int
  Level : String
  PhysicalDisks : Slice H
deriving DecidableEq, Repr

/-- Modelled from the spec: the RAID spec `metal3v1alpha1.RAIDConfig`, two volume lists. -/
structure RAIDConfig (H : Type) where
  HardwareRAIDVolumes : Slice HardwareRAIDVolume
  SoftwareRAIDVolumes : Slice (SoftwareRAIDVolume H)
deriving DecidableEq, Repr

/-- Modelled from the spec: a hint map, the `map[string]string` that
`devicehints.MakeHintMap` builds for one physical-disk hint. -/
abbrev HintMap := List (String × String)

/-- Modelled from the spec: `nodes.RAID1`, the RAID-1 level ("1"). -/
def RAID1 : String := "1"

/-- Modelled from the spec: `nodes.HDD`, the rotational disk type. -/
def HDD : String := "hdd"

/-- Modelled from the spec: `nodes.SSD`, the non-rotational disk type. -/
def SSD : String := "ssd"

/-- Modelled from the spec: the logical disk `nodes.LogicalDisk` sent to the remote service,
with the fields `raid.go` writes; every field starts at its Go zero value. -/
structure LogicalDisk where
  SizeGB : Option Int := none
  RAIDLevel : String := ""
  VolumeName : String := ""
  IsRootVolume : Option Bool := none
  PhysicalDisks : Slice HintMap := none
  NumberOfPhysicalDisks : Int := 0
  DiskType : String := ""
  Controller : String := ""
deriving DecidableEq, Repr

/-- Modelled from the spec: a clean step `nodes.CleanStep`, the pair (interface, step-name). -/
structure CleanStep where
  Interface : String
  Step : String
deriving DecidableEq, Repr

/-- The errors `raid.go` creates, one constructor per `Errorf` call, carrying the
arguments of the format string. -/
inductive RAIDError where
  | repeatedNames (name : String) (index : Nat) (i : Nat)
  | firstLevelNotRAID1
  | recovered (r : String)
  | raidNotSupported (raidInterface : String)
  | hardwareRAIDNotSupported (raidInterface : String)
  | softwareRAIDNotSupported (raidInterface : String)
deriving DecidableEq, Repr

/-- The message of each error, as the format strings of `raid.go` render it. -/
def RAIDError.message : RAIDError → String
  | .repeatedNames name index i =>
      "the names(" ++ name ++ ") of volume[" ++ toString index ++ "] and volume["
        ++ toString i ++ "] are repeated"
  | .firstLevelNotRAID1 => "the level in first volume of software raid must be RAID1"
  | .recovered r => "panic in build RAID settings: " ++ r
  | .raidNotSupported raidInterface =>
      "raid settings are defined, but the node's driver " ++ raidInterface
        ++ " does not support RAID"
  | .hardwareRAIDNotSupported raidInterface =>
      "node's driver " ++ raidInterface ++ " does not support hardware RAID"
  | .softwareRAIDNotSupported raidInterface =>
      "node's driver " ++ raidInterface ++ " does not support software RAID"

/-! ## `buildTargetHardwareRAIDCfg` -/

/-- The logical disk built from one hardware volume (`raid.go` lines 92-106). -/
def hardwareLogicalDisk (volume : HardwareRAIDVolume) : LogicalDisk :=
  let logicalDisk : LogicalDisk :=
    { SizeGB := volume.SizeGibibytes, RAIDLevel := volume.Level, VolumeName := volume.Name }
  let logicalDisk : LogicalDisk :=
    match volume.Rotational with
    | some true => { logicalDisk with DiskType := HDD }
    | some false => { logicalDisk with DiskType := SSD }
    | none => logicalDisk
  match volume.NumberOfPhysicalDisks with
  | some n => { logicalDisk with NumberOfPhysicalDisks := n }
  | none => logicalDisk

/-- The `for index, volume := range volumes` loop of `buildTargetHardwareRAIDCfg`, from
position `index` on, with the current `nameCheckFlags` and `logicalDisks`. -/
def hardwareLoop : List HardwareRAIDVolume → Nat → NameFlags → Slice LogicalDisk →
    Slice LogicalDisk × Option RAIDError
  | [], _, _, logicalDisks => (logicalDisks, none)
  | volume :: rest, index, nameCheckFlags, logicalDisks =>
    if volume.Name ≠ "" then
      match nameCheckFlags.lookup volume.Name with
      | some i => (none, some (.repeatedNames volume.Name index i))
      | none =>
        hardwareLoop rest (index + 1) (nameCheckFlags.set volume.Name index)
          (Slice.append logicalDisks [hardwareLogicalDisk volume])
    else
      hardwareLoop rest (index + 1) nameCheckFlags
        (Slice.append logicalDisks [hardwareLogicalDisk volume])

/-- A private method to build hardware RAID disks. -/
def buildTargetHardwareRAIDCfg (volumes : Slice HardwareRAIDVolume) :
    Slice LogicalDisk × Option RAIDError :=
  if Slice.len volumes = 0 then (none, none)
  else hardwareLoop (Slice.toList volumes) 0 [] none

/-! ## `buildTargetSoftwareRAIDCfg` -/

/-- The inner loop `for i := range volume.PhysicalDisks` (lines 136-138): the element
`volume.PhysicalDisks[i]` is read by index, a failed read being a run-time panic. -/
def physicalDisksLoop {H : Type} (MakeHintMap : H → HintMap) (physicalDisks : Slice H) :
    List Nat → Slice HintMap → Except String (Slice HintMap)
  | [], acc => .ok acc
  | i :: is, acc =>
    match (Slice.toList physicalDisks)[i]? with
    | none => .error "index out of range"
    | some hint => physicalDisksLoop MakeHintMap physicalDisks is (Slice.append acc [MakeHintMap hint])

/-- The loop `for _, volume := range volumes` of `buildTargetSoftwareRAIDCfg`. -/
def softwareLoop {H : Type} (MakeHintMap : H → HintMap) :
    List (SoftwareRAIDVolume H) → Slice LogicalDisk → Except String (Slice LogicalDisk)
  | [], logicalDisks => .ok logicalDisks
  | volume :: rest, logicalDisks =>
    let logicalDisk : LogicalDisk :=
      { SizeGB := volume.SizeGibibytes, RAIDLevel := volume.Level, Controller := "software" }
    match physicalDisksLoop MakeHintMap volume.PhysicalDisks
        (List.range (Slice.len volume.PhysicalDisks)) logicalDisk.PhysicalDisks with
    | .error r => .error r
    | .ok physicalDisks =>
      softwareLoop MakeHintMap rest
        (Slice.append logicalDisks [{ logicalDisk with PhysicalDisks := physicalDisks }])

/-- A private method to build software RAID disks. `Except.error` is a run-time panic (the
index read `volumes[0]`), `Except.ok` the returned pair. -/
def buildTargetSoftwareRAIDCfg {H : Type} (MakeHintMap : H → HintMap)
    (volumes : Slice (SoftwareRAIDVolume H)) :
    Except String (Slice LogicalDisk × Option RAIDError) :=
  if Slice.len volumes = 0 then .ok (none, none)
  else
    match (Slice.toList volumes)[0]? with
    | none => .error "index out of range"
    | some first =>
      if first.Level ≠ RAID1 then .ok (none, some .firstLevelNotRAID1)
      else
        match softwareLoop MakeHintMap (Slice.toList volumes) none with
        | .error r => .error r
        | .ok logicalDisks => .ok (logicalDisks, none)

/-- BuildTargetRAIDCfg build RAID logical disks, this method doesn't set the root volume.
A panic of the body is recovered into an error; the named result `logicalDisks` then
still holds its zero value. -/
def BuildTargetRAIDCfg {H : Type} (MakeHintMap : H → HintMap) (raid : Option (RAIDConfig H)) :
    Slice LogicalDisk × Option RAIDError :=
  match raid with
  | none => (none, none)
  | some raid =>
    if Slice.len raid.HardwareRAIDVolumes ≠ 0 then
      buildTargetHardwareRAIDCfg raid.HardwareRAIDVolumes
    else if Slice.len raid.SoftwareRAIDVolumes ≠ 0 then
      match buildTargetSoftwareRAIDCfg MakeHintMap raid.SoftwareRAIDVolumes with
      | .error r => (none, some (.recovered r))
      | .ok result => result
    else (none, none)

/-! ## `checkRAIDConfigure` and `BuildRAIDCleanSteps` -/

/-- The compatibility check of an interface and a RAID spec; `none` is the nil error. -/
def checkRAIDConfigure {H : Type} (raidInterface : String) (raid : Option (RAIDConfig H)) :
    Option RAIDError :=
  match raid with
  | none => none
  | some raid =>
    if raidInterface = "no-raid" ∧
        (Slice.len raid.HardwareRAIDVolumes ≠ 0 ∨ Slice.len raid.SoftwareRAIDVolumes ≠ 0) then
      some (.raidNotSupported raidInterface)
    else if raidInterface = "agent" ∧ Slice.len raid.HardwareRAIDVolumes ≠ 0 then
      some (.hardwareRAIDNotSupported raidInterface)
    else if raidInterface ≠ "agent" ∧ Slice.len raid.HardwareRAIDVolumes = 0 ∧
        Slice.len raid.SoftwareRAIDVolumes ≠ 0 then
      some (.softwareRAIDNotSupported raidInterface)
    else none

/-- What a call of `BuildRAIDCleanSteps` leaves behind: the returned pair
`(cleanSteps, err)` and the values `target` and `existed` point to after the call. -/
structure CleanStepsResult (H : Type) where
  cleanSteps : Slice CleanStep
  err : Option RAIDError
  target : Option (RAIDConfig H)
  existed : Option (RAIDConfig H)
deriving DecidableEq, Repr

/-- The assignment `raid.SoftwareRAIDVolumes = nil` under the guard `raid != nil`. -/
def stripSoftware {H : Type} (raid : Option (RAIDConfig H)) : Option (RAIDConfig H) :=
  match raid with
  | none => none
  | some raid => some { raid with SoftwareRAIDVolumes := none }

/-- BuildRAIDCleanSteps build the clean steps for RAID configuration from BaremetalHost spec. -/
def BuildRAIDCleanSteps {H : Type} [DecidableEq H] (raidInterface : String)
    (target existed : Option (RAIDConfig H)) : CleanStepsResult H :=
  match checkRAIDConfigure raidInterface target with
  | some err => { cleanSteps := none, err := some err, target := target, existed := existed }
  | none =>
    -- No RAID
    if raidInterface = "no-raid" then
      { cleanSteps := none, err := none, target := target, existed := existed }
    -- Software RAID
    else if raidInterface = "agent" then
      let cleanSteps : Slice CleanStep :=
        Slice.append none
          [{ Interface := "raid", Step := "delete_configuration" },
           { Interface := "deploy", Step := "erase_devices_metadata" }]
      match target with
      | none => { cleanSteps := cleanSteps, err := none, target := target, existed := existed }
      | some t =>
        if Slice.len t.SoftwareRAIDVolumes = 0 then
          { cleanSteps := cleanSteps, err := none, target := target, existed := existed }
        else
          { cleanSteps :=
              Slice.append cleanSteps [{ Interface := "raid", Step := "create_configuration" }],
            err := none, target := target, existed := existed }
    else
      -- Hardware RAID: ignore SoftwareRAIDVolumes
      let target := stripSoftware target
      let existed := stripSoftware existed
      if target = existed then
        { cleanSteps := none, err := none, target := target, existed := existed }
      else
        let cleanSteps : Slice CleanStep :=
          Slice.append none [{ Interface := "raid", Step := "delete_configuration" }]
        match target with
        | none => { cleanSteps := cleanSteps, err := none, target := target, existed := existed }
        | some t =>
          if Slice.len t.HardwareRAIDVolumes = 0 then
            { cleanSteps := cleanSteps, err := none, target := target, existed := existed }
          else
            { cleanSteps :=
                Slice.append cleanSteps [{ Interface := "raid", Step := "create_configuration" }],
              err := none, target := target, existed := existed }

/-! ## `setTargetRAIDCfg` -/

/-- What a call of `setTargetRAIDCfg` does: `submitted` is the `LogicalDisks` list of the
`RAIDConfigOpts` handed to `nodes.SetRAIDConfig` (`none` when that call is not reached),
`err` the returned error, either one of `raid.go` or one of the remote call. -/
structure SetTargetResult (E : Type) where
  submitted : Option (Slice LogicalDisk)
  err : Option (RAIDError ⊕ E)

/-- The two statements `logicalDisks[0].IsRootVolume = new(bool)` and
`*logicalDisks[0].IsRootVolume = true`; they are only reached with a non-empty list. -/
def setRootVolume (logicalDisks : Slice LogicalDisk) : Slice LogicalDisk :=
  match logicalDisks with
  | some (first :: rest) => some ({ first with IsRootVolume := some true } :: rest)
  | other => other

/-- The function setTargetRAIDCfg sets the RAID settings to the ironic Node for RAID
configuration steps. `SetRAIDConfig` is the remote call with its extracted error,
`TargetRAIDConfig` and `RootDeviceHints` are the two fields of `data` that are read. -/
def setTargetRAIDCfg {H E : Type} (MakeHintMap : H → HintMap)
    (SetRAIDConfig : Slice LogicalDisk → Option E) (raidInterface : String)
    (TargetRAIDConfig : Option (RAIDConfig H)) (RootDeviceHints : Option H) :
    SetTargetResult E :=
  match checkRAIDConfigure raidInterface TargetRAIDConfig with
  | some err => { submitted := none, err := some (.inl err) }
  | none =>
    -- Build target for RAID configuration steps
    match BuildTargetRAIDCfg MakeHintMap TargetRAIDConfig with
    | (logicalDisks, err) =>
      if Slice.len logicalDisks = 0 ∨ err ≠ none then
        { submitted := none, err := err.map .inl }
      else
        -- set root volume
        let logicalDisks :=
          match RootDeviceHints with
          | none => setRootVolume logicalDisks
          | some _ => logicalDisks
        -- Set target for RAID configuration steps
        { submitted := some logicalDisks, err := (SetRAIDConfig logicalDisks).map .inr }

/-! ## Predicates on volume names and built disks -/

/-- The logical disk the software loop builds from one volume: size and level of the
volume, controller "software", and one hint map per physical-disk hint. -/
def softwareLogicalDisk {H : Type} (MakeHintMap : H → HintMap) (volume : SoftwareRAIDVolume H) :
    LogicalDisk :=
  { SizeGB := volume.SizeGibibytes, RAIDLevel := volume.Level, Controller := "software",
    PhysicalDisks := Slice.append none ((Slice.toList volume.PhysicalDisks).map MakeHintMap) }


/-- The names of the hardware volumes, in spec order. -/
def volumeNames (volumes : List HardwareRAIDVolume) : List String :=
  volumes.map (fun v => v.Name)

/-- The map `nameCheckFlags` holds exactly the non-empty names of the volumes visited so
far, each with the index it was seen at. -/
def FlagsTrack (pre : List HardwareRAIDVolume) (flags : NameFlags) : Prop :=
  ∀ n i, flags.lookup n = some i ↔ (n ≠ "" ∧ (volumeNames pre)[i]? = some n)

/-- No non-empty name occurs at two indices. -/
def NoRepeat (names : List String) : Prop :=
  ∀ (i j : Nat) (n : String), i < j → n ≠ "" → names[i]? = some n → names[j]? = some n → False

/-- Index `j` is the first one whose non-empty name `n` occurs earlier, and `i` is the
one earlier index carrying `n`. -/
def FirstRepeat (names : List String) (n : String) (j i : Nat) : Prop :=
  i < j ∧ n ≠ "" ∧ names[j]? = some n ∧ names[i]? = some n ∧
    (∀ j2, j2 < j → ∀ i2, i2 < j2 → ∀ m, m ≠ "" → names[i2]? = some m → names[j2]? ≠ some m) ∧
    (∀ i2, i2 < j → names[i2]? = some n → i2 = i)

/-! ## Sample inputs -/

/-- A hardware volume that only has a level and a name. -/
def hwVolume (level name : String) : HardwareRAIDVolume :=
  { SizeGibibytes := none, Level := level, Name := name, Rotational := none,
    NumberOfPhysicalDisks := none }

/-- A software volume of the given level with no size and no physical-disk hints. -/
def swVolume (level : String) : SoftwareRAIDVolume Unit :=
  { SizeGibibytes := none, Level := level, PhysicalDisks := none }

/-- A hint-map builder for the samples, which carry no hints. -/
def noHints : Unit → HintMap := fun _ => []

/-- The interface name of a hardware RAID driver, used in the samples. -/
def hardwareInterface : String := "idrac-wsman"

/-! ## The capability string (`buildCapabilitiesValue`) -/

/-- Modelled from the spec: the desired boot mode `metal3v1alpha1.BootMode`, with the two
modes the spec and the test table of `ironic_test.go` name. -/
inductive BootMode where
  | UEFI
  | Legacy
deriving DecidableEq, Repr

/-- Modelled from the spec: the patch operation `nodes.UpdateOp`, "add" or "replace". -/
inductive UpdateOp where
  | AddOp
  | ReplaceOp
deriving DecidableEq, Repr

/-- Modelled from the spec: the `boot_mode` token of a mode, its value in lower case
(`uefi` / `bios`). -/
def bootModeCapabilities : BootMode → String
  | .UEFI => "boot_mode:uefi"
  | .Legacy => "boot_mode:bios"

/-- Modelled from the spec: parsing of the capability string, a comma-separated list of
`key:value` tokens; the empty string parses to zero tokens. -/
def capabilityTokens (capabilities : String) : List (List Char) :=
  if capabilities = "" then [] else capabilities.toList.splitOn ','

/-- Modelled from the spec: the key of a `key:value` token, the text before its colon. -/
def tokenKey (token : List Char) : List Char :=
  token.takeWhile (· ≠ ':')

/-- Modelled from the spec: whether a token is a `boot_mode` token. -/
def isBootMode (token : List Char) : Bool :=
  tokenKey token = "boot_mode".toList

/-- Modelled from the spec: the capability string of a token list, comma-separated. -/
def joinTokens (tokens : List (List Char)) : String :=
  String.mk ([','].intercalate tokens)

/-- Modelled from the spec: the capability builder `buildCapabilitiesValue` of `ironic.go`,
which is not among the sources; only its test table is. The argument `capabilities` is
the node property the builder reads, `none` when the node has no such property (scenario
"unset" of the table). A `boot_mode` token is replaced in place, and a new token is
appended when there is none. The operation is the one the table expects: "add" for a node
without the property, "replace" for every string, the empty one included (scenario
"empty"). -/
def buildCapabilitiesValue (capabilities : Option String) (bootMode : BootMode) :
    UpdateOp × String :=
  match capabilities with
  | none => (.AddOp, bootModeCapabilities bootMode)
  | some existingCapabilities =>
    let tokens := capabilityTokens existingCapabilities
    if tokens.any isBootMode then
      (.ReplaceOp, joinTokens (tokens.map (fun token =>
        if isBootMode token then (bootModeCapabilities bootMode).toList else token)))
    else
      (.ReplaceOp, joinTokens (tokens ++ [(bootModeCapabilities bootMode).toList]))

/-- One row of the table of `TestBuildCapabilitiesValue`; `Node` is the capabilities
property of the node of the row. -/
structure CapabilitiesCase where
  Scenario : String
  Node : Option String
  Mode : BootMode
  ExpectedValue : String
  ExpectedOp : UpdateOp
deriving DecidableEq, Repr

/-- The table of `TestBuildCapabilitiesValue` (`ironic_test.go` lines 593-673). -/
def capabilitiesCases : List CapabilitiesCase :=
  [ { Scenario := "unset", Node := none, Mode := .UEFI,
      ExpectedValue := "boot_mode:uefi", ExpectedOp := .AddOp },
    { Scenario := "empty", Node := some "", Mode := .UEFI,
      ExpectedValue := "boot_mode:uefi", ExpectedOp := .ReplaceOp },
    { Scenario := "not-there",
      Node := some "cpu_vt:true,cpu_aes:true,cpu_hugepages:true,cpu_hugepages_1g:true",
      Mode := .UEFI,
      ExpectedValue :=
        "cpu_vt:true,cpu_aes:true,cpu_hugepages:true,cpu_hugepages_1g:true,boot_mode:uefi",
      ExpectedOp := .ReplaceOp },
    { Scenario := "uefi-to-uefi",
      Node := some
        "boot_mode:uefi,cpu_vt:true,cpu_aes:true,cpu_hugepages:true,cpu_hugepages_1g:true",
      Mode := .UEFI,
      ExpectedValue :=
        "boot_mode:uefi,cpu_vt:true,cpu_aes:true,cpu_hugepages:true,cpu_hugepages_1g:true",
      ExpectedOp := .ReplaceOp },
    { Scenario := "bios-to-bios",
      Node := some
        "boot_mode:bios,cpu_vt:true,cpu_aes:true,cpu_hugepages:true,cpu_hugepages_1g:true",
      Mode := .Legacy,
      ExpectedValue :=
        "boot_mode:bios,cpu_vt:true,cpu_aes:true,cpu_hugepages:true,cpu_hugepages_1g:true",
      ExpectedOp := .ReplaceOp },
    { Scenario := "bios-to-uefi",
      Node := some
        "boot_mode:bios,cpu_vt:true,cpu_aes:true,cpu_hugepages:true,cpu_hugepages_1g:true",
      Mode := .UEFI,
      ExpectedValue :=
        "boot_mode:uefi,cpu_vt:true,cpu_aes:true,cpu_hugepages:true,cpu_hugepages_1g:true",
      ExpectedOp := .ReplaceOp },
    { Scenario := "uefi-to-bios",
      Node := some
        "boot_mode:uefi,cpu_vt:true,cpu_aes:true,cpu_hugepages:true,cpu_hugepages_1g:true",
      Mode := .Legacy,
      ExpectedValue :=
        "boot_mode:bios,cpu_vt:true,cpu_aes:true,cpu_hugepages:true,cpu_hugepages_1g:true",
      ExpectedOp := .ReplaceOp } ]

end Ironic

/-! Firmware settings validation
(`controllers/metal3.io/hostfirmwaresettings_controller.go`). -/

namespace Controllers

/-! ## Go values -/

/-- A Go map with string keys: `none` is the nil map, `some l` a map whose entries are
`l`, with distinct keys, listed in the order a `range` loop visits them. -/
abbrev GoMap (V : Type) := Option (List (String × V))

/-- The entries a `range` loop over the map visits, in order. -/
def GoMap.entries {V : Type} : GoMap V → List (String × V)
  | none => []
  | some l => l

/-- Go `v, ok := m[k]`: `none` when `ok` is false. -/
def GoMap.get? {V : Type} (m : GoMap V) (k : String) : Option V :=
  (GoMap.entries m).lookup k

/-- Go `strings.Contains(s, substr)`. -/
def stringsContains (s substr : String) : Bool :=
  s.toList.tails.any (fun t => substr.toList.isPrefixOf t)

/-! ## Data model -/

/-- Modelled from the spec: the value of a desired setting, a string-or-int union
(`intstr.IntOrString`). -/
inductive IntOrString where
  | int (IntVal : Int)
  | str (StrVal : String)
deriving DecidableEq, Repr

/-- The string form `val.String()` of a value: the string itself, or the integer in
decimal. -/
def IntOrString.String : IntOrString → String
  | .int v => toString v
  | .str s => s

/-- Modelled from the spec: the value of a run of decimal digits, `none` when a character
is not a digit. -/
def digitsValue : List Char → Nat → Option Nat
  | [], acc => some acc
  | c :: cs, acc => if c.isDigit then digitsValue cs (acc * 10 + (c.toNat - 48)) else none

/-- Modelled from the spec: parsing a string as a decimal integer, an optional sign
followed by at least one digit; `none` is a parse failure. -/
def parseInt (s : String) : Option Int :=
  match s.toList with
  | [] => none
  | '-' :: c :: cs => (digitsValue (c :: cs) 0).map (fun n => -(n : Int))
  | '+' :: c :: cs => (digitsValue (c :: cs) 0).map (fun n => (n : Int))
  | cs => (digitsValue cs 0).map (fun n => (n : Int))

/-- Modelled from the spec: the numeric value of a desired value, `none` when a string
value does not parse as an integer. -/
def IntOrString.numeric : IntOrString → Option Int
  | .int v => some v
  | .str s => parseInt s

/-- Modelled from the spec: the attribute type of a Setting Schema Entry with its
per-type metadata: for String the min/max length and the uniqueness flag, for Integer
the lower/upper bound, for Enumeration the allowed value set. -/
inductive AttributeType where
  | string (MinLength MaxLength : Int) (Unique : Bool)
  | integer (LowerBound UpperBound : Int)
  | enumeration (AllowableValues : List String)
deriving DecidableEq, Repr

/-- Modelled from the spec: a Setting Schema Entry (`metal3v1alpha1.SettingSchema`), an
attribute type with its metadata and a read-only flag. -/
structure SettingSchema where
  Attribute : AttributeType
  ReadOnly : Bool
deriving DecidableEq, Repr

/-- The spec of a schema resource (`metal3v1alpha1.FirmwareSchemaSpec`): the map from
setting name to Setting Schema Entry. -/
structure FirmwareSchemaSpec where
  Schema : GoMap SettingSchema
deriving DecidableEq, Repr

/-- A schema resource (`metal3v1alpha1.FirmwareSchema`), of which validation reads `Spec`. -/
structure FirmwareSchema where
  Spec : FirmwareSchemaSpec
deriving DecidableEq, Repr

/-- The reference to a schema resource (`metal3v1alpha1.SchemaReference`). -/
structure SchemaReference where
  Name : String
  Namespace : String
deriving DecidableEq, Repr

/-- The desired settings of the resource (`metal3v1alpha1.HostFirmwareSettingsSpec`). -/
structure HostFirmwareSettingsSpec where
  Settings : GoMap IntOrString := none
deriving DecidableEq, Repr

/-- The observed state of the resource (`metal3v1alpha1.HostFirmwareSettingsStatus`). -/
structure HostFirmwareSettingsStatus where
  FirmwareSchema : Option SchemaReference := none
  Settings : GoMap String := none
deriving DecidableEq, Repr

/-- The settings resource (`metal3v1alpha1.HostFirmwareSettings`) with the parts the
controller reads: annotations, desired settings and observed state. -/
structure HostFirmwareSettings where
  Annotations : GoMap String := none
  Spec : HostFirmwareSettingsSpec := {}
  Status : HostFirmwareSettingsStatus := {}
deriving DecidableEq, Repr

/-- The errors `ValidateHostFirmwareSettings` returns. -/
inductive ValidationError where
  | missingParameter
  | InvalidHostFirmwareNameError (name : String)
  | InvalidHostFirmwareValueError (name : String) (value : String)
deriving DecidableEq, Repr

/-! ## The schema check -/

/-- Modelled from the spec: the verdict of one Setting Schema Entry on a desired value.
A read-only entry rejects every value; a String entry rejects every value when it is
unique and otherwise accepts the values whose length lies in `[MinLength, MaxLength]`;
an Integer entry accepts the values that parse as an integer in
`[LowerBound, UpperBound]`; an Enumeration entry accepts the members of its allowed
value set. -/
def SettingSchema.accepts (entry : SettingSchema) (value : IntOrString) : Bool :=
  if entry.ReadOnly then false
  else
    match entry.Attribute with
    | .string MinLength MaxLength Unique =>
      if Unique then false
      else decide (MinLength ≤ (value.String.length : Int)) &&
        decide ((value.String.length : Int) ≤ MaxLength)
    | .integer LowerBound UpperBound =>
      match value.numeric with
      | none => false
      | some v => decide (LowerBound ≤ v) && decide (v ≤ UpperBound)
    | .enumeration AllowableValues => AllowableValues.contains value.String

/-- Modelled from the spec: the method `FirmwareSchema.CheckSettingIsValid`, declared in
the API package outside the controller: it consults the Setting Schema Entry of the name.
The spec does not say what the check answers for a name without an entry; that answer
is the parameter `absent`. -/
def CheckSettingIsValid (absent : Bool) (_schema : FirmwareSchema) (name : String)
    (value : IntOrString) (schemas : GoMap SettingSchema) : Bool :=
  match GoMap.get? schemas name with
  | none => absent
  | some entry => entry.accepts value

/-! ## `ValidateHostFirmwareSettings` -/

/-- The body of the loop of `ValidateHostFirmwareSettings` for one entry `name, val` of
the desired settings: the error it returns, or `none` when the loop goes on.
`check` is the method `CheckSettingIsValid`. -/
def validateSetting
    (check : FirmwareSchema → String → IntOrString → GoMap SettingSchema → Bool)
    (hfs : HostFirmwareSettings) (schema : Option FirmwareSchema) (name : String)
    (val : IntOrString) : Option ValidationError :=
  -- Prohibit any Spec settings with "Password"
  if stringsContains name "Password" then some (.InvalidHostFirmwareNameError name)
  -- The setting must be in the Status
  else if (GoMap.get? hfs.Status.Settings name).isNone then
    some (.InvalidHostFirmwareNameError name)
  else
    -- check validity of updated value
    match schema with
    | some s =>
      if !check s name val s.Spec.Schema then
        some (.InvalidHostFirmwareValueError name val.String)
      else none
    | none => none

/-- The loop `for name, val := range hfs.Spec.Settings`, over the entries in the order
they are visited. -/
def validateLoop
    (check : FirmwareSchema → String → IntOrString → GoMap SettingSchema → Bool)
    (hfs : HostFirmwareSettings) (schema : Option FirmwareSchema) :
    List (String × IntOrString) → Option ValidationError
  | [] => none
  | (name, val) :: rest =>
    match validateSetting check hfs schema name val with
    | some err => some err
    | none => validateLoop check hfs schema rest

/-- Validate the HostFirmwareSetting Spec; `none` is the nil error. -/
def ValidateHostFirmwareSettings
    (check : FirmwareSchema → String → IntOrString → GoMap SettingSchema → Bool)
    (hfs : Option HostFirmwareSettings) (schema : Option FirmwareSchema) :
    Option ValidationError :=
  match hfs with
  | none => some .missingParameter
  | some hfs => validateLoop check hfs schema (GoMap.entries hfs.Spec.Settings)

/-- An entry passes all three checks of the loop body: no password-like name, an observed
name, and a value the schema accepts when a schema is given. -/
def settingOK
    (check : FirmwareSchema → String → IntOrString → GoMap SettingSchema → Bool)
    (hfs : HostFirmwareSettings) (schema : Option FirmwareSchema) (name : String)
    (val : IntOrString) : Bool :=
  !stringsContains name "Password" && (GoMap.get? hfs.Status.Settings name).isSome &&
    (match schema with
      | none => true
      | some s => check s name val s.Spec.Schema)

/-! ## Sample inputs -/

/-- The schema of the controller tests (`createSchemaResource`). -/
def testSchema : FirmwareSchema :=
  { Spec := { Schema := some [
      ("AssetTag", { Attribute := .string 0 20 true, ReadOnly := false }),
      ("CustomPostMessage", { Attribute := .string 0 20 false, ReadOnly := false }),
      ("L2Cache", { Attribute := .string 0 20 false, ReadOnly := true }),
      ("NetworkBootRetryCount", { Attribute := .integer 0 20, ReadOnly := false }),
      ("ProcVirtualization",
        { Attribute := .enumeration ["Enabled", "Disabled"], ReadOnly := false })] } }

/-- The observed settings of the controller tests (`createHFSResource`). -/
def testStatus : HostFirmwareSettingsStatus :=
  { Settings := some [
      ("CustomPostMessage", "All tests passed"),
      ("L2Cache", "10x256 KB"),
      ("NetworkBootRetryCount", "10"),
      ("ProcVirtualization", "Enabled"),
      ("SecureBoot", "Enabled"),
      ("AssetTag", "X45672917")] }

/-- The settings resource of the tests with the given desired settings. -/
def testSettings (desired : List (String × IntOrString)) : HostFirmwareSettings :=
  { Spec := { Settings := some desired }, Status := testStatus }

/-- A schema and observed settings in which three settings have a password-like name:
an enumeration, an integer and a read-only string. -/
def passwordSchema : FirmwareSchema :=
  { Spec := { Schema := some [
      ("PasswordPolicy",
        { Attribute := .enumeration ["Enabled", "Disabled"], ReadOnly := false }),
      ("PasswordRetryCount", { Attribute := .integer 0 20, ReadOnly := false }),
      ("SysPassword", { Attribute := .string 0 20 false, ReadOnly := true })] } }

/-- The settings resource that observes the three settings of `passwordSchema`. -/
def passwordSettings (desired : List (String × IntOrString)) : HostFirmwareSettings :=
  { Spec := { Settings := some desired },
    Status := { Settings := some [("PasswordPolicy", "Enabled"),
      ("PasswordRetryCount", "3"), ("SysPassword", "")] } }

/-! ## `GetSchemaName`

The digest `crypto/sha256` of the Go standard library is written out after FIPS 180-4, over
bytes and 32-bit words held in `Nat`. -/

/-- A 32-bit word: the value modulo `2^32`. -/
def word32 (x : Nat) : Nat := x % 4294967296

/-- Rotation of a 32-bit word to the right by `n` bits. -/
def rotr (x n : Nat) : Nat := word32 ((x >>> n) ||| (x <<< (32 - n)))

/-- The 64 round constants of SHA-256. -/
def sha256K : List Nat :=
   [0x428a2f98, 0x71374491, 0xb5c0fbcf, 0xe9b5dba5, 0x3956c25b, 0x59f111f1,
    0x923f82a4, 0xab1c5ed5, 0xd807aa98, 0x12835b01, 0x243185be, 0x550c7dc3,
    0x72be5d74, 0x80deb1fe, 0x9bdc06a7, 0xc19bf174, 0xe49b69c1, 0xefbe4786,
    0x0fc19dc6, 0x240ca1cc, 0x2de92c6f, 0x4a7484aa, 0x5cb0a9dc, 0x76f988da,
    0x983e5152, 0xa831c66d, 0xb00327c8, 0xbf597fc7, 0xc6e00bf3, 0xd5a79147,
    0x06ca6351, 0x14292967, 0x27b70a85, 0x2e1b2138, 0x4d2c6dfc, 0x53380d13,
    0x650a7354, 0x766a0abb, 0x81c2c92e, 0x92722c85, 0xa2bfe8a1, 0xa81a664b,
    0xc24b8b70, 0xc76c51a3, 0xd192e819, 0xd6990624, 0xf40e3585, 0x106aa070,
    0x19a4c116, 0x1e376c08, 0x2748774c, 0x34b0bcb5, 0x391c0cb3, 0x4ed8aa4a,
    0x5b9cca4f, 0x682e6ff3, 0x748f82ee, 0x78a5636f, 0x84c87814, 0x8cc70208,
    0x90befffa, 0xa4506ceb, 0xbef9a3f7, 0xc67178f2]

/-- The eight working variables of SHA-256. -/
structure Sha256State where
  a : Nat
  b : Nat
  c : Nat
  d : Nat
  e : Nat
  f : Nat
  g : Nat
  h : Nat
deriving DecidableEq, Repr

/-- The initial hash value of SHA-256. -/
def sha256Init : Sha256State :=
  ⟨0x6a09e667, 0xbb67ae85, 0x3c6ef372, 0xa54ff53a, 0x510e527f, 0x9b05688c, 0x1f83d9ab,
    0x5be0cd19⟩

/-- The padded message: the bytes, the byte `0x80`, zero bytes up to 56 modulo 64, and the
bit length as eight big-endian bytes. -/
def sha256Pad (msg : List Nat) : List Nat :=
  msg ++ [0x80] ++ List.replicate ((55 + 64 - msg.length % 64) % 64) 0 ++
    (List.range 8).map (fun i => ((8 * msg.length) >>> (8 * (7 - i))) % 256)

/-- The big-endian 32-bit words of a byte list. -/
def sha256Words : List Nat → List Nat
  | b0 :: b1 :: b2 :: b3 :: rest =>
    (b0 * 16777216 + b1 * 65536 + b2 * 256 + b3) :: sha256Words rest
  | _ => []

/-- The first `n` blocks of sixteen words. -/
def sha256Blocks : Nat → List Nat → List (List Nat)
  | 0, _ => []
  | n + 1, ws => ws.take 16 :: sha256Blocks n (ws.drop 16)

/-- The message schedule, extended by `n` words; `w` holds the words so far, the latest
first. -/
def sha256Extend : Nat → List Nat → List Nat
  | 0, w => w
  | n + 1, w =>
    let w2 := w.getD 1 0
    let w7 := w.getD 6 0
    let w15 := w.getD 14 0
    let w16 := w.getD 15 0
    let s0 := rotr w15 7 ^^^ rotr w15 18 ^^^ (w15 >>> 3)
    let s1 := rotr w2 17 ^^^ rotr w2 19 ^^^ (w2 >>> 10)
    sha256Extend n (word32 (w16 + s0 + w7 + s1) :: w)

/-- One round of the compression function with round constant `k` and schedule word `w`. -/
def sha256Round (s : Sha256State) (k w : Nat) : Sha256State :=
  let S1 := rotr s.e 6 ^^^ rotr s.e 11 ^^^ rotr s.e 25
  let ch := (s.e &&& s.f) ^^^ ((4294967295 - s.e) &&& s.g)
  let t1 := word32 (s.h + S1 + ch + k + w)
  let S0 := rotr s.a 2 ^^^ rotr s.a 13 ^^^ rotr s.a 22
  let maj := (s.a &&& s.b) ^^^ (s.a &&& s.c) ^^^ (s.b &&& s.c)
  let t2 := word32 (S0 + maj)
  ⟨word32 (t1 + t2), s.a, s.b, s.c, word32 (s.d + t1), s.e, s.f, s.g⟩

/-- The rounds over the constants and the schedule. -/
def sha256Rounds : Sha256State → List Nat → List Nat → Sha256State
  | s, k :: ks, w :: ws => sha256Rounds (sha256Round s k w) ks ws
  | s, _, _ => s

/-- The compression of one block into the hash value. -/
def sha256Compress (s : Sha256State) (block : List Nat) : Sha256State :=
  let t := sha256Rounds s sha256K (sha256Extend 48 block.reverse).reverse
  ⟨word32 (s.a + t.a), word32 (s.b + t.b), word32 (s.c + t.c), word32 (s.d + t.d),
    word32 (s.e + t.e), word32 (s.f + t.f), word32 (s.g + t.g), word32 (s.h + t.h)⟩

/-- The four big-endian bytes of a 32-bit word. -/
def wordBytes (w : Nat) : List Nat :=
  [w >>> 24 % 256, w >>> 16 % 256, w >>> 8 % 256, w % 256]

/-- The digest `h.Sum(nil)` after `h.Write(msg)` on a fresh `sha256.New()`: 32 bytes. -/
def sha256Sum (msg : List Nat) : List Nat :=
  let p := sha256Pad msg
  let s := (sha256Blocks (p.length / 64) (sha256Words p)).foldl sha256Compress sha256Init
  wordBytes s.a ++ wordBytes s.b ++ wordBytes s.c ++ wordBytes s.d ++
    wordBytes s.e ++ wordBytes s.f ++ wordBytes s.g ++ wordBytes s.h

/-- The UTF-8 bytes of a character. -/
def utf8Bytes (c : Char) : List Nat :=
  let n := c.toNat
  if n < 0x80 then [n]
  else if n < 0x800 then [0xC0 + n / 64, 0x80 + n % 64]
  else if n < 0x10000 then [0xE0 + n / 4096, 0x80 + n / 64 % 64, 0x80 + n % 64]
  else [0xF0 + n / 262144, 0x80 + n / 4096 % 64, 0x80 + n / 64 % 64, 0x80 + n % 64]

/-- Go `[]byte(s)`: the UTF-8 bytes of a string. -/
def stringBytes (s : String) : List Nat :=
  s.toList.flatMap utf8Bytes

/-- One lowercase hexadecimal digit. -/
def hexDigit (n : Nat) : Char :=
  "0123456789abcdef".toList.getD n '0'

/-- Go `fmt.Sprintf("%x", bytes)`: two lowercase hexadecimal digits per byte. -/
def hexString (bytes : List Nat) : List Char :=
  bytes.flatMap (fun b => [hexDigit (b / 16), hexDigit (b % 16)])

/-- Go `fmt.Sprintf("%v", keys)` for a string slice: the elements separated by one space,
in square brackets. -/
def formatKeys (keys : List String) : String :=
  "[" ++ " ".intercalate keys ++ "]"

/-- Go `sort.Strings(keys)`: the keys in increasing order. Go compares strings byte by
byte, which on UTF-8 text is the lexicographic order of the characters. -/
def sortStrings (keys : List String) : List String :=
  keys.insertionSort (fun a b => a.toList ≤ b.toList)

/-- Generate a name based on the schema keys which should be the same for similar
hardware. -/
def GetSchemaName (schema : GoMap SettingSchema) : String :=
  let keys := (GoMap.entries schema).map Prod.fst
  let keys := sortStrings keys
  let hash := (hexString (sha256Sum (stringBytes (formatKeys keys)))).take 8
  "schema-" ++ String.mk hash

/-! ## `Reconcile` -/

/-- The key of a resource (`types.NamespacedName`). -/
structure NamespacedName where
  Namespace : String
  Name : String
deriving DecidableEq, Repr

/-- The result of a reconcile pass (`ctrl.Result`); `{}` is the empty result, which asks
for no requeue. -/
structure Result where
  Requeue : Bool := false
  RequeueAfter : Nat := 0
deriving DecidableEq, Repr

/-- An error of the client: the resource is not found, or any other failure. -/
inductive ClientError where
  | notFound
  | other (message : String)
deriving DecidableEq, Repr

/-- The client embedded in the reconciler together with the store it talks to: the
stored settings and schema resources by key, and the failures the next calls meet
(a read error other than not-found, an update error). -/
structure Client where
  settings : List (NamespacedName × HostFirmwareSettings) := []
  schemas : List (NamespacedName × FirmwareSchema) := []
  getSettingsFault : Option String := none
  getSchemaFault : Option String := none
  updateFault : Option String := none
deriving DecidableEq, Repr

/-- The call `r.Get(ctx, key, hfs)` for a settings resource. -/
def Client.getSettings (r : Client) (key : NamespacedName) :
    Except ClientError HostFirmwareSettings :=
  match r.getSettingsFault with
  | some message => .error (.other message)
  | none =>
    match r.settings.lookup key with
    | some hfs => .ok hfs
    | none => .error .notFound

/-- The call `r.Get(ctx, key, schema)` for a schema resource. -/
def Client.getSchema (r : Client) (key : NamespacedName) : Except ClientError FirmwareSchema :=
  match r.getSchemaFault with
  | some message => .error (.other message)
  | none =>
    match r.schemas.lookup key with
    | some schema => .ok schema
    | none => .error .notFound

/-- The call `r.Update(ctx, hfs)` for the settings resource stored under `key`: the store
after the call and the returned error. A failed update leaves the store as it was. -/
def Client.update (r : Client) (key : NamespacedName) (hfs : HostFirmwareSettings) :
    Client × Option ClientError :=
  match r.updateFault with
  | some message => (r, some (.other message))
  | none =>
    match r.settings.lookup key with
    | none => (r, some .notFound)
    | some _ =>
      ({ r with settings := r.settings.map (fun e => if e.1 = key then (key, hfs) else e) },
        none)

/-- An error returned by `Reconcile`: `errors.Wrap(err, message)`. -/
structure ReconcileError where
  message : String
  cause : ClientError
deriving DecidableEq, Repr

/-- What a reconcile pass leaves behind: the returned pair, the client with its store
after the pass, and the messages written to the log. -/
structure ReconcileOutcome where
  result : Result
  err : Option ReconcileError
  client : Client
  log : List String
deriving DecidableEq, Repr

/-- The block of `Reconcile` that restores the schema reference after a pivot (lines
71-82): the resource in memory, the client after the update, and the log. The two
annotation keys are constants of the API package. -/
def restoreFirmwareSchema ( FirmwareSchemaNameAnnotation FirmwareSchemaNamespaceAnnotation : String)
    (r : Client) (req : NamespacedName) (hfs : HostFirmwareSettings) (log : List String) :
    HostFirmwareSettings × Client × List String :=
  match hfs.Status.FirmwareSchema with
  | some _ => (hfs, r, log)
  | none =>
    match GoMap.get? hfs.Annotations FirmwareSchemaNameAnnotation with
    | none => (hfs, r, log)
    | some name =>
      let ref : SchemaReference :=
        { Name := name,
          Namespace := (GoMap.get? hfs.Annotations FirmwareSchemaNamespaceAnnotation).getD "" }
      let status : HostFirmwareSettingsStatus := { hfs.Status with FirmwareSchema := some ref }
      let hfs : HostFirmwareSettings := { hfs with Status := status }
      match r.update req hfs with
      | (r, some _) => (hfs, r, log ++ ["could not update hostfirmwaresettings"])
      | (r, none) => (hfs, r, log)

/-- The last step of `Reconcile` (lines 109-115): validation, whose error is only logged. -/
def validateAndFinish
    (check : FirmwareSchema → String → IntOrString → GoMap SettingSchema → Bool)
    (r : Client) (hfs : HostFirmwareSettings) (schema : Option FirmwareSchema)
    (log : List String) : ReconcileOutcome :=
  match ValidateHostFirmwareSettings check (some hfs) schema with
  | some _ =>
    -- only run again on changes
    { result := {}, err := none, client := r,
      log := log ++ ["hostFirmwareSetting validation failed"] }
  | none => { result := {}, err := none, client := r, log := log }

/-- Reconcile is part of the main kubernetes reconciliation loop which aims to move the
current state of the cluster closer to the desired state. -/
def Reconcile
    (check : FirmwareSchema → String → IntOrString → GoMap SettingSchema → Bool)
    ( FirmwareSchemaNameAnnotation FirmwareSchemaNamespaceAnnotation : String)
    (r : Client) (req : NamespacedName) : ReconcileOutcome :=
  let log := ["start"]
  -- Fetch the HostFirmwareSettings
  match r.getSettings req with
  | .error .notFound =>
    { result := {}, err := none, client := r,
      log := log ++ ["could not find host firmware settings"] }
  | .error err =>
    { result := {}, err := some ⟨"could not load host firmware settings", err⟩, client := r,
      log := log }
  | .ok hfs =>
    -- Check if settings has been cleared during pivot
    match restoreFirmwareSchema FirmwareSchemaNameAnnotation
        FirmwareSchemaNamespaceAnnotation r req hfs log with
    | (hfs, r, log) =>
      if hfs.Status.Settings = none then
        { result := {}, err := none, client := r,
          log := log ++ ["hostfirmwaresettings settings field has been cleared"] }
      else
        -- Get the referenced schema
        match hfs.Status.FirmwareSchema with
        | some ref =>
          match r.getSchema { Namespace := ref.Namespace, Name := ref.Name } with
          | .error .notFound =>
            { result := {}, err := none, client := r,
              log := log ++ ["could not find firmware schema for host"] }
          | .error err =>
            { result := {}, err := some ⟨"could not load firmware schema", err⟩, client := r,
              log := log }
          | .ok schema => validateAndFinish check r hfs (some schema) log
        | none => validateAndFinish check r hfs none log

/-- The resource of the test `TestReconcilerAfterPivot`, with cleared status and the two
annotations `name` and `namespace`. -/
def pivotSettings : HostFirmwareSettings :=
  { Annotations := some [("name", "schema-6579d6c1"), ("namespace", "myHostNamespace")],
    Spec := { Settings := some [("L2Cache", .str "10x512 KB"),
      ("ProcVirtualization", .str "Disabled"), ("NetworkBootRetryCount", .str "20")] },
    Status := {} }

/-- The key of the test resource. -/
def testKey : NamespacedName := { Namespace := "myHostNamespace", Name := "myHostName" }

end Controllers

/-! BMC access resolution (`pkg/bmc/access.go`). -/

namespace BMC

/-! ## The URL of the Go standard library

`url.Parse`, `URL.Hostname` and `net.SplitHostPort` belong to the Go standard library. They
are parameters of `getParsedURL` and `NewAccessDetails`; the definitions of this section
follow the library source and serve to evaluate sample addresses. Strings are handled
character by character, and an escaped byte above `0x7f` is kept as one character. -/

/-- The user part of a URL (`url.Userinfo`). -/
structure Userinfo where
  username : String
  password : String := ""
  passwordSet : Bool := false
deriving DecidableEq, Repr

/-- A parsed URL (`url.URL`), without the raw-encoding hints. -/
structure URL where
  Scheme : String := ""
  Opaque : String := ""
  User : Option Userinfo := none
  Host : String := ""
  Path : String := ""
  ForceQuery : Bool := false
  RawQuery : String := ""
  Fragment : String := ""
deriving DecidableEq, Repr

/-- Go `strings.LastIndex(s, c)` for a one-character `c`: `none` is `-1`. -/
def lastIndex (c : Char) (s : List Char) : Option Nat :=
  let i := s.reverse.indexOf c
  if i < s.length then some (s.length - 1 - i) else none

/-- Go `strings.Cut(s, c)` for a one-character `c`: the part before the first `c` and the
part after it, empty when there is no `c`. -/
def cut (c : Char) : List Char → List Char × List Char
  | [] => ([], [])
  | x :: xs => if x = c then ([], xs) else ((cut c xs).1.cons x, (cut c xs).2)

/-- Go `strings.Index(s, sub)`: `none` is `-1`. -/
def indexOfSub (sub : List Char) : List Char → Nat → Option Nat
  | [], i => if sub.isEmpty then some i else none
  | c :: cs, i => if sub.isPrefixOf (c :: cs) then some i else indexOfSub sub cs (i + 1)

/-- The `validOptionalPort` of `net/url`: empty, or a colon followed by digits. -/
def validOptionalPort (port : List Char) : Bool :=
  match port with
  | [] => true
  | c :: digits => c = ':' && digits.all (fun b => '0' ≤ b && b ≤ '9')

/-- The method `URL.Hostname`: the host without a valid port and without the square
brackets of an IPv6 literal. -/
def URL.Hostname (u : URL) : String :=
  let host := u.Host.toList
  let host :=
    match lastIndex ':' host with
    | some colon => if validOptionalPort (host.drop colon) then host.take colon else host
    | none => host
  let host :=
    if host.head? = some '[' ∧ host.getLast? = some ']' then (host.drop 1).dropLast else host
  String.mk host

/-- The `stringContainsCTLByte` of `net/url`. -/
def stringContainsCTLByte (s : List Char) : Bool :=
  s.any (fun c => c.toNat < 32 || c.toNat = 127)

/-- The loop of `getScheme` of `net/url` over the characters left, with the characters
seen so far in reverse: the scheme and the rest, or an error. -/
def getSchemeLoop (rawURL : List Char) : List Char → List Char →
    Except String (List Char × List Char)
  | [], _ => .ok ([], rawURL)
  | c :: cs, seen =>
    if c.isAlpha then getSchemeLoop rawURL cs (c :: seen)
    else if c.isDigit || c = '+' || c = '-' || c = '.' then
      if seen.isEmpty then .ok ([], rawURL) else getSchemeLoop rawURL cs (c :: seen)
    else if c = ':' then
      if seen.isEmpty then .error "missing protocol scheme" else .ok (seen.reverse, cs)
    else .ok ([], rawURL)

/-- The `getScheme` of `net/url`. -/
def getScheme (rawURL : List Char) : Except String (List Char × List Char) :=
  getSchemeLoop rawURL rawURL []

/-- The modes of `unescape` that parsing uses. -/
inductive Encoding where
  | encodePath
  | encodeHost
  | encodeZone
  | encodeUserPassword
  | encodeFragment
deriving DecidableEq, Repr

/-- The `shouldEscape` of `net/url` in host mode. -/
def shouldEscapeHost (c : Char) : Bool :=
  !(c.isAlphanum ||
    ['!', '$', '&', Char.ofNat 39, '(', ')', '*', '+', ',', ';', '=', ':', '[', ']', '<', '>',
      Char.ofNat 34, '-', '_', '.', '~'].contains c)

/-- The `ishex` of `net/url`. -/
def ishex (c : Char) : Bool :=
  c.isDigit || ('a' ≤ c && c ≤ 'f') || ('A' ≤ c && c ≤ 'F')

/-- The `unhex` of `net/url`. -/
def unhex (c : Char) : Nat :=
  if c.isDigit then c.toNat - 48
  else if 'a' ≤ c && c ≤ 'f' then c.toNat - 97 + 10
  else if 'A' ≤ c && c ≤ 'F' then c.toNat - 65 + 10
  else 0

/-- The `unescape` of `net/url`: every `%` needs two hexadecimal digits, a host accepts
neither an escaped ASCII byte other than `%25` nor a character that would need
escaping, and valid escapes are decoded. -/
def unescape (mode : Encoding) : List Char → Except String (List Char)
  | [] => .ok []
  | '%' :: h1 :: h2 :: rest =>
    if !(ishex h1 && ishex h2) then .error "invalid URL escape"
    else if mode = .encodeHost ∧ unhex h1 < 8 ∧ ¬ (h1 = '2' ∧ h2 = '5') then
      .error "invalid URL escape"
    else if mode = .encodeZone ∧ ¬ (h1 = '2' ∧ h2 = '5') ∧ unhex h1 * 16 + unhex h2 ≠ 32 ∧
        shouldEscapeHost (Char.ofNat (unhex h1 * 16 + unhex h2)) then
      .error "invalid URL escape"
    else
      match unescape mode rest with
      | .error e => .error e
      | .ok out => .ok (Char.ofNat (unhex h1 * 16 + unhex h2) :: out)
  | '%' :: _ => .error "invalid URL escape"
  | c :: rest =>
    if (mode = .encodeHost ∨ mode = .encodeZone) ∧ c ≠ '+' ∧ c.toNat < 128 ∧
        shouldEscapeHost c then
      .error "invalid character in host name"
    else
      match unescape mode rest with
      | .error e => .error e
      | .ok out => .ok (c :: out)

/-- The `parseHost` of `net/url`. -/
def parseHost (host : List Char) : Except String (List Char) :=
  if host.head? = some '[' then
    match lastIndex ']' host with
    | none => .error "missing ']' in host"
    | some i =>
      if !validOptionalPort (host.drop (i + 1)) then .error "invalid port after host"
      else
        match indexOfSub ['%', '2', '5'] (host.take i) 0 with
        | some zone =>
          match unescape .encodeHost (host.take zone),
            unescape .encodeZone ((host.take i).drop zone), unescape .encodeHost (host.drop i) with
          | .ok host1, .ok host2, .ok host3 => .ok (host1 ++ host2 ++ host3)
          | .error e, _, _ => .error e
          | _, .error e, _ => .error e
          | _, _, .error e => .error e
        | none => unescape .encodeHost host
  else
    match lastIndex ':' host with
    | some i =>
      if !validOptionalPort (host.drop i) then .error "invalid port after host"
      else unescape .encodeHost host
    | none => unescape .encodeHost host

/-- The `validUserinfo` of `net/url`. -/
def validUserinfo (s : List Char) : Bool :=
  s.all (fun r => r.isAlphanum ||
    ['-', '.', '_', ':', '~', '!', '$', '&', Char.ofNat 39, '(', ')', '*', '+', ',', ';', '=',
      '%', '@'].contains r)

/-- The `parseAuthority` of `net/url`: the user and the host. -/
def parseAuthority (authority : List Char) : Except String (Option Userinfo × List Char) :=
  match lastIndex '@' authority with
  | none =>
    match parseHost authority with
    | .error e => .error e
    | .ok host => .ok (none, host)
  | some i =>
    match parseHost (authority.drop (i + 1)) with
    | .error e => .error e
    | .ok host =>
      let userinfo := authority.take i
      if !validUserinfo userinfo then .error "net/url: invalid userinfo"
      else if !userinfo.contains ':' then
        match unescape .encodeUserPassword userinfo with
        | .error e => .error e
        | .ok username => .ok (some { username := String.mk username }, host)
      else
        match unescape .encodeUserPassword (cut ':' userinfo).1,
          unescape .encodeUserPassword (cut ':' userinfo).2 with
        | .ok username, .ok password =>
          .ok (some (Userinfo.mk (String.mk username) (String.mk password) true), host)
        | .error e, _ => .error e
        | _, .error e => .error e

/-- The end of `parse` of `net/url`: the authority, when the rest starts with `//`, and
the path. -/
def parseAuthorityAndPath (url : URL) (rest : List Char) : Except String URL :=
  if (url.Scheme ≠ "" ∨ ¬ (['/', '/', '/'].isPrefixOf rest)) ∧ ['/', '/'].isPrefixOf rest then
    -- the authority ends before the first "/", where the path starts
    match parseAuthority ((rest.drop 2).takeWhile (fun c => c ≠ '/')) with
    | .error e => .error e
    | .ok (user, host) =>
      match unescape .encodePath ((rest.drop 2).dropWhile (fun c => c ≠ '/')) with
      | .error e => .error e
      | .ok path => .ok { url with User := user, Host := String.mk host, Path := String.mk path }
  else
    match unescape .encodePath rest with
    | .error e => .error e
    | .ok path => .ok { url with Path := String.mk path }

/-- The `parse` of `net/url` for a URL that does not come from a request line. -/
def parse (rawURL : List Char) : Except String URL :=
  if stringContainsCTLByte rawURL then .error "net/url: invalid control character in URL"
  else if rawURL = ['*'] then .ok { Path := "*" }
  else
    -- Split off possible leading "http:", "mailto:", etc.
    match getScheme rawURL with
    | .error e => .error e
    | .ok (scheme, rest) =>
      let url : URL := { Scheme := String.mk (scheme.map Char.toLower) }
      let (url, rest) : URL × List Char :=
        if rest.getLast? = some '?' ∧ rest.count '?' = 1 then
          ({ url with ForceQuery := true }, rest.dropLast)
        else ({ url with RawQuery := String.mk (cut '?' rest).2 }, (cut '?' rest).1)
      if rest.head? ≠ some '/' then
        if url.Scheme ≠ "" then
          -- We consider rootless paths per RFC 3986 as opaque.
          .ok { url with Opaque := String.mk rest }
        else if (cut '/' rest).1.contains ':' then
          -- First path segment has colon. Not allowed in relative URL.
          .error "first path segment in URL cannot contain colon"
        else parseAuthorityAndPath url rest
      else parseAuthorityAndPath url rest

/-- Equality of results is decidable when equality of errors and of values is. -/
instance instDecidableEqExcept {ε α : Type} [DecidableEq ε] [DecidableEq α] :
    DecidableEq (Except ε α)
  | .ok a, .ok b => if h : a = b then isTrue (by rw [h]) else isFalse (by intro hc; cases hc; exact h rfl)
  | .error a, .error b =>
    if h : a = b then isTrue (by rw [h]) else isFalse (by intro hc; cases hc; exact h rfl)
  | .ok _, .error _ => isFalse (by intro hc; cases hc)
  | .error _, .ok _ => isFalse (by intro hc; cases hc)

/-- The function `url.Parse`: the fragment is cut off and parsed apart. -/
def urlParse (rawURL : String) : Except String URL :=
  match parse (cut '#' rawURL.toList).1 with
  | .error e => .error e
  | .ok url =>
    if (cut '#' rawURL.toList).2 = [] then .ok url
    else
      match unescape .encodeFragment (cut '#' rawURL.toList).2 with
      | .error e => .error e
      | .ok fragment => .ok { url with Fragment := String.mk fragment }

/-- The function `net.SplitHostPort`: the host and the port, or an error. -/
def SplitHostPort (hostport : String) : Except String (String × String) :=
  let s := hostport.toList
  -- The port starts after the last colon.
  match lastIndex ':' s with
  | none => .error "missing port in address"
  | some i =>
    if s.head? = some '[' then
      -- Expect the first ']' just before the last ':'.
      match s.indexOf? ']' with
      | none => .error "missing ']' in address"
      | some close =>
        if close + 1 = s.length then .error "missing port in address"
        else if close + 1 = i then
          if (s.drop 1).contains '[' then .error "unexpected '[' in address"
          else if (s.drop (close + 1)).contains ']' then .error "unexpected ']' in address"
          else .ok (String.mk ((s.take close).drop 1), String.mk (s.drop (i + 1)))
        else if s.get? (close + 1) = some ':' then .error "too many colons in address"
        else .error "missing port in address"
    else if (s.take i).contains ':' then .error "too many colons in address"
    else if s.contains '[' then .error "unexpected '[' in address"
    else if s.contains ']' then .error "unexpected ']' in address"
    else .ok (String.mk (s.take i), String.mk (s.drop (i + 1)))

/-! ## `getParsedURL` -/

/-- Go `strings.Replace(s, old, new, 1)` for a non-empty `old`: the first occurrence of
`old` is replaced. -/
def replaceFirst (old new : List Char) : List Char → List Char
  | [] => []
  | c :: cs =>
    if old.isPrefixOf (c :: cs) then new ++ (c :: cs).drop old.length
    else c :: replaceFirst old new cs

/-- An error wrapped by `errors.Wrap(err, message)`. -/
structure WrappedError (E : Type) where
  message : String
  cause : E
deriving DecidableEq, Repr

/-- The function getParsedURL: the URL of an address, or the wrapped parse error.
`Parse` is `url.Parse` and `splitHostPort` is `net.SplitHostPort`. -/
def getParsedURL {E E2 : Type} (Parse : String → Except E URL)
    (splitHostPort : String → Except E2 (String × String)) (address : String) :
    Except (WrappedError E) URL :=
  -- Start by assuming "type://host:port"
  match Parse address with
  | .error err =>
    -- We failed to parse the URL, but it may just be a host or host:port string
    if Controllers.stringsContains address ":" then
      -- If we can parse host:port, carry on with those values.
      match splitHostPort address with
      | .error _ => .error ⟨"failed to parse BMC address information", err⟩
      | .ok _ => .ok { Scheme := "ipmi", Host := address }
    else .ok { Scheme := "ipmi", Host := address }
  | .ok parsedURL =>
    -- Successfully parsed the URL
    let reparsed : Except (WrappedError E) URL :=
      if parsedURL.Opaque ≠ "" then
        match Parse (String.mk (replaceFirst [':'] [':', '/', '/'] address.toList)) with
        | .error err => .error ⟨"failed to parse BMC address information", err⟩
        | .ok u => .ok u
      else .ok parsedURL
    match reparsed with
    | .error e => .error e
    | .ok parsedURL =>
      if parsedURL.Scheme = "" then
        if parsedURL.Hostname = "" then
          -- If there was no scheme at all, the hostname was interpreted as a path.
          match Parse ("ipmi://" ++ address) with
          | .error err => .error ⟨"failed to parse BMC address information", err⟩
          | .ok u => .ok u
        else .ok parsedURL
      else .ok parsedURL

/-! ## The factory registry and `NewAccessDetails` -/

/-- AccessDetailsFactory describes a callable that returns a new AccessDetails based on
the input parameters; `A` is the interface `AccessDetails`, `F` the type of its errors. -/
abbrev AccessDetailsFactory (A F : Type) := URL → Bool → Option A × Option F

/-- The map `factories` from scheme to factory. -/
abbrev Registry (A F : Type) := List (String × AccessDetailsFactory A F)

/-- Go `factories[k] = factory`. -/
def Registry.set {A F : Type} (factories : Registry A F) (k : String)
    (factory : AccessDetailsFactory A F) : Registry A F :=
  (k, factory) :: factories.filter (fun e => e.1 ≠ k)

/-- RegisterFactory maps a BMC type name to an AccessDetailsFactory, with optional scheme
extensions; the registry after the call is returned. -/
def RegisterFactory {A F : Type} (factories : Registry A F) (name : String)
    (factory : AccessDetailsFactory A F) (schemes : List String) : Registry A F :=
  schemes.foldl (fun factories scheme => Registry.set factories (name ++ "+" ++ scheme) factory)
    (Registry.set factories name factory)

/-- The errors `NewAccessDetails` returns: its own ("missing BMC address"), the wrapped
parse error, the `UnknownBMCTypeError` with its two fields, and the error of a factory. -/
inductive AccessError (E F : Type) where
  | missingAddress
  | parse (err : WrappedError E)
  | UnknownBMCTypeError (address : String) (BMCType : String)
  | factory (err : F)
deriving DecidableEq, Repr

/-- NewAccessDetails creates an AccessDetails structure from the URL for a BMC. -/
def NewAccessDetails {A E E2 F : Type} (Parse : String → Except E URL)
    (splitHostPort : String → Except E2 (String × String)) (factories : Registry A F)
    (address : String) (disableCertificateVerification : Bool) :
    Option A × Option (AccessError E F) :=
  if address = "" then (none, some .missingAddress)
  else
    match getParsedURL Parse splitHostPort address with
    | .error err => (none, some (.parse err))
    | .ok parsedURL =>
      match factories.lookup parsedURL.Scheme with
      | none => (none, some (.UnknownBMCTypeError address parsedURL.Scheme))
      | some factory =>
        ((factory parsedURL disableCertificateVerification).1,
          (factory parsedURL disableCertificateVerification).2.map .factory)

/-! ## Sample inputs -/

/-- A factory for the samples: the descriptor is the driver name with the host, and a URL
without a host is refused. -/
def sampleFactory (driver : String) : AccessDetailsFactory (String × String) String :=
  fun parsedURL _ =>
    if parsedURL.Host = "" then (none, some "missing host") else (some (driver, parsedURL.Host), none)

/-- A registry for the samples, built by two registrations. -/
def sampleRegistry : Registry (String × String) String :=
  RegisterFactory (RegisterFactory [] "ipmi" (sampleFactory "ipmi") [])
    "redfish" (sampleFactory "redfish") ["http", "https"]

/-! ## `buildBIOSSettings` -/

/-- The value of one struct field as `reflect` reports it, by kind: a string, a bool, a
float, a signed or an unsigned integer, or a value of any other kind. `F` is the type of
the float values, which are only handed to `strconv.FormatFloat`. -/
inductive FieldValue (F : Type) where
  | string (s : String)
  | bool (b : Bool)
  | float (f : F)
  | int (i : Int)
  | uint (n : Nat)
  | other
deriving DecidableEq, Repr

/-- The argument `firmwareConfig`, an empty interface: a struct value, given by its fields in
declaration order (a Go field name is never empty), or a value of another kind (a
pointer, the nil interface), on which `NumField` panics. -/
inductive FirmwareConfig (F : Type) where
  | struct (fields : List (String × FieldValue F))
  | notStruct (kind : String)
deriving DecidableEq, Repr

/-- The error `buildBIOSSettings` creates, carrying the recovered panic value. -/
inductive BIOSError where
  | recovered (r : String)
deriving DecidableEq, Repr

/-- The message of the error, as the format string of `access.go` renders it. -/
def BIOSError.message : BIOSError → String
  | .recovered r => "panic in build BIOS settings: " ++ r

/-- Go `len(m)` of a map. -/
def mapLen {V : Type} (m : Controllers.GoMap V) : Nat :=
  (Controllers.GoMap.entries m).length

/-- Go `m[k]` on a `map[string]string`: the zero value "" for a missing key. -/
def mapIndex (m : Controllers.GoMap String) (k : String) : String :=
  (Controllers.GoMap.get? m k).getD ""

/-- The loop `for i < j` of Go `sort.Search`, run for at most `fuel` rounds. Every round
shrinks `j - i`, so `j - i` rounds are always enough. -/
def searchLoop (f : Nat → Bool) : Nat → Nat → Nat → Nat
  | 0, i, _ => i
  | fuel + 1, i, j =>
    if i < j then
      let h := (i + j) / 2
      -- i ≤ h < j
      if !f h then searchLoop f fuel (h + 1) j -- preserves f(i-1) == false
      else searchLoop f fuel i h -- preserves f(j) == true
    else i

/-- Go `sort.Search(n, f)`: binary search for the smallest index in `[0, n)` at which `f`
is true, `n` if there is none (on a predicate that is false then true). -/
def Search (n : Nat) (f : Nat → Bool) : Nat :=
  searchLoop f n 0 n

/-- Go `sort.SearchStrings(a, x)`, that is `Search(len(a), a[i] >= x)`; strings compare
byte by byte, which on UTF-8 text is the lexicographic order of the characters. -/
def SearchStrings (a : List String) (x : String) : Nat :=
  Search a.length (fun i =>
    match a[i]? with
    | some s => decide (x.toList ≤ s.toList)
    | none => false)

/-- Go `strconv.FormatBool`. -/
def FormatBool (b : Bool) : String :=
  if b then "true" else "false"

/-- Go `strconv.FormatUint(n, 10)`: the decimal digits of `n`. -/
def FormatUint (n : Nat) : String :=
  Nat.repr n

/-- Go `strconv.FormatInt(i, 10)`: the decimal digits, after a minus sign when negative. -/
def FormatInt (i : Int) : String :=
  if i < 0 then "-" ++ Nat.repr i.natAbs else Nat.repr i.natAbs

/-- The `switch v.Field(i).Kind()` of `buildBIOSSettings`: the text of a field value.
`FormatFloat` stands for `strconv.FormatFloat(x, 'f', -1, 64)`. -/
def renderValue {F : Type} (FormatFloat : F → String) : FieldValue F → String
  | .string s => s
  | .bool b => FormatBool b
  | .float f => FormatFloat f
  | .int i => FormatInt i
  | .uint n => FormatUint n
  | .other => ""

/-- The map literal of one setting, a `map[string]string` with the keys "name" and "value". -/
def settingEntry (name value : String) : Controllers.GoMap String :=
  some [("name", name), ("value", value)]

/-- The loop `for i := 0; v.NumField() > i; i++` of `buildBIOSSettings` over the remaining
fields, with the settings gathered so far. -/
def biosLoop {F : Type} (FormatFloat : F → String) (exclude : Ironic.Slice String)
    (nameMap valueMap : Controllers.GoMap String) :
    List (String × FieldValue F) → Ironic.Slice (Controllers.GoMap String) →
      Ironic.Slice (Controllers.GoMap String)
  | [], settings => settings
  | field :: rest, settings =>
    let name := field.1
    if SearchStrings (Ironic.Slice.toList exclude) name ≠ Ironic.Slice.len exclude then
      biosLoop FormatFloat exclude nameMap valueMap rest settings
    else
      -- Get name
      let name :=
        if mapLen nameMap ≠ 0 ∧ mapIndex nameMap field.1 ≠ "" then mapIndex nameMap field.1
        else name
      -- Get value
      let value := renderValue FormatFloat field.2
      if value = "" then biosLoop FormatFloat exclude nameMap valueMap rest settings
      else
        let value :=
          if mapLen valueMap ≠ 0 ∧ mapIndex valueMap value ≠ "" then mapIndex valueMap value
          else value
        biosLoop FormatFloat exclude nameMap valueMap rest
          (Ironic.Slice.append settings [settingEntry name value])

/-- A private method for building firmware config to BIOS settings for different driver.
A value that is not a struct makes `NumField` panic; the panic is recovered into the
error and the named result `settings` still holds nil. -/
def buildBIOSSettings {F : Type} (FormatFloat : F → String) (firmwareConfig : FirmwareConfig F)
    (exclude : Ironic.Slice String) (nameMap valueMap : Controllers.GoMap String) :
    Ironic.Slice (Controllers.GoMap String) × Option BIOSError :=
  match firmwareConfig with
  | .notStruct kind =>
    (none, some (.recovered ("reflect: call of reflect.Value.NumField on " ++ kind ++ " Value")))
  | .struct fields => (biosLoop FormatFloat exclude nameMap valueMap fields none, none)

/-- A float rendering for the samples, which hold no float field. -/
def noFloats : Empty → String := fun f => nomatch f

end BMC

namespace Ironic

/-! ## Clean-step planning -/

/-- C1: with the interface "agent" and a target that is nil or has no hardware volume, the
planner returns no error and the steps raid/delete_configuration,
deploy/erase_devices_metadata, followed by raid/create_configuration exactly when the
target is non-nil with at least one software volume; the previously-applied spec has no
influence on the returned pair. -/
theorem BuildRAIDCleanSteps_agent {H : Type} [DecidableEq H]
    (target existed : Option (RAIDConfig H))
    (h : ∀ t, target = some t → Slice.len t.HardwareRAIDVolumes = 0) :
    (BuildRAIDCleanSteps "agent" target existed).err = none ∧
    ((∃ t, target = some t ∧ Slice.len t.SoftwareRAIDVolumes ≠ 0) →
      (BuildRAIDCleanSteps "agent" target existed).cleanSteps =
        some [⟨"raid", "delete_configuration"⟩, ⟨"deploy", "erase_devices_metadata"⟩,
          ⟨"raid", "create_configuration"⟩]) ∧
    ((¬ ∃ t, target = some t ∧ Slice.len t.SoftwareRAIDVolumes ≠ 0) →
      (BuildRAIDCleanSteps "agent" target existed).cleanSteps =
        some [⟨"raid", "delete_configuration"⟩, ⟨"deploy", "erase_devices_metadata"⟩]) ∧
    (∀ existed2 : Option (RAIDConfig H),
      (BuildRAIDCleanSteps "agent" target existed2).cleanSteps =
          (BuildRAIDCleanSteps "agent" target existed).cleanSteps ∧
        (BuildRAIDCleanSteps "agent" target existed2).err =
          (BuildRAIDCleanSteps "agent" target existed).err) := by
  cases target with
  | none => simp [BuildRAIDCleanSteps, checkRAIDConfigure, Slice.append, Slice.toList]
  | some t =>
    have h0 : Slice.len t.HardwareRAIDVolumes = 0 := h t rfl
    by_cases hs : Slice.len t.SoftwareRAIDVolumes = 0 <;>
      simp [BuildRAIDCleanSteps, checkRAIDConfigure, Slice.append, Slice.toList, h0, hs]

/-- Witness of C1: a target with one software volume and no hardware volume. -/
theorem BuildRAIDCleanSteps_agent_witness :
    (BuildRAIDCleanSteps "agent" (some ⟨none, some [swVolume "1"]⟩) none).cleanSteps =
      some [⟨"raid", "delete_configuration"⟩, ⟨"deploy", "erase_devices_metadata"⟩,
        ⟨"raid", "create_configuration"⟩] :=
  (BuildRAIDCleanSteps_agent (some ⟨none, some [swVolume "1"]⟩) none
    (by intro t ht; cases ht; rfl)).2.1 ⟨_, rfl, by decide⟩

/-- C2: with an interface other than "no-raid" and "agent" and a target that passes the
compatibility check, when the two specs differ after their software volumes are stripped
the planner returns raid/delete_configuration alone if the target is nil or has no
hardware volume, and raid/delete_configuration, raid/create_configuration if the target
has a hardware volume; no error is returned. -/
theorem BuildRAIDCleanSteps_hardware_changed {H : Type} [DecidableEq H]
    (raidInterface : String) (target existed : Option (RAIDConfig H))
    (hno : raidInterface ≠ "no-raid") (hag : raidInterface ≠ "agent")
    (hcheck : checkRAIDConfigure raidInterface target = none)
    (hne : stripSoftware target ≠ stripSoftware existed) :
    (BuildRAIDCleanSteps raidInterface target existed).err = none ∧
    ((∀ t, target = some t → Slice.len t.HardwareRAIDVolumes = 0) →
      (BuildRAIDCleanSteps raidInterface target existed).cleanSteps =
        some [⟨"raid", "delete_configuration"⟩]) ∧
    ((∃ t, target = some t ∧ Slice.len t.HardwareRAIDVolumes ≠ 0) →
      (BuildRAIDCleanSteps raidInterface target existed).cleanSteps =
        some [⟨"raid", "delete_configuration"⟩, ⟨"raid", "create_configuration"⟩]) := by
  cases target with
  | none =>
    simp [BuildRAIDCleanSteps, hcheck, hno, hag, hne, Slice.append, Slice.toList]
    simp [stripSoftware]
  | some t =>
    by_cases h0 : Slice.len t.HardwareRAIDVolumes = 0
    · simp [BuildRAIDCleanSteps, hcheck, hno, hag, hne, Slice.append, Slice.toList]
      simp [stripSoftware, h0]
    · simp [BuildRAIDCleanSteps, hcheck, hno, hag, hne, Slice.append, Slice.toList]
      simp [stripSoftware, h0]

/-- Witness of C2: one hardware volume is requested where none was applied. -/
theorem BuildRAIDCleanSteps_hardware_changed_witness :
    (BuildRAIDCleanSteps hardwareInterface
        (some (⟨some [hwVolume "1" "root"], none⟩ : RAIDConfig Unit)) none).cleanSteps =
      some [⟨"raid", "delete_configuration"⟩, ⟨"raid", "create_configuration"⟩] :=
  (BuildRAIDCleanSteps_hardware_changed hardwareInterface
    (some ⟨some [hwVolume "1" "root"], none⟩) none (by decide) (by decide) (by decide)
    (by decide)).2.2 ⟨_, rfl, by decide⟩

/-- C3: idempotence of hardware RAID planning. With an interface other than "no-raid" and
"agent", a target that passes the compatibility check and two specs that are deeply equal
once their software volumes are set to nil, the planner returns an empty step list and
no error. -/
theorem BuildRAIDCleanSteps_hardware_unchanged {H : Type} [DecidableEq H]
    (raidInterface : String) (target existed : Option (RAIDConfig H))
    (hno : raidInterface ≠ "no-raid") (hag : raidInterface ≠ "agent")
    (hcheck : checkRAIDConfigure raidInterface target = none)
    (heq : stripSoftware target = stripSoftware existed) :
    (BuildRAIDCleanSteps raidInterface target existed).cleanSteps = none ∧
    Slice.len (BuildRAIDCleanSteps raidInterface target existed).cleanSteps = 0 ∧
    (BuildRAIDCleanSteps raidInterface target existed).err = none := by
  simp [BuildRAIDCleanSteps, hcheck, hno, hag, heq, Slice.len]

/-- Witness of C3: the applied spec is the target without its software volumes. -/
theorem BuildRAIDCleanSteps_hardware_unchanged_witness :
    (BuildRAIDCleanSteps hardwareInterface
        (some ⟨some [hwVolume "1" "root"], some [swVolume "1"]⟩)
        (some ⟨some [hwVolume "1" "root"], none⟩)).cleanSteps = none :=
  (BuildRAIDCleanSteps_hardware_unchanged hardwareInterface
    (some ⟨some [hwVolume "1" "root"], some [swVolume "1"]⟩)
    (some ⟨some [hwVolume "1" "root"], none⟩) (by decide) (by decide) (by decide)
    (by decide)).1

/-- C4: the compatibility check fails exactly for a non-nil spec with (a) the interface
"no-raid" and a non-empty hardware or software volume list, or (b) the interface "agent"
and a non-empty hardware volume list, or (c) an interface other than "agent", an empty
hardware volume list and a non-empty software volume list; a nil spec is accepted for
every interface. -/
theorem checkRAIDConfigure_fails_iff {H : Type} (raidInterface : String)
    (raid : Option (RAIDConfig H)) :
    ((checkRAIDConfigure raidInterface raid).isSome = true ↔
      ∃ r, raid = some r ∧
        ((raidInterface = "no-raid" ∧
            (Slice.len r.HardwareRAIDVolumes ≠ 0 ∨ Slice.len r.SoftwareRAIDVolumes ≠ 0)) ∨
          (raidInterface = "agent" ∧ Slice.len r.HardwareRAIDVolumes ≠ 0) ∨
          (raidInterface ≠ "agent" ∧ Slice.len r.HardwareRAIDVolumes = 0 ∧
            Slice.len r.SoftwareRAIDVolumes ≠ 0))) ∧
    checkRAIDConfigure raidInterface (none : Option (RAIDConfig H)) = none := by
  refine ⟨?_, rfl⟩
  cases raid with
  | none => simp [checkRAIDConfigure]
  | some r =>
    simp only [checkRAIDConfigure, Option.some.injEq, exists_eq_left']
    split_ifs with h1 h2 h3
    · simp [h1]
    · simp [h2]
    · simp [h3]
    · simp only [Option.isSome_none, Bool.false_eq_true, false_iff]
      tauto

/-- C5: with the interface "no-raid" the planner never produces a clean step: it returns
an error with no steps when the target has a hardware or software volume, and an empty
step list with no error otherwise. -/
theorem BuildRAIDCleanSteps_no_raid {H : Type} [DecidableEq H]
    (target existed : Option (RAIDConfig H)) :
    (BuildRAIDCleanSteps "no-raid" target existed).cleanSteps = none ∧
    ((BuildRAIDCleanSteps "no-raid" target existed).err.isSome = true ↔
      ∃ t, target = some t ∧
        (Slice.len t.HardwareRAIDVolumes ≠ 0 ∨ Slice.len t.SoftwareRAIDVolumes ≠ 0)) := by
  cases target with
  | none => simp [BuildRAIDCleanSteps, checkRAIDConfigure]
  | some t =>
    by_cases h : Slice.len t.HardwareRAIDVolumes ≠ 0 ∨ Slice.len t.SoftwareRAIDVolumes ≠ 0
    · simp [BuildRAIDCleanSteps, checkRAIDConfigure, h]
    · have h2 := h
      simp only [not_or, not_not] at h2
      simp [BuildRAIDCleanSteps, checkRAIDConfigure, h2.1, h2.2]

/-- C6 fails as stated: with the interface "agent", a nil target and a previously-applied
spec holding a hardware volume, the check rejects the previously-applied spec and the
planner still returns its two steps without an error. -/
theorem BuildRAIDCleanSteps_existed_unchecked :
    (checkRAIDConfigure "agent"
        (some (⟨some [hwVolume "1" "root"], none⟩ : RAIDConfig Unit))).isSome = true ∧
    (BuildRAIDCleanSteps "agent" none
        (some (⟨some [hwVolume "1" "root"], none⟩ : RAIDConfig Unit))).err = none := by
  decide

/-- C6 (amended): the compatibility check is applied to the target only. The error the
planner returns is the outcome of the check on the target, whatever the
previously-applied spec is, and a failed check comes with no steps. -/
theorem BuildRAIDCleanSteps_err_eq_check {H : Type} [DecidableEq H]
    (raidInterface : String) (target existed : Option (RAIDConfig H)) :
    (BuildRAIDCleanSteps raidInterface target existed).err =
      checkRAIDConfigure raidInterface target ∧
    ((checkRAIDConfigure raidInterface target).isSome = true →
      (BuildRAIDCleanSteps raidInterface target existed).cleanSteps = none) := by
  unfold BuildRAIDCleanSteps
  cases hc : checkRAIDConfigure raidInterface target with
  | some e => simp
  | none =>
    simp only [Option.isSome_none, Bool.false_eq_true, false_implies, and_true]
    split_ifs <;> first | rfl | (split <;> first | rfl | (split_ifs <;> rfl))

/-- C7 fails as stated: with a hardware interface, a target holding a hardware and a
software volume has lost its software volume list after the call. -/
theorem BuildRAIDCleanSteps_strips_target :
    (BuildRAIDCleanSteps hardwareInterface
        (some ⟨some [hwVolume "1" "root"], some [swVolume "1"]⟩) none).target =
      some ⟨some [hwVolume "1" "root"], none⟩ ∧
    (BuildRAIDCleanSteps hardwareInterface
        (some ⟨some [hwVolume "1" "root"], some [swVolume "1"]⟩) none).target ≠
      some ⟨some [hwVolume "1" "root"], some [swVolume "1"]⟩ := by
  decide

/-- C7 (amended): the planner never changes the hardware volume list of either spec. It
leaves both specs as they were when the interface is "no-raid" or "agent" or the check
of the target fails; otherwise it sets the software volume list of every non-nil spec to
nil and changes nothing else. -/
theorem BuildRAIDCleanSteps_frame {H : Type} [DecidableEq H]
    (raidInterface : String) (target existed : Option (RAIDConfig H)) :
    ((BuildRAIDCleanSteps raidInterface target existed).target.map
        (fun t => t.HardwareRAIDVolumes) = target.map (fun t => t.HardwareRAIDVolumes) ∧
      (BuildRAIDCleanSteps raidInterface target existed).existed.map
        (fun t => t.HardwareRAIDVolumes) = existed.map (fun t => t.HardwareRAIDVolumes)) ∧
    ((raidInterface = "no-raid" ∨ raidInterface = "agent" ∨
        (checkRAIDConfigure raidInterface target).isSome = true) →
      (BuildRAIDCleanSteps raidInterface target existed).target = target ∧
      (BuildRAIDCleanSteps raidInterface target existed).existed = existed) ∧
    ((raidInterface ≠ "no-raid" ∧ raidInterface ≠ "agent" ∧
        checkRAIDConfigure raidInterface target = none) →
      (BuildRAIDCleanSteps raidInterface target existed).target =
        target.map (fun t => { t with SoftwareRAIDVolumes := none }) ∧
      (BuildRAIDCleanSteps raidInterface target existed).existed =
        existed.map (fun t => { t with SoftwareRAIDVolumes := none })) := by
  have hstrip : ∀ r : Option (RAIDConfig H),
      stripSoftware r = r.map (fun t => { t with SoftwareRAIDVolumes := none }) := by
    intro r; cases r <;> rfl
  have hhw : ∀ r : Option (RAIDConfig H),
      (stripSoftware r).map (fun t => t.HardwareRAIDVolumes) =
        r.map (fun t => t.HardwareRAIDVolumes) := by
    intro r; cases r <;> rfl
  have key : ((BuildRAIDCleanSteps raidInterface target existed).target = target ∧
        (BuildRAIDCleanSteps raidInterface target existed).existed = existed ∧
        (raidInterface = "no-raid" ∨ raidInterface = "agent" ∨
          (checkRAIDConfigure raidInterface target).isSome = true)) ∨
      ((BuildRAIDCleanSteps raidInterface target existed).target = stripSoftware target ∧
        (BuildRAIDCleanSteps raidInterface target existed).existed = stripSoftware existed ∧
        raidInterface ≠ "no-raid" ∧ raidInterface ≠ "agent" ∧
          checkRAIDConfigure raidInterface target = none) := by
    unfold BuildRAIDCleanSteps
    cases hc : checkRAIDConfigure raidInterface target with
    | some e => left; simp
    | none =>
      by_cases hno : raidInterface = "no-raid"
      · left; simp [hno]
      · by_cases hag : raidInterface = "agent"
        · left
          simp only [hag]
          cases target with
          | none => simp
          | some t => by_cases hs : Slice.len t.SoftwareRAIDVolumes = 0 <;> simp [hs]
        · right
          simp only [hno, hag, if_false]
          refine ⟨?_, ?_, hno, hag, trivial⟩ <;>
            (split_ifs <;> first | rfl | (split <;> first | rfl | (split_ifs <;> rfl)))
  rcases key with ⟨ht, he, hc⟩ | ⟨ht, he, hno, hag, hc⟩
  · refine ⟨⟨by rw [ht], by rw [he]⟩, fun _ => ⟨ht, he⟩, ?_⟩
    rintro ⟨hno, hag, hcn⟩
    rcases hc with h | h | h
    · exact absurd h hno
    · exact absurd h hag
    · rw [hcn] at h; simp at h
  · refine ⟨⟨by rw [ht, hhw], by rw [he, hhw]⟩, ?_, fun _ => ⟨by rw [ht, hstrip], by rw [he, hstrip]⟩⟩
    rintro (h | h | h)
    · exact absurd h hno
    · exact absurd h hag
    · rw [hc] at h; simp at h

/-! ## Building logical disks -/

theorem lookup_filter_ne (m : NameFlags) (k n : String) (h : n ≠ k) :
    (m.filter (fun e => e.1 ≠ k)).lookup n = m.lookup n := by
  induction m with
  | nil => rfl
  | cons e m ih =>
    obtain ⟨a, b⟩ := e
    by_cases hak : a = k
    · subst hak
      have hna : (n == a) = false := by simpa using h
      have hd : decide (a ≠ a) = false := by simp
      rw [List.filter_cons]
      simp only [hd, Bool.false_eq_true, if_false, List.lookup_cons, hna]
      exact ih
    · have : decide (a ≠ k) = true := by simpa using hak
      simp only [List.filter_cons, this, if_true, List.lookup_cons, ih]

theorem NameFlags.lookup_set (m : NameFlags) (k n : String) (v : Nat) :
    (m.set k v).lookup n = if n = k then some v else m.lookup n := by
  unfold NameFlags.set
  by_cases h : n = k
  · subst h; simp [List.lookup_cons]
  · have hb : (n == k) = false := by simpa using h
    simp only [List.lookup_cons, hb, h, if_false]
    exact lookup_filter_ne m k n h

theorem Slice.append_append {α : Type} (s : Slice α) (x : α) (xs : List α) :
    Slice.append (Slice.append s [x]) xs = Slice.append s (x :: xs) := by
  cases xs <;> simp [Slice.append, Slice.toList]

theorem FlagsTrack.noRepeat {pre : List HardwareRAIDVolume} {flags : NameFlags}
    (h : FlagsTrack pre flags) : NoRepeat (volumeNames pre) := by
  unfold NoRepeat
  intro i j n hij hn hi hj
  have h1 := (h n i).mpr ⟨hn, hi⟩
  have h2 := (h n j).mpr ⟨hn, hj⟩
  rw [h1] at h2
  simp only [Option.some.injEq] at h2
  omega

theorem volumeNames_snoc (pre : List HardwareRAIDVolume) (v : HardwareRAIDVolume) (i : Nat)
    (n : String) :
    (volumeNames (pre ++ [v]))[i]? = some n ↔
      ((volumeNames pre)[i]? = some n ∨ (i = pre.length ∧ v.Name = n)) := by
  unfold volumeNames
  rw [List.map_append, List.getElem?_append]
  by_cases hi : i < pre.length
  · simp only [List.length_map, hi, if_true]
    constructor
    · exact Or.inl
    · rintro (h | ⟨h, _⟩)
      · exact h
      · omega
  · simp only [List.length_map, hi, if_false]
    have hnone : (List.map (fun v => v.Name) pre)[i]? = none := by
      apply List.getElem?_eq_none; simp; omega
    rw [hnone]
    by_cases hi2 : i = pre.length
    · subst hi2; simp
    · have : i - pre.length ≠ 0 := by omega
      obtain ⟨k, hk⟩ := Nat.exists_eq_succ_of_ne_zero this
      simp [hk, hi2]

theorem lt_of_getElem?_some {α : Type} (l : List α) (i : Nat) (x : α) (h : l[i]? = some x) :
    i < l.length := by
  by_contra hc
  rw [List.getElem?_eq_none (by omega)] at h
  cases h

theorem volumeNames_append_left (pre rest : List HardwareRAIDVolume) (i : Nat)
    (h : i < pre.length) :
    (volumeNames (pre ++ rest))[i]? = (volumeNames pre)[i]? := by
  unfold volumeNames
  rw [List.map_append, List.getElem?_append_left (by simpa using h)]

theorem volumeNames_append_head (pre rest : List HardwareRAIDVolume) (v : HardwareRAIDVolume) :
    (volumeNames (pre ++ v :: rest))[pre.length]? = some v.Name := by
  unfold volumeNames
  rw [List.map_append, List.getElem?_append_right (by simp)]
  simp

/-- The loop either runs to its end, appending one disk per volume, when no non-empty name
is repeated, or stops at the first repeated name with no disks. -/
theorem hardwareLoop_spec (rest : List HardwareRAIDVolume) :
    ∀ (pre : List HardwareRAIDVolume) (flags : NameFlags) (acc : Slice LogicalDisk),
      FlagsTrack pre flags →
      (hardwareLoop rest pre.length flags acc =
          (Slice.append acc (rest.map hardwareLogicalDisk), none) ∧
        NoRepeat (volumeNames (pre ++ rest))) ∨
      (∃ n j i, hardwareLoop rest pre.length flags acc = (none, some (.repeatedNames n j i)) ∧
        FirstRepeat (volumeNames (pre ++ rest)) n j i) := by
  induction rest with
  | nil =>
    intro pre flags acc hinv
    left
    refine ⟨by simp [hardwareLoop, Slice.append], ?_⟩
    rw [List.append_nil]
    exact hinv.noRepeat
  | cons v rest ih =>
    intro pre flags acc hinv
    have hlen : (pre ++ [v]).length = pre.length + 1 := by simp
    have happ : (pre ++ [v]) ++ rest = pre ++ v :: rest := by simp
    by_cases hname : v.Name = ""
    · have hinv2 : FlagsTrack (pre ++ [v]) flags := by
        intro n i
        rw [volumeNames_snoc, hinv n i]
        constructor
        · rintro ⟨hn, hi⟩; exact ⟨hn, Or.inl hi⟩
        · rintro ⟨hn, hi | ⟨_, hv⟩⟩
          · exact ⟨hn, hi⟩
          · exact absurd (hv.symm.trans hname) hn
      have h2 := ih (pre ++ [v]) flags (Slice.append acc [hardwareLogicalDisk v]) hinv2
      rw [hlen, Slice.append_append, happ] at h2
      simpa [hardwareLoop, hname] using h2
    · cases hlk : flags.lookup v.Name with
      | some i =>
        right
        refine ⟨v.Name, pre.length, i, by simp [hardwareLoop, hname, hlk], ?_⟩
        obtain ⟨_, hi⟩ := (hinv v.Name i).mp hlk
        have hilt : i < pre.length := by
          have := lt_of_getElem?_some _ _ _ hi
          simpa [volumeNames] using this
        refine ⟨hilt, hname, volumeNames_append_head pre rest v, ?_, ?_, ?_⟩
        · rw [volumeNames_append_left _ _ _ hilt]; exact hi
        · intro j2 hj2 i2 hi2 m hm h1 h2
          rw [volumeNames_append_left _ _ _ (by omega)] at h1
          rw [volumeNames_append_left _ _ _ hj2] at h2
          exact hinv.noRepeat i2 j2 m hi2 hm h1 h2
        · intro i2 hi2 h1
          rw [volumeNames_append_left _ _ _ hi2] at h1
          have h3 := (hinv v.Name i2).mpr ⟨hname, h1⟩
          rw [hlk] at h3
          simpa using h3.symm
      | none =>
        have hinv2 : FlagsTrack (pre ++ [v]) (flags.set v.Name pre.length) := by
          intro n i
          rw [volumeNames_snoc, NameFlags.lookup_set]
          by_cases hn : n = v.Name
          · subst hn
            simp only [if_true, Option.some.injEq]
            constructor
            · intro h; exact ⟨hname, Or.inr ⟨h.symm, trivial⟩⟩
            · rintro ⟨_, h | ⟨h, _⟩⟩
              · have h3 := (hinv _ i).mpr ⟨hname, h⟩
                rw [hlk] at h3
                cases h3
              · exact h.symm
          · simp only [hn, if_false]
            rw [hinv n i]
            constructor
            · rintro ⟨h1, h2⟩; exact ⟨h1, Or.inl h2⟩
            · rintro ⟨h1, h2 | ⟨_, h2⟩⟩
              · exact ⟨h1, h2⟩
              · exact absurd h2.symm hn
        have h2 := ih (pre ++ [v]) (flags.set v.Name pre.length)
          (Slice.append acc [hardwareLogicalDisk v]) hinv2
        rw [hlen, Slice.append_append, happ] at h2
        simpa [hardwareLoop, hname, hlk] using h2

/-- The two outcomes of `buildTargetHardwareRAIDCfg`: one disk per volume and no error when
no non-empty name is repeated, otherwise no disk and the error of the first repeat. -/
theorem buildTargetHardwareRAIDCfg_spec (volumes : Slice HardwareRAIDVolume) :
    (buildTargetHardwareRAIDCfg volumes =
        (Slice.append none ((Slice.toList volumes).map hardwareLogicalDisk), none) ∧
      NoRepeat (volumeNames (Slice.toList volumes))) ∨
    (∃ n j i, buildTargetHardwareRAIDCfg volumes = (none, some (.repeatedNames n j i)) ∧
      FirstRepeat (volumeNames (Slice.toList volumes)) n j i) := by
  have hinv : FlagsTrack [] [] := by
    intro n i
    simp [volumeNames]
  unfold buildTargetHardwareRAIDCfg
  by_cases h0 : Slice.len volumes = 0
  · left
    have hl : Slice.toList volumes = [] := by
      cases volumes with
      | none => rfl
      | some l => simpa [Slice.len, Slice.toList] using h0
    rw [if_pos h0, hl]
    refine ⟨rfl, ?_⟩
    intro i j n _ _ hi _
    simp [volumeNames] at hi
  · rw [if_neg h0]
    simpa using hardwareLoop_spec (Slice.toList volumes) [] [] none hinv

theorem volumeNames_getElem? (volumes : List HardwareRAIDVolume) (i : Nat) (n : String) :
    (volumeNames volumes)[i]? = some n ↔ ∃ v, volumes[i]? = some v ∧ v.Name = n := by
  simp [volumeNames]

/-- C8: building the hardware logical disks fails exactly when two volumes at indices
i < j carry the same non-empty name; a failure returns no logical disks, and volumes
whose names are all empty never cause an error. -/
theorem buildTargetHardwareRAIDCfg_error_iff (volumes : Slice HardwareRAIDVolume) :
    ((buildTargetHardwareRAIDCfg volumes).2.isSome = true ↔
      ∃ (i j : Nat) (vi vj : HardwareRAIDVolume), i < j ∧
        (Slice.toList volumes)[i]? = some vi ∧ (Slice.toList volumes)[j]? = some vj ∧
        vi.Name = vj.Name ∧ vi.Name ≠ "") ∧
    ((buildTargetHardwareRAIDCfg volumes).2.isSome = true →
      (buildTargetHardwareRAIDCfg volumes).1 = none) ∧
    ((∀ v ∈ Slice.toList volumes, v.Name = "") →
      (buildTargetHardwareRAIDCfg volumes).2 = none) := by
  rcases buildTargetHardwareRAIDCfg_spec volumes with ⟨hres, hno⟩ | ⟨n, j, i, hres, hfirst⟩
  · rw [hres]
    refine ⟨?_, by simp, fun _ => rfl⟩
    simp only [Option.isSome_none, Bool.false_eq_true, false_iff]
    rintro ⟨i, j, vi, vj, hij, hi, hj, heq, hne⟩
    exact hno i j vi.Name hij hne
      ((volumeNames_getElem? _ _ _).mpr ⟨vi, hi, rfl⟩)
      ((volumeNames_getElem? _ _ _).mpr ⟨vj, hj, heq.symm⟩)
  · rw [hres]
    obtain ⟨hij, hn, hj, hi, _, _⟩ := hfirst
    obtain ⟨vi, hvi, hni⟩ := (volumeNames_getElem? _ _ _).mp hi
    obtain ⟨vj, hvj, hnj⟩ := (volumeNames_getElem? _ _ _).mp hj
    refine ⟨?_, fun _ => rfl, ?_⟩
    · simp only [Option.isSome_some, true_iff]
      exact ⟨i, j, vi, vj, hij, hvi, hvj, hni.trans hnj.symm, by rw [hni]; exact hn⟩
    · intro hall
      have := hall vj (List.getElem?_mem hvj)
      exact absurd (hnj.symm.trans this) hn

/-- C9: when building the hardware logical disks fails, the error names the first
duplicate in spec order: its later index j is the smallest index whose non-empty name
occurs at a smaller index, its earlier index i is the only index below j with that name,
and the message carries the name and both indices. -/
theorem buildTargetHardwareRAIDCfg_first_duplicate (volumes : Slice HardwareRAIDVolume)
    (e : RAIDError) (h : (buildTargetHardwareRAIDCfg volumes).2 = some e) :
    ∃ (n : String) (j i : Nat), e = .repeatedNames n j i ∧
      e.message = "the names(" ++ n ++ ") of volume[" ++ toString j ++ "] and volume["
        ++ toString i ++ "] are repeated" ∧
      i < j ∧ n ≠ "" ∧
      (volumeNames (Slice.toList volumes))[j]? = some n ∧
      (volumeNames (Slice.toList volumes))[i]? = some n ∧
      (∀ j2, j2 < j → ∀ i2, i2 < j2 → ∀ m, m ≠ "" →
        (volumeNames (Slice.toList volumes))[i2]? = some m →
        (volumeNames (Slice.toList volumes))[j2]? ≠ some m) ∧
      (∀ i2, i2 < j → (volumeNames (Slice.toList volumes))[i2]? = some n → i2 = i) := by
  rcases buildTargetHardwareRAIDCfg_spec volumes with ⟨hres, _⟩ | ⟨n, j, i, hres, hfirst⟩
  · rw [hres] at h
    cases h
  · rw [hres] at h
    simp only [Option.some.injEq] at h
    subst h
    obtain ⟨hij, hn, hj, hi, hmin, huniq⟩ := hfirst
    exact ⟨n, j, i, rfl, rfl, hij, hn, hj, hi, hmin, huniq⟩

/-- Witness of C9: of the names x, y, (none), y, x the first repeated one is y, at
indices 3 and 1. -/
theorem buildTargetHardwareRAIDCfg_first_duplicate_witness :
    (buildTargetHardwareRAIDCfg (some [hwVolume "1" "x", hwVolume "1" "y", hwVolume "0" "",
        hwVolume "5" "y", hwVolume "1" "x"])).2 = some (.repeatedNames "y" 3 1) ∧
    ∃ (n : String) (j i : Nat), RAIDError.repeatedNames "y" 3 1 = .repeatedNames n j i ∧
      (RAIDError.repeatedNames "y" 3 1).message =
        "the names(" ++ n ++ ") of volume[" ++ toString j ++ "] and volume["
          ++ toString i ++ "] are repeated" ∧
      i < j ∧ n ≠ "" ∧
      (volumeNames (Slice.toList (some [hwVolume "1" "x", hwVolume "1" "y", hwVolume "0" "",
        hwVolume "5" "y", hwVolume "1" "x"])))[j]? = some n ∧
      (volumeNames (Slice.toList (some [hwVolume "1" "x", hwVolume "1" "y", hwVolume "0" "",
        hwVolume "5" "y", hwVolume "1" "x"])))[i]? = some n ∧
      (∀ j2, j2 < j → ∀ i2, i2 < j2 → ∀ m, m ≠ "" →
        (volumeNames (Slice.toList (some [hwVolume "1" "x", hwVolume "1" "y",
          hwVolume "0" "", hwVolume "5" "y", hwVolume "1" "x"])))[i2]? = some m →
        (volumeNames (Slice.toList (some [hwVolume "1" "x", hwVolume "1" "y",
          hwVolume "0" "", hwVolume "5" "y", hwVolume "1" "x"])))[j2]? ≠ some m) ∧
      (∀ i2, i2 < j →
        (volumeNames (Slice.toList (some [hwVolume "1" "x", hwVolume "1" "y",
          hwVolume "0" "", hwVolume "5" "y", hwVolume "1" "x"])))[i2]? = some n → i2 = i) :=
  ⟨by decide, buildTargetHardwareRAIDCfg_first_duplicate _ _ (by decide)⟩

/-- C10 fails as stated: a spec with a hardware volume and a software volume list whose
first level is RAID-5 builds the hardware disk and returns no error. -/
theorem BuildTargetRAIDCfg_hardware_first :
    BuildTargetRAIDCfg noHints (some ⟨some [hwVolume "1" "root"], some [swVolume "5"]⟩) =
      (some [{ RAIDLevel := "1", VolumeName := "root" }], none) := by
  decide

/-- C10 (amended): for every RAID spec with an empty hardware volume list and a non-empty
software volume list whose first level is not RAID-1, building the logical disks returns
an error and no logical disks, whatever the later volumes are. -/
theorem BuildTargetRAIDCfg_first_software_level {H : Type} (MakeHintMap : H → HintMap)
    (raid : RAIDConfig H) (first : SoftwareRAIDVolume H) (rest : List (SoftwareRAIDVolume H))
    (hhw : Slice.len raid.HardwareRAIDVolumes = 0)
    (hsw : raid.SoftwareRAIDVolumes = some (first :: rest))
    (hlevel : first.Level ≠ RAID1) :
    BuildTargetRAIDCfg MakeHintMap (some raid) = (none, some .firstLevelNotRAID1) ∧
    buildTargetSoftwareRAIDCfg MakeHintMap raid.SoftwareRAIDVolumes =
      .ok (none, some .firstLevelNotRAID1) := by
  have hsoft : buildTargetSoftwareRAIDCfg MakeHintMap raid.SoftwareRAIDVolumes =
      .ok (none, some .firstLevelNotRAID1) := by
    simp [buildTargetSoftwareRAIDCfg, hsw, Slice.len, Slice.toList, hlevel]
  refine ⟨?_, hsoft⟩
  have hlen : Slice.len raid.SoftwareRAIDVolumes ≠ 0 := by simp [hsw, Slice.len]
  simp only [BuildTargetRAIDCfg, hhw, hlen, ne_eq, not_true_eq_false, not_false_eq_true,
    if_true, if_false, hsoft]

/-- Witness of C10 (amended): software volumes of levels 5 and 1, no hardware volume. -/
theorem BuildTargetRAIDCfg_first_software_level_witness :
    BuildTargetRAIDCfg noHints (some ⟨none, some [swVolume "5", swVolume "1"]⟩) =
      (none, some .firstLevelNotRAID1) :=
  (BuildTargetRAIDCfg_first_software_level noHints ⟨none, some [swVolume "5", swVolume "1"]⟩
    (swVolume "5") [swVolume "1"] (by decide) rfl (by decide)).1

/-! ## Totality of the builders and root-volume selection -/

theorem physicalDisksLoop_range {H : Type} (MakeHintMap : H → HintMap) (physicalDisks : Slice H)
    (rest : List H) :
    ∀ (pre : List H) (acc : Slice HintMap), Slice.toList physicalDisks = pre ++ rest →
      physicalDisksLoop MakeHintMap physicalDisks (List.range' pre.length rest.length) acc =
        .ok (Slice.append acc (rest.map MakeHintMap)) := by
  induction rest with
  | nil => intro pre acc _; simp [physicalDisksLoop, Slice.append]
  | cons x rest ih =>
    intro pre acc hsplit
    have hget : (Slice.toList physicalDisks)[pre.length]? = some x := by
      rw [hsplit, List.getElem?_append_right (le_refl _)]; simp
    have hnext := ih (pre ++ [x]) (Slice.append acc [MakeHintMap x]) (by simp [hsplit])
    rw [List.length_append, List.length_singleton, Slice.append_append] at hnext
    simp only [List.length_cons, List.range'_succ, physicalDisksLoop, hget, List.map_cons]
    exact hnext

theorem Slice.len_toList {α : Type} (s : Slice α) : (Slice.toList s).length = Slice.len s := by
  cases s <;> rfl

theorem physicalDisksLoop_spec {H : Type} (MakeHintMap : H → HintMap) (physicalDisks : Slice H) :
    physicalDisksLoop MakeHintMap physicalDisks (List.range (Slice.len physicalDisks)) none =
      .ok (Slice.append none ((Slice.toList physicalDisks).map MakeHintMap)) := by
  have h := physicalDisksLoop_range MakeHintMap physicalDisks (Slice.toList physicalDisks) []
    none rfl
  rw [List.range_eq_range', ← Slice.len_toList]
  simpa using h

/-- The software loop never panics: it appends one disk per volume. -/
theorem softwareLoop_spec {H : Type} (MakeHintMap : H → HintMap)
    (volumes : List (SoftwareRAIDVolume H)) :
    ∀ acc : Slice LogicalDisk, softwareLoop MakeHintMap volumes acc =
      .ok (Slice.append acc (volumes.map (softwareLogicalDisk MakeHintMap))) := by
  induction volumes with
  | nil => intro acc; simp [softwareLoop, Slice.append]
  | cons v rest ih =>
    intro acc
    simp only [softwareLoop, physicalDisksLoop_spec, ih, Slice.append_append, List.map_cons]
    rfl

/-- The three outcomes of `buildTargetSoftwareRAIDCfg`, none of which is a panic. -/
theorem buildTargetSoftwareRAIDCfg_spec {H : Type} (MakeHintMap : H → HintMap)
    (volumes : Slice (SoftwareRAIDVolume H)) :
    (Slice.len volumes = 0 ∧ buildTargetSoftwareRAIDCfg MakeHintMap volumes = .ok (none, none)) ∨
    (∃ first rest, Slice.toList volumes = first :: rest ∧ first.Level ≠ RAID1 ∧
      buildTargetSoftwareRAIDCfg MakeHintMap volumes = .ok (none, some .firstLevelNotRAID1)) ∨
    (∃ first rest, Slice.toList volumes = first :: rest ∧ first.Level = RAID1 ∧
      buildTargetSoftwareRAIDCfg MakeHintMap volumes =
        .ok (some ((first :: rest).map (softwareLogicalDisk MakeHintMap)), none)) := by
  by_cases h0 : Slice.len volumes = 0
  · left; exact ⟨h0, by simp [buildTargetSoftwareRAIDCfg, h0]⟩
  · right
    cases hl : Slice.toList volumes with
    | nil => rw [← Slice.len_toList, hl] at h0; exact absurd rfl h0
    | cons first rest =>
      by_cases hlevel : first.Level = RAID1
      · right
        refine ⟨first, rest, rfl, hlevel, ?_⟩
        unfold buildTargetSoftwareRAIDCfg
        rw [if_neg h0, hl]
        simp [hlevel, softwareLoop_spec, Slice.append, Slice.toList]
      · left
        refine ⟨first, rest, rfl, hlevel, ?_⟩
        unfold buildTargetSoftwareRAIDCfg
        rw [if_neg h0, hl]
        simp [hlevel]

theorem hardwareLogicalDisk_IsRootVolume (volume : HardwareRAIDVolume) :
    (hardwareLogicalDisk volume).IsRootVolume = none := by
  unfold hardwareLogicalDisk
  rcases volume.Rotational with _ | _ | _ <;> rcases volume.NumberOfPhysicalDisks with _ | _ <;> rfl

/-- No builder marks a root volume: every disk `BuildTargetRAIDCfg` returns has a nil
`IsRootVolume`. -/
theorem BuildTargetRAIDCfg_unmarked {H : Type} (MakeHintMap : H → HintMap)
    (raid : Option (RAIDConfig H)) :
    ∀ d ∈ Slice.toList (BuildTargetRAIDCfg MakeHintMap raid).1, d.IsRootVolume = none := by
  cases raid with
  | none => simp [BuildTargetRAIDCfg, Slice.toList]
  | some r =>
    dsimp only [BuildTargetRAIDCfg]
    by_cases hhw : Slice.len r.HardwareRAIDVolumes ≠ 0
    · rw [if_pos hhw]
      rcases buildTargetHardwareRAIDCfg_spec r.HardwareRAIDVolumes with
        ⟨hres, _⟩ | ⟨n, j, i, hres, _⟩
      · rw [hres]
        intro d hd
        cases hv : Slice.toList r.HardwareRAIDVolumes with
        | nil => exfalso; rw [← Slice.len_toList, hv] at hhw; exact hhw rfl
        | cons v vs =>
          rw [hv] at hd
          simp only [List.map_cons, Slice.append, Slice.toList, List.nil_append,
            List.mem_cons, List.mem_map] at hd
          rcases hd with rfl | ⟨w, _, rfl⟩
          · exact hardwareLogicalDisk_IsRootVolume v
          · exact hardwareLogicalDisk_IsRootVolume w
      · rw [hres]; simp [Slice.toList]
    · rw [if_neg hhw]
      by_cases hsw : Slice.len r.SoftwareRAIDVolumes ≠ 0
      · rw [if_pos hsw]
        rcases buildTargetSoftwareRAIDCfg_spec MakeHintMap r.SoftwareRAIDVolumes with
          ⟨_, hres⟩ | ⟨_, _, _, _, hres⟩ | ⟨first, rest, _, _, hres⟩
        · rw [hres]; simp [Slice.toList]
        · rw [hres]; simp [Slice.toList]
        · rw [hres]
          intro d hd
          simp only [Slice.toList, List.mem_map] at hd
          obtain ⟨w, _, rfl⟩ := hd
          rfl
      · rw [if_neg hsw]; simp [Slice.toList]

/-- C11: root-volume selection. When the compatibility check passes and the build yields
a non-empty list without error, the list handed to the remote service is the built list,
in which the first disk is marked as root volume and no other disk is when the host
declares no root-device hints, and in which no disk is marked when hints are declared. -/
theorem setTargetRAIDCfg_root_volume {H E : Type} (MakeHintMap : H → HintMap)
    (SetRAIDConfig : Slice LogicalDisk → Option E) (raidInterface : String)
    (target : Option (RAIDConfig H)) (hints : Option H)
    (hcheck : checkRAIDConfigure raidInterface target = none)
    (hlen : Slice.len (BuildTargetRAIDCfg MakeHintMap target).1 ≠ 0)
    (herr : (BuildTargetRAIDCfg MakeHintMap target).2 = none) :
    ∃ first rest, (BuildTargetRAIDCfg MakeHintMap target).1 = some (first :: rest) ∧
      (∀ d ∈ first :: rest, d.IsRootVolume = none) ∧
      (hints = none →
        (setTargetRAIDCfg MakeHintMap SetRAIDConfig raidInterface target hints).submitted =
          some (some ({ first with IsRootVolume := some true } :: rest))) ∧
      (hints ≠ none →
        (setTargetRAIDCfg MakeHintMap SetRAIDConfig raidInterface target hints).submitted =
          some (some (first :: rest))) := by
  have hun := BuildTargetRAIDCfg_unmarked MakeHintMap target
  cases hb : BuildTargetRAIDCfg MakeHintMap target with
  | mk disks err =>
    rw [hb] at hlen herr hun
    simp only at hlen herr hun
    subst herr
    cases disks with
    | none => exact absurd rfl hlen
    | some l =>
      cases l with
      | nil => exact absurd rfl hlen
      | cons first rest =>
        refine ⟨first, rest, rfl, hun, ?_, ?_⟩
        · intro hh
          subst hh
          simp [setTargetRAIDCfg, hcheck, hb, Slice.len, setRootVolume]
        · intro hh
          obtain ⟨h, rfl⟩ := Option.ne_none_iff_exists'.mp hh
          simp [setTargetRAIDCfg, hcheck, hb, Slice.len]

/-- Witness of C11: two hardware volumes and no root-device hints. -/
theorem setTargetRAIDCfg_root_volume_witness :
    ∃ first rest,
      (BuildTargetRAIDCfg noHints
        (some ⟨some [hwVolume "1" "a", hwVolume "5" "b"], none⟩)).1 = some (first :: rest) ∧
      (∀ d ∈ first :: rest, d.IsRootVolume = none) ∧
      ((none : Option Unit) = none →
        (setTargetRAIDCfg noHints (fun _ => (none : Option Unit)) hardwareInterface
          (some ⟨some [hwVolume "1" "a", hwVolume "5" "b"], none⟩) none).submitted =
          some (some ({ first with IsRootVolume := some true } :: rest))) ∧
      ((none : Option Unit) ≠ none →
        (setTargetRAIDCfg noHints (fun _ => (none : Option Unit)) hardwareInterface
          (some ⟨some [hwVolume "1" "a", hwVolume "5" "b"], none⟩) none).submitted =
          some (some (first :: rest))) :=
  setTargetRAIDCfg_root_volume noHints (fun _ => none) hardwareInterface
    (some ⟨some [hwVolume "1" "a", hwVolume "5" "b"], none⟩) none (by decide) (by decide)
    (by decide)

/-- C12 fails as stated: a hardware interface accepts a spec in which both volume lists
are non-empty. -/
theorem checkRAIDConfigure_accepts_both_lists :
    checkRAIDConfigure hardwareInterface
      (some ⟨some [hwVolume "1" "root"], some [swVolume "1"]⟩) = none := by
  decide

/-- C12 (amended): a spec in which both volume lists are non-empty is rejected by the
compatibility check exactly when the interface is "no-raid" or "agent"; every other
interface accepts it. -/
theorem checkRAIDConfigure_both_lists {H : Type} (raidInterface : String) (raid : RAIDConfig H)
    (hhw : Slice.len raid.HardwareRAIDVolumes ≠ 0)
    (hsw : Slice.len raid.SoftwareRAIDVolumes ≠ 0) :
    (checkRAIDConfigure raidInterface (some raid)).isSome = true ↔
      (raidInterface = "no-raid" ∨ raidInterface = "agent") := by
  simp only [checkRAIDConfigure, hhw, hsw, ne_eq, not_false_eq_true, or_self, and_true,
    false_and, and_false, if_false]
  by_cases hno : raidInterface = "no-raid"
  · simp [hno]
  · by_cases hag : raidInterface = "agent"
    · simp [hag]
    · simp [hno, hag]

/-- Witness of C12 (amended): the interface "agent" rejects a spec with both lists. -/
theorem checkRAIDConfigure_both_lists_witness :
    (checkRAIDConfigure "agent"
      (some ⟨some [hwVolume "1" "root"], some [swVolume "1"]⟩)).isSome = true :=
  (checkRAIDConfigure_both_lists "agent" ⟨some [hwVolume "1" "root"], some [swVolume "1"]⟩
    (by decide) (by decide)).mpr (Or.inr rfl)

/-- C13: failure containment. The software builder returns a value for every volume list
(no index read fails), so building the logical disks never ends in the recovered-panic
error; a nil spec and a spec with both lists empty give no logical disks and no error. -/
theorem BuildTargetRAIDCfg_total {H : Type} (MakeHintMap : H → HintMap)
    (raid : Option (RAIDConfig H)) :
    (∀ volumes : Slice (SoftwareRAIDVolume H),
      ∃ result, buildTargetSoftwareRAIDCfg MakeHintMap volumes = .ok result) ∧
    (∀ r : String, (BuildTargetRAIDCfg MakeHintMap raid).2 ≠ some (.recovered r)) ∧
    BuildTargetRAIDCfg MakeHintMap (none : Option (RAIDConfig H)) = (none, none) ∧
    (∀ spec : RAIDConfig H, Slice.len spec.HardwareRAIDVolumes = 0 →
      Slice.len spec.SoftwareRAIDVolumes = 0 →
      BuildTargetRAIDCfg MakeHintMap (some spec) = (none, none)) := by
  have htotal : ∀ volumes : Slice (SoftwareRAIDVolume H),
      ∃ result, buildTargetSoftwareRAIDCfg MakeHintMap volumes = .ok result ∧
        ∀ r : String, result.2 ≠ some (.recovered r) := by
    intro volumes
    rcases buildTargetSoftwareRAIDCfg_spec MakeHintMap volumes with
      ⟨_, hres⟩ | ⟨_, _, _, _, hres⟩ | ⟨_, _, _, _, hres⟩
    · exact ⟨_, hres, by simp⟩
    · exact ⟨_, hres, by simp⟩
    · exact ⟨_, hres, by simp⟩
  refine ⟨fun volumes => ?_, ?_, rfl, ?_⟩
  · obtain ⟨result, hres, _⟩ := htotal volumes
    exact ⟨result, hres⟩
  · intro r
    cases raid with
    | none => simp [BuildTargetRAIDCfg]
    | some spec =>
      dsimp only [BuildTargetRAIDCfg]
      by_cases hhw : Slice.len spec.HardwareRAIDVolumes ≠ 0
      · rw [if_pos hhw]
        rcases buildTargetHardwareRAIDCfg_spec spec.HardwareRAIDVolumes with
          ⟨hres, _⟩ | ⟨n, j, i, hres, _⟩
        · rw [hres]; simp
        · rw [hres]; simp
      · rw [if_neg hhw]
        by_cases hsw : Slice.len spec.SoftwareRAIDVolumes ≠ 0
        · rw [if_pos hsw]
          obtain ⟨result, hres, hnot⟩ := htotal spec.SoftwareRAIDVolumes
          rw [hres]
          exact hnot r
        · rw [if_neg hsw]; simp
  · intro spec hhw hsw
    simp [BuildTargetRAIDCfg, hhw, hsw]

end Ironic

namespace Controllers

/-! ## Validation of the desired settings -/

theorem validateSetting_eq_none_iff
    (check : FirmwareSchema → String → IntOrString → GoMap SettingSchema → Bool)
    (hfs : HostFirmwareSettings) (schema : Option FirmwareSchema) (name : String)
    (val : IntOrString) :
    validateSetting check hfs schema name val = none ↔
      settingOK check hfs schema name val = true := by
  unfold validateSetting settingOK
  cases hp : stringsContains name "Password" <;>
    cases ho : GoMap.get? hfs.Status.Settings name <;>
    cases schema with
    | none => simp
    | some s => cases hc : check s name val s.Spec.Schema <;> simp

/-- The error of one entry: a name error for a password-like or unobserved name, and
otherwise a value error carrying the name and the string form of the value. -/
theorem validateSetting_error
    (check : FirmwareSchema → String → IntOrString → GoMap SettingSchema → Bool)
    (hfs : HostFirmwareSettings) (schema : Option FirmwareSchema) (name : String)
    (val : IntOrString) (h : settingOK check hfs schema name val = false) :
    validateSetting check hfs schema name val =
      some (if stringsContains name "Password" = true ∨
              (GoMap.get? hfs.Status.Settings name).isNone = true
            then .InvalidHostFirmwareNameError name
            else .InvalidHostFirmwareValueError name val.String) := by
  unfold settingOK at h
  unfold validateSetting
  cases hp : stringsContains name "Password" <;>
    cases ho : GoMap.get? hfs.Status.Settings name <;>
    cases schema with
    | none => simp [hp, ho] at h ⊢
    | some s => cases hc : check s name val s.Spec.Schema <;> simp [hp, ho, hc] at h ⊢

theorem validateLoop_eq_none_iff
    (check : FirmwareSchema → String → IntOrString → GoMap SettingSchema → Bool)
    (hfs : HostFirmwareSettings) (schema : Option FirmwareSchema)
    (entries : List (String × IntOrString)) :
    validateLoop check hfs schema entries = none ↔
      ∀ e ∈ entries, settingOK check hfs schema e.1 e.2 = true := by
  induction entries with
  | nil => simp [validateLoop]
  | cons e rest ih =>
    obtain ⟨name, val⟩ := e
    rw [List.forall_mem_cons, ← ih, ← validateSetting_eq_none_iff]
    simp only [validateLoop]
    cases validateSetting check hfs schema name val <;> simp

/-- The loop returns the error of the first entry that fails a check, whatever follows. -/
theorem validateLoop_first
    (check : FirmwareSchema → String → IntOrString → GoMap SettingSchema → Bool)
    (hfs : HostFirmwareSettings) (schema : Option FirmwareSchema)
    (pre post : List (String × IntOrString)) (name : String) (val : IntOrString)
    (hpre : ∀ x ∈ pre, settingOK check hfs schema x.1 x.2 = true)
    (hviol : settingOK check hfs schema name val = false) :
    validateLoop check hfs schema (pre ++ (name, val) :: post) =
      validateSetting check hfs schema name val := by
  induction pre with
  | nil =>
    have h := validateSetting_error check hfs schema name val hviol
    simp only [List.nil_append, validateLoop, h]
  | cons e pre ih =>
    obtain ⟨n, v⟩ := e
    have hok := (validateSetting_eq_none_iff check hfs schema n v).mpr
      (hpre (n, v) (List.mem_cons_self _ _))
    simp only [List.cons_append, validateLoop, hok]
    exact ih (fun x hx => hpre x (List.mem_cons_of_mem _ hx))

/-- An error of the loop is the error of some entry that fails a check. -/
theorem validateLoop_eq_some
    (check : FirmwareSchema → String → IntOrString → GoMap SettingSchema → Bool)
    (hfs : HostFirmwareSettings) (schema : Option FirmwareSchema)
    (entries : List (String × IntOrString)) (err : ValidationError)
    (h : validateLoop check hfs schema entries = some err) :
    ∃ e ∈ entries, settingOK check hfs schema e.1 e.2 = false ∧
      validateSetting check hfs schema e.1 e.2 = some err := by
  induction entries with
  | nil => simp [validateLoop] at h
  | cons e rest ih =>
    obtain ⟨name, val⟩ := e
    cases hv : validateSetting check hfs schema name val with
    | some err2 =>
      simp only [validateLoop, hv, Option.some.injEq] at h
      subst h
      refine ⟨(name, val), List.mem_cons_self _ _, ?_, hv⟩
      cases hok : settingOK check hfs schema name val with
      | false => rfl
      | true =>
        rw [(validateSetting_eq_none_iff check hfs schema name val).mpr hok] at hv
        cases hv
    | none =>
      simp only [validateLoop, hv] at h
      obtain ⟨e, he, h1, h2⟩ := ih h
      exact ⟨e, List.mem_cons_of_mem _ he, h1, h2⟩

/-- The loop body reads the resource only through its observed settings. -/
theorem validateSetting_status
    (check : FirmwareSchema → String → IntOrString → GoMap SettingSchema → Bool)
    (hfs hfs2 : HostFirmwareSettings) (hstatus : hfs2.Status = hfs.Status)
    (schema : Option FirmwareSchema) (name : String) (val : IntOrString) :
    validateSetting check hfs2 schema name val = validateSetting check hfs schema name val := by
  unfold validateSetting
  rw [hstatus]

theorem validateLoop_status
    (check : FirmwareSchema → String → IntOrString → GoMap SettingSchema → Bool)
    (hfs hfs2 : HostFirmwareSettings) (hstatus : hfs2.Status = hfs.Status)
    (schema : Option FirmwareSchema) (entries : List (String × IntOrString)) :
    validateLoop check hfs2 schema entries = validateLoop check hfs schema entries := by
  induction entries with
  | nil => rfl
  | cons e rest ih =>
    obtain ⟨name, val⟩ := e
    simp only [validateLoop, validateSetting_status check hfs hfs2 hstatus, ih]

theorem settingOK_status
    (check : FirmwareSchema → String → IntOrString → GoMap SettingSchema → Bool)
    (hfs hfs2 : HostFirmwareSettings) (hstatus : hfs2.Status = hfs.Status)
    (schema : Option FirmwareSchema) (name : String) (val : IntOrString) :
    settingOK check hfs2 schema name val = settingOK check hfs schema name val := by
  unfold settingOK
  rw [hstatus]

/-- Without a schema the loop depends on the names of the entries only. -/
theorem validateLoop_nil_schema
    (check check2 : FirmwareSchema → String → IntOrString → GoMap SettingSchema → Bool)
    (hfs : HostFirmwareSettings) (entries : List (String × IntOrString)) :
    ∀ entries2 : List (String × IntOrString),
      entries2.map Prod.fst = entries.map Prod.fst →
      validateLoop check2 hfs none entries2 = validateLoop check hfs none entries := by
  induction entries with
  | nil =>
    intro entries2 h
    have : entries2 = [] := by simpa using h
    rw [this]
    rfl
  | cons e rest ih =>
    intro entries2 h
    cases entries2 with
    | nil => simp at h
    | cons e2 rest2 =>
      obtain ⟨name, val⟩ := e
      obtain ⟨name2, val2⟩ := e2
      simp only [List.map_cons, List.cons.injEq] at h
      obtain ⟨hname, hrest⟩ := h
      subst hname
      have hbody : validateSetting check2 hfs none name2 val2 =
          validateSetting check hfs none name2 val := by
        simp [validateSetting]
      simp only [validateLoop, hbody, ih rest2 hrest]

/-- C14 fails as stated: when an out-of-range integer setting is visited before the
password-like name, validation fails with a value error, not with a name error. -/
theorem ValidateHostFirmwareSettings_password_after_value :
    stringsContains "SysPassword" "Password" = true ∧
    ValidateHostFirmwareSettings (CheckSettingIsValid false)
        (some (testSettings [("NetworkBootRetryCount", .str "2000"),
          ("SysPassword", .str "Pa%$word")]))
        (some testSchema) =
      some (.InvalidHostFirmwareValueError "NetworkBootRetryCount" "2000") := by
  decide

/-- C14 (amended): when a desired name contains "Password", validation fails for every
schema and every observed settings. The error is a name error whenever every desired
entry that reaches the schema check, that is every entry whose name holds no "Password"
and is observed, is accepted by it, in particular whenever the schema is nil; and a
value error is always the one of such an entry that the schema check rejects. -/
theorem ValidateHostFirmwareSettings_password
    (check : FirmwareSchema → String → IntOrString → GoMap SettingSchema → Bool)
    (hfs : HostFirmwareSettings) (schema : Option FirmwareSchema)
    (h : ∃ e ∈ GoMap.entries hfs.Spec.Settings, stringsContains e.1 "Password" = true) :
    (ValidateHostFirmwareSettings check (some hfs) schema).isSome = true ∧
    ((∀ e ∈ GoMap.entries hfs.Spec.Settings, stringsContains e.1 "Password" = false →
        (GoMap.get? hfs.Status.Settings e.1).isSome = true → ∀ s, schema = some s →
        check s e.1 e.2 s.Spec.Schema = true) →
      ∃ name, ValidateHostFirmwareSettings check (some hfs) schema =
        some (.InvalidHostFirmwareNameError name)) ∧
    (schema = none →
      ∃ name, ValidateHostFirmwareSettings check (some hfs) schema =
        some (.InvalidHostFirmwareNameError name)) ∧
    (∀ name value, ValidateHostFirmwareSettings check (some hfs) schema =
        some (.InvalidHostFirmwareValueError name value) →
      ∃ e ∈ GoMap.entries hfs.Spec.Settings, e.1 = name ∧ e.2.String = value ∧
        stringsContains e.1 "Password" = false ∧
        (GoMap.get? hfs.Status.Settings e.1).isSome = true ∧
        ∃ s, schema = some s ∧ check s e.1 e.2 s.Spec.Schema = false) := by
  obtain ⟨e, he, hp⟩ := h
  have hsome : ∃ err, validateLoop check hfs schema (GoMap.entries hfs.Spec.Settings) =
      some err := by
    cases hr : validateLoop check hfs schema (GoMap.entries hfs.Spec.Settings) with
    | some err => exact ⟨err, rfl⟩
    | none =>
      have hok := (validateLoop_eq_none_iff check hfs schema _).mp hr e he
      simp [settingOK, hp] at hok
  obtain ⟨err, herr⟩ := hsome
  obtain ⟨e2, he2, hbad, hv⟩ := validateLoop_eq_some check hfs schema _ err herr
  have herr2 := validateSetting_error check hfs schema e2.1 e2.2 hbad
  rw [hv] at herr2
  have hres : ValidateHostFirmwareSettings check (some hfs) schema = some err := by
    simp only [ValidateHostFirmwareSettings, herr]
  have hreach : ¬ (stringsContains e2.1 "Password" = true ∨
      (GoMap.get? hfs.Status.Settings e2.1).isNone = true) →
      stringsContains e2.1 "Password" = false ∧
      (GoMap.get? hfs.Status.Settings e2.1).isSome = true ∧
      ∃ s, schema = some s ∧ check s e2.1 e2.2 s.Spec.Schema = false := by
    intro hcon
    simp only [not_or, Bool.not_eq_true, Option.isNone_iff_eq_none] at hcon
    obtain ⟨h1, h2⟩ := hcon
    have h3 : (GoMap.get? hfs.Status.Settings e2.1).isSome = true := by
      cases hg : GoMap.get? hfs.Status.Settings e2.1 with
      | none => exact absurd hg h2
      | some _ => rfl
    refine ⟨h1, h3, ?_⟩
    unfold settingOK at hbad
    cases schema with
    | none => simp [h1, h3] at hbad
    | some s => exact ⟨s, rfl, by simpa [h1, h3] using hbad⟩
  have hname : (∀ e ∈ GoMap.entries hfs.Spec.Settings, stringsContains e.1 "Password" = false →
      (GoMap.get? hfs.Status.Settings e.1).isSome = true → ∀ s, schema = some s →
      check s e.1 e.2 s.Spec.Schema = true) →
      ∃ name, ValidateHostFirmwareSettings check (some hfs) schema =
        some (.InvalidHostFirmwareNameError name) := by
    intro hall
    refine ⟨e2.1, ?_⟩
    rw [hres, Option.some.inj herr2]
    by_cases hcond : stringsContains e2.1 "Password" = true ∨
        (GoMap.get? hfs.Status.Settings e2.1).isNone = true
    · rw [if_pos hcond]
    · obtain ⟨h1, h3, s, hs, hrej⟩ := hreach hcond
      rw [hall e2 he2 h1 h3 s hs] at hrej
      cases hrej
  refine ⟨by simp [hres], hname, ?_, ?_⟩
  · intro hnil
    exact hname (fun e _ _ _ s hs => by rw [hnil] at hs; cases hs)
  · intro name value hval
    rw [hres, Option.some.inj herr2] at hval
    by_cases hcond : stringsContains e2.1 "Password" = true ∨
        (GoMap.get? hfs.Status.Settings e2.1).isNone = true
    · rw [if_pos hcond] at hval
      cases hval
    · rw [if_neg hcond] at hval
      obtain ⟨h1, h3, s, hs, hrej⟩ := hreach hcond
      injection hval with hval
      injection hval with hn hvl
      exact ⟨e2, he2, hn, hvl, h1, h3, s, hs, hrej⟩

/-- Witness of C14 (amended): the desired settings of the test "invalid password in
spec": the three entries that reach the schema check pass it, so the error is a name
error, although the schema has no entry for SysPassword. -/
theorem ValidateHostFirmwareSettings_password_witness :
    (ValidateHostFirmwareSettings (CheckSettingIsValid false)
        (some (testSettings [("CustomPostMessage", .str "All tests passed"),
          ("ProcVirtualization", .str "Disabled"), ("NetworkBootRetryCount", .str "20"),
          ("SysPassword", .str "Pa%$word")]))
        (some testSchema)).isSome = true ∧
    (∃ name, ValidateHostFirmwareSettings (CheckSettingIsValid false)
        (some (testSettings [("CustomPostMessage", .str "All tests passed"),
          ("ProcVirtualization", .str "Disabled"), ("NetworkBootRetryCount", .str "20"),
          ("SysPassword", .str "Pa%$word")]))
        (some testSchema) = some (.InvalidHostFirmwareNameError name)) ∧
    CheckSettingIsValid false testSchema "SysPassword" (.str "Pa%$word")
      testSchema.Spec.Schema = false :=
  ⟨(ValidateHostFirmwareSettings_password (CheckSettingIsValid false)
      (testSettings [("CustomPostMessage", .str "All tests passed"),
        ("ProcVirtualization", .str "Disabled"), ("NetworkBootRetryCount", .str "20"),
        ("SysPassword", .str "Pa%$word")])
      (some testSchema) ⟨("SysPassword", .str "Pa%$word"), by decide, by decide⟩).1,
    (ValidateHostFirmwareSettings_password (CheckSettingIsValid false)
      (testSettings [("CustomPostMessage", .str "All tests passed"),
        ("ProcVirtualization", .str "Disabled"), ("NetworkBootRetryCount", .str "20"),
        ("SysPassword", .str "Pa%$word")])
      (some testSchema) ⟨("SysPassword", .str "Pa%$word"), by decide, by decide⟩).2.1
      (by
        intro e he hpw hst s hs
        cases hs
        revert hpw hst
        revert e
        decide),
    by decide⟩

/-- C15: for a non-nil resource, validation returns nil exactly when every desired entry
has a name without "Password" that is a key of the observed settings and, if a schema is
given, a value the schema check accepts; with a nil schema the result depends on the
names and the observed settings only, the values are never inspected. -/
theorem ValidateHostFirmwareSettings_eq_none_iff
    (check : FirmwareSchema → String → IntOrString → GoMap SettingSchema → Bool)
    (hfs : HostFirmwareSettings) (schema : Option FirmwareSchema) :
    (ValidateHostFirmwareSettings check (some hfs) schema = none ↔
      ∀ e ∈ GoMap.entries hfs.Spec.Settings,
        stringsContains e.1 "Password" = false ∧
        (GoMap.get? hfs.Status.Settings e.1).isSome = true ∧
        (schema = none ∨ ∃ s, schema = some s ∧ check s e.1 e.2 s.Spec.Schema = true)) ∧
    (∀ (check2 : FirmwareSchema → String → IntOrString → GoMap SettingSchema → Bool)
        (hfs2 : HostFirmwareSettings), hfs2.Status = hfs.Status →
      (GoMap.entries hfs2.Spec.Settings).map Prod.fst =
        (GoMap.entries hfs.Spec.Settings).map Prod.fst →
      ValidateHostFirmwareSettings check2 (some hfs2) none =
        ValidateHostFirmwareSettings check (some hfs) none) := by
  constructor
  · simp only [ValidateHostFirmwareSettings, validateLoop_eq_none_iff]
    refine forall_congr' (fun e => forall_congr' (fun _ => ?_))
    unfold settingOK
    cases schema with
    | none => simp
    | some s => simp [and_assoc]
  · intro check2 hfs2 hstatus hnames
    simp only [ValidateHostFirmwareSettings]
    rw [validateLoop_status check2 hfs hfs2 hstatus]
    exact validateLoop_nil_schema check check2 hfs _ _ hnames

/-- C16: fail-fast validation. When the entries visited before an entry all pass and
that entry fails a check, validation returns the error of that entry, whatever entries
follow it: a name error if the name contains "Password" or is not observed, otherwise a
value error carrying the name and the string form of the value. -/
theorem ValidateHostFirmwareSettings_first_violation
    (check : FirmwareSchema → String → IntOrString → GoMap SettingSchema → Bool)
    (hfs : HostFirmwareSettings) (schema : Option FirmwareSchema)
    (pre post : List (String × IntOrString)) (name : String) (val : IntOrString)
    (hsplit : GoMap.entries hfs.Spec.Settings = pre ++ (name, val) :: post)
    (hpre : ∀ x ∈ pre, settingOK check hfs schema x.1 x.2 = true)
    (hviol : settingOK check hfs schema name val = false) :
    ValidateHostFirmwareSettings check (some hfs) schema =
      some (if stringsContains name "Password" = true ∨
              (GoMap.get? hfs.Status.Settings name).isNone = true
            then .InvalidHostFirmwareNameError name
            else .InvalidHostFirmwareValueError name val.String) ∧
    (∀ (hfs2 : HostFirmwareSettings) (post2 : List (String × IntOrString)),
      hfs2.Status = hfs.Status →
      GoMap.entries hfs2.Spec.Settings = pre ++ (name, val) :: post2 →
      ValidateHostFirmwareSettings check (some hfs2) schema =
        ValidateHostFirmwareSettings check (some hfs) schema) := by
  have hmain : ValidateHostFirmwareSettings check (some hfs) schema =
      validateSetting check hfs schema name val := by
    simp only [ValidateHostFirmwareSettings, hsplit]
    exact validateLoop_first check hfs schema pre post name val hpre hviol
  refine ⟨by rw [hmain, validateSetting_error check hfs schema name val hviol], ?_⟩
  intro hfs2 post2 hstatus hsplit2
  rw [hmain]
  simp only [ValidateHostFirmwareSettings, hsplit2]
  rw [validateLoop_status check hfs hfs2 hstatus]
  exact validateLoop_first check hfs schema pre post2 name val hpre hviol

/-- Witness of C16: the test "invalid name" preceded by a valid entry and followed by a
password-like name. -/
theorem ValidateHostFirmwareSettings_first_violation_witness :
    ValidateHostFirmwareSettings (CheckSettingIsValid false)
        (some (testSettings [("ProcVirtualization", .str "Disabled"),
          ("SomeNewSetting", .str "foo"), ("SysPassword", .str "Pa%$word")]))
        (some testSchema) = some (.InvalidHostFirmwareNameError "SomeNewSetting") :=
  (ValidateHostFirmwareSettings_first_violation (CheckSettingIsValid false)
    (testSettings [("ProcVirtualization", .str "Disabled"),
      ("SomeNewSetting", .str "foo"), ("SysPassword", .str "Pa%$word")])
    (some testSchema) [("ProcVirtualization", .str "Disabled")]
    [("SysPassword", .str "Pa%$word")] "SomeNewSetting" (.str "foo") rfl (by decide)
    (by decide)).1

/-- C17 fails as stated: two visiting orders of the same two desired entries, both of
which fail a check, return different errors. -/
theorem ValidateHostFirmwareSettings_order_dependent :
    List.Perm [("SysPassword", IntOrString.str "x"), ("SomeNewSetting", IntOrString.str "foo")]
      [("SomeNewSetting", IntOrString.str "foo"), ("SysPassword", IntOrString.str "x")] ∧
    ValidateHostFirmwareSettings (CheckSettingIsValid false)
        (some (testSettings [("SysPassword", .str "x"), ("SomeNewSetting", .str "foo")]))
        (some testSchema) = some (.InvalidHostFirmwareNameError "SysPassword") ∧
    ValidateHostFirmwareSettings (CheckSettingIsValid false)
        (some (testSettings [("SomeNewSetting", .str "foo"), ("SysPassword", .str "x")]))
        (some testSchema) = some (.InvalidHostFirmwareNameError "SomeNewSetting") :=
  ⟨List.Perm.swap _ _ _, by decide, by decide⟩

/-- C17 (amended): two visiting orders of the same desired entries agree on whether
validation succeeds, and they return the same error whenever at most one entry fails a
check; the error is always the one of the first failing entry in the order used. -/
theorem ValidateHostFirmwareSettings_order
    (check : FirmwareSchema → String → IntOrString → GoMap SettingSchema → Bool)
    (hfs hfs2 : HostFirmwareSettings) (schema : Option FirmwareSchema)
    (hstatus : hfs2.Status = hfs.Status)
    (hperm : List.Perm (GoMap.entries hfs2.Spec.Settings) (GoMap.entries hfs.Spec.Settings)) :
    (ValidateHostFirmwareSettings check (some hfs2) schema = none ↔
      ValidateHostFirmwareSettings check (some hfs) schema = none) ∧
    ((∀ e1 ∈ GoMap.entries hfs.Spec.Settings, ∀ e2 ∈ GoMap.entries hfs.Spec.Settings,
        settingOK check hfs schema e1.1 e1.2 = false →
        settingOK check hfs schema e2.1 e2.2 = false → e1 = e2) →
      ValidateHostFirmwareSettings check (some hfs2) schema =
        ValidateHostFirmwareSettings check (some hfs) schema) := by
  have hnone : validateLoop check hfs schema (GoMap.entries hfs2.Spec.Settings) = none ↔
      validateLoop check hfs schema (GoMap.entries hfs.Spec.Settings) = none := by
    rw [validateLoop_eq_none_iff, validateLoop_eq_none_iff]
    exact ⟨fun h e he => h e (hperm.mem_iff.mpr he), fun h e he => h e (hperm.mem_iff.mp he)⟩
  simp only [ValidateHostFirmwareSettings]
  rw [validateLoop_status check hfs hfs2 hstatus]
  refine ⟨hnone, ?_⟩
  intro huniq
  cases h1 : validateLoop check hfs schema (GoMap.entries hfs.Spec.Settings) with
  | none => exact hnone.mpr h1
  | some err =>
    cases h2 : validateLoop check hfs schema (GoMap.entries hfs2.Spec.Settings) with
    | none => rw [hnone.mp h2] at h1; cases h1
    | some err2 =>
      obtain ⟨e1, he1, hb1, hv1⟩ := validateLoop_eq_some check hfs schema _ err h1
      obtain ⟨e2, he2, hb2, hv2⟩ := validateLoop_eq_some check hfs schema _ err2 h2
      have heq := huniq e1 he1 e2 (hperm.mem_iff.mp he2) hb1 hb2
      subst heq
      rw [hv1] at hv2
      exact hv2.symm

/-- Witness of C17 (amended): the three desired entries of the test "invalid enum", of
which one fails, in two orders. -/
theorem ValidateHostFirmwareSettings_order_witness :
    ValidateHostFirmwareSettings (CheckSettingIsValid false)
        (some (testSettings [("NetworkBootRetryCount", .str "20"),
          ("ProcVirtualization", .str "Not enabled")]))
        (some testSchema) =
      ValidateHostFirmwareSettings (CheckSettingIsValid false)
        (some (testSettings [("ProcVirtualization", .str "Not enabled"),
          ("NetworkBootRetryCount", .str "20")]))
        (some testSchema) :=
  (ValidateHostFirmwareSettings_order (CheckSettingIsValid false)
    (testSettings [("ProcVirtualization", .str "Not enabled"),
      ("NetworkBootRetryCount", .str "20")])
    (testSettings [("NetworkBootRetryCount", .str "20"),
      ("ProcVirtualization", .str "Not enabled")])
    (some testSchema) rfl (List.Perm.swap _ _ _)).2 (by decide)

/-! ## The schema check inside validation -/

/-- For an observed name without "Password" that has a schema entry, an entry of the
desired settings passes exactly when the schema entry accepts the value. -/
theorem settingOK_entry (absent : Bool) (hfs : HostFirmwareSettings) (schema : FirmwareSchema)
    (name : String) (val : IntOrString) (entry : SettingSchema)
    (hpw : stringsContains name "Password" = false)
    (hobs : (GoMap.get? hfs.Status.Settings name).isSome = true)
    (hentry : GoMap.get? schema.Spec.Schema name = some entry) :
    settingOK (CheckSettingIsValid absent) hfs (some schema) name val = entry.accepts val := by
  simp [settingOK, CheckSettingIsValid, hpw, hobs, hentry]

/-- A rejected value of such a name gives the value error of that entry once every entry
visited before it passes. -/
theorem validate_rejected (absent : Bool) (hfs : HostFirmwareSettings) (schema : FirmwareSchema)
    (name : String) (val : IntOrString)
    (hpw : stringsContains name "Password" = false)
    (hobs : (GoMap.get? hfs.Status.Settings name).isSome = true)
    (hbad : settingOK (CheckSettingIsValid absent) hfs (some schema) name val = false)
    (pre post : List (String × IntOrString))
    (hsplit : GoMap.entries hfs.Spec.Settings = pre ++ (name, val) :: post)
    (hpre : ∀ x ∈ pre, settingOK (CheckSettingIsValid absent) hfs (some schema) x.1 x.2 = true) :
    ValidateHostFirmwareSettings (CheckSettingIsValid absent) (some hfs) (some schema) =
      some (.InvalidHostFirmwareValueError name val.String) := by
  simp only [ValidateHostFirmwareSettings, hsplit]
  rw [validateLoop_first _ hfs (some schema) pre post name val hpre hbad,
    validateSetting_error _ hfs (some schema) name val hbad]
  have hnot : ¬ (stringsContains name "Password" = true ∨
      (GoMap.get? hfs.Status.Settings name).isNone = true) := by
    cases hg : GoMap.get? hfs.Status.Settings name with
    | none => simp [hg] at hobs
    | some _ => simp [hpw]
  rw [if_neg hnot]

/-- An accepted value lets validation succeed once every other entry passes. -/
theorem validate_accepted (absent : Bool) (hfs : HostFirmwareSettings) (schema : FirmwareSchema)
    (name : String) (val : IntOrString)
    (hok : settingOK (CheckSettingIsValid absent) hfs (some schema) name val = true)
    (pre post : List (String × IntOrString))
    (hsplit : GoMap.entries hfs.Spec.Settings = pre ++ (name, val) :: post)
    (hrest : ∀ x ∈ pre ++ post,
      settingOK (CheckSettingIsValid absent) hfs (some schema) x.1 x.2 = true) :
    ValidateHostFirmwareSettings (CheckSettingIsValid absent) (some hfs) (some schema) = none := by
  simp only [ValidateHostFirmwareSettings, hsplit, validateLoop_eq_none_iff]
  intro e he
  rcases List.mem_append.mp he with h | h
  · exact hrest e (List.mem_append_left _ h)
  · rcases List.mem_cons.mp h with h | h
    · rw [h]; exact hok
    · exact hrest e (List.mem_append_right _ h)

/-- C18 fails as stated: an observed enumeration setting whose name contains "Password"
is rejected with a name error, whether its value is an allowed one or not. -/
theorem ValidateHostFirmwareSettings_enumeration_password :
    GoMap.get? passwordSchema.Spec.Schema "PasswordPolicy" =
      some ⟨.enumeration ["Enabled", "Disabled"], false⟩ ∧
    (GoMap.get? (passwordSettings []).Status.Settings "PasswordPolicy").isSome = true ∧
    ValidateHostFirmwareSettings (CheckSettingIsValid false)
        (some (passwordSettings [("PasswordPolicy", .str "Not enabled")]))
        (some passwordSchema) = some (.InvalidHostFirmwareNameError "PasswordPolicy") ∧
    ValidateHostFirmwareSettings (CheckSettingIsValid false)
        (some (passwordSettings [("PasswordPolicy", .str "Enabled")]))
        (some passwordSchema) = some (.InvalidHostFirmwareNameError "PasswordPolicy") := by
  decide

/-- C18 (amended): for an observed setting whose name does not contain "Password" and
whose schema entry is an Enumeration that is not read-only, a value outside the allowed
set makes validation fail with the value error carrying the name and the literal value,
once every entry visited before it passes; a value in the set is accepted. -/
theorem ValidateHostFirmwareSettings_enumeration (absent : Bool) (hfs : HostFirmwareSettings)
    (schema : FirmwareSchema) (name : String) (val : IntOrString) (allowed : List String)
    (hpw : stringsContains name "Password" = false)
    (hobs : (GoMap.get? hfs.Status.Settings name).isSome = true)
    (hentry : GoMap.get? schema.Spec.Schema name = some ⟨.enumeration allowed, false⟩) :
    (val.String ∉ allowed →
      ∀ pre post : List (String × IntOrString),
        GoMap.entries hfs.Spec.Settings = pre ++ (name, val) :: post →
        (∀ x ∈ pre,
          settingOK (CheckSettingIsValid absent) hfs (some schema) x.1 x.2 = true) →
        ValidateHostFirmwareSettings (CheckSettingIsValid absent) (some hfs) (some schema) =
          some (.InvalidHostFirmwareValueError name val.String)) ∧
    (val.String ∈ allowed →
      settingOK (CheckSettingIsValid absent) hfs (some schema) name val = true ∧
      ∀ pre post : List (String × IntOrString),
        GoMap.entries hfs.Spec.Settings = pre ++ (name, val) :: post →
        (∀ x ∈ pre ++ post,
          settingOK (CheckSettingIsValid absent) hfs (some schema) x.1 x.2 = true) →
        ValidateHostFirmwareSettings (CheckSettingIsValid absent) (some hfs) (some schema) =
          none) := by
  have hok := settingOK_entry absent hfs schema name val _ hpw hobs hentry
  constructor
  · intro hmem pre post hsplit hpre
    have hbad : settingOK (CheckSettingIsValid absent) hfs (some schema) name val = false := by
      rw [hok]; simp [SettingSchema.accepts, hmem]
    exact validate_rejected absent hfs schema name val hpw hobs hbad pre post hsplit hpre
  · intro hmem
    have hgood : settingOK (CheckSettingIsValid absent) hfs (some schema) name val = true := by
      rw [hok]; simp [SettingSchema.accepts, hmem]
    exact ⟨hgood, fun pre post hsplit hrest =>
      validate_accepted absent hfs schema name val hgood pre post hsplit hrest⟩

/-- Witness of C18 (amended): the test "invalid enum". -/
theorem ValidateHostFirmwareSettings_enumeration_witness :
    ValidateHostFirmwareSettings (CheckSettingIsValid false)
        (some (testSettings [("CustomPostMessage", .str "All tests passed"),
          ("ProcVirtualization", .str "Not enabled"), ("NetworkBootRetryCount", .str "20")]))
        (some testSchema) =
      some (.InvalidHostFirmwareValueError "ProcVirtualization" "Not enabled") :=
  (ValidateHostFirmwareSettings_enumeration false
    (testSettings [("CustomPostMessage", .str "All tests passed"),
      ("ProcVirtualization", .str "Not enabled"), ("NetworkBootRetryCount", .str "20")])
    testSchema "ProcVirtualization" (.str "Not enabled") ["Enabled", "Disabled"]
    (by decide) (by decide) (by decide)).1 (by decide)
    [("CustomPostMessage", .str "All tests passed")] [("NetworkBootRetryCount", .str "20")]
    rfl (by decide)

/-- C19 fails as stated: an observed integer setting whose name contains "Password" is
rejected with a name error although its value lies within the bounds. -/
theorem ValidateHostFirmwareSettings_integer_password :
    GoMap.get? passwordSchema.Spec.Schema "PasswordRetryCount" =
      some ⟨.integer 0 20, false⟩ ∧
    (GoMap.get? (passwordSettings []).Status.Settings "PasswordRetryCount").isSome = true ∧
    (IntOrString.str "5").numeric = some 5 ∧
    ValidateHostFirmwareSettings (CheckSettingIsValid false)
        (some (passwordSettings [("PasswordRetryCount", .str "5")]))
        (some passwordSchema) = some (.InvalidHostFirmwareNameError "PasswordRetryCount") := by
  decide

/-- C19 (amended): for an observed setting whose name does not contain "Password" and
whose schema entry is an Integer that is not read-only, a desired value is accepted
exactly when it parses as an integer within the inclusive bounds; a value that is not
makes validation fail with the value error carrying the name and the literal value, once
every entry visited before it passes. With the bounds 0 and 20 the values "0" and "20"
are accepted and "21", "-1" and "2000" are rejected. -/
theorem ValidateHostFirmwareSettings_integer (absent : Bool) (hfs : HostFirmwareSettings)
    (schema : FirmwareSchema) (name : String) (val : IntOrString) (lowerBound upperBound : Int)
    (hpw : stringsContains name "Password" = false)
    (hobs : (GoMap.get? hfs.Status.Settings name).isSome = true)
    (hentry : GoMap.get? schema.Spec.Schema name =
      some ⟨.integer lowerBound upperBound, false⟩) :
    (settingOK (CheckSettingIsValid absent) hfs (some schema) name val = true ↔
      ∃ v, val.numeric = some v ∧ lowerBound ≤ v ∧ v ≤ upperBound) ∧
    ((¬ ∃ v, val.numeric = some v ∧ lowerBound ≤ v ∧ v ≤ upperBound) →
      ∀ pre post : List (String × IntOrString),
        GoMap.entries hfs.Spec.Settings = pre ++ (name, val) :: post →
        (∀ x ∈ pre,
          settingOK (CheckSettingIsValid absent) hfs (some schema) x.1 x.2 = true) →
        ValidateHostFirmwareSettings (CheckSettingIsValid absent) (some hfs) (some schema) =
          some (.InvalidHostFirmwareValueError name val.String)) ∧
    ((∃ v, val.numeric = some v ∧ lowerBound ≤ v ∧ v ≤ upperBound) →
      ∀ pre post : List (String × IntOrString),
        GoMap.entries hfs.Spec.Settings = pre ++ (name, val) :: post →
        (∀ x ∈ pre ++ post,
          settingOK (CheckSettingIsValid absent) hfs (some schema) x.1 x.2 = true) →
        ValidateHostFirmwareSettings (CheckSettingIsValid absent) (some hfs) (some schema) =
          none) ∧
    (lowerBound = 0 → upperBound = 20 →
      settingOK (CheckSettingIsValid absent) hfs (some schema) name (.str "0") = true ∧
      settingOK (CheckSettingIsValid absent) hfs (some schema) name (.str "20") = true ∧
      validateSetting (CheckSettingIsValid absent) hfs (some schema) name (.str "21") =
        some (.InvalidHostFirmwareValueError name "21") ∧
      validateSetting (CheckSettingIsValid absent) hfs (some schema) name (.str "-1") =
        some (.InvalidHostFirmwareValueError name "-1") ∧
      validateSetting (CheckSettingIsValid absent) hfs (some schema) name (.str "2000") =
        some (.InvalidHostFirmwareValueError name "2000")) := by
  have hok : ∀ w : IntOrString,
      settingOK (CheckSettingIsValid absent) hfs (some schema) name w =
        (SettingSchema.mk (.integer lowerBound upperBound) false).accepts w :=
    fun w => settingOK_entry absent hfs schema name w _ hpw hobs hentry
  have hiff : settingOK (CheckSettingIsValid absent) hfs (some schema) name val = true ↔
      ∃ v, val.numeric = some v ∧ lowerBound ≤ v ∧ v ≤ upperBound := by
    rw [hok]
    cases hn : val.numeric with
    | none => simp [SettingSchema.accepts, hn]
    | some v => simp [SettingSchema.accepts, hn]
  have hnot : ¬ (stringsContains name "Password" = true ∨
      (GoMap.get? hfs.Status.Settings name).isNone = true) := by
    cases hg : GoMap.get? hfs.Status.Settings name with
    | none => simp [hg] at hobs
    | some _ => simp [hpw]
  have hrej : ∀ w : IntOrString,
      (SettingSchema.mk (.integer lowerBound upperBound) false).accepts w = false →
      validateSetting (CheckSettingIsValid absent) hfs (some schema) name w =
        some (.InvalidHostFirmwareValueError name w.String) := by
    intro w hw
    rw [validateSetting_error _ hfs (some schema) name w (by rw [hok]; exact hw), if_neg hnot]
  refine ⟨hiff, ?_, ?_, ?_⟩
  · intro hno pre post hsplit hpre
    have hbad : settingOK (CheckSettingIsValid absent) hfs (some schema) name val = false := by
      cases hs : settingOK (CheckSettingIsValid absent) hfs (some schema) name val with
      | false => rfl
      | true => exact absurd (hiff.mp hs) hno
    exact validate_rejected absent hfs schema name val hpw hobs hbad pre post hsplit hpre
  · intro hyes pre post hsplit hrest
    exact validate_accepted absent hfs schema name val (hiff.mpr hyes) pre post hsplit hrest
  · intro hlo hhi
    subst hlo hhi
    refine ⟨by rw [hok]; decide, by rw [hok]; decide, ?_, ?_, ?_⟩
    · exact hrej (.str "21") (by decide)
    · exact hrej (.str "-1") (by decide)
    · exact hrej (.str "2000") (by decide)

/-- Witness of C19 (amended): the test "invalid int". -/
theorem ValidateHostFirmwareSettings_integer_witness :
    ValidateHostFirmwareSettings (CheckSettingIsValid false)
        (some (testSettings [("CustomPostMessage", .str "All tests passed"),
          ("ProcVirtualization", .str "Disabled"), ("NetworkBootRetryCount", .str "2000")]))
        (some testSchema) =
      some (.InvalidHostFirmwareValueError "NetworkBootRetryCount" "2000") :=
  (ValidateHostFirmwareSettings_integer false
    (testSettings [("CustomPostMessage", .str "All tests passed"),
      ("ProcVirtualization", .str "Disabled"), ("NetworkBootRetryCount", .str "2000")])
    testSchema "NetworkBootRetryCount" (.str "2000") 0 20
    (by decide) (by decide) (by decide)).2.1 (by decide)
    [("CustomPostMessage", .str "All tests passed"), ("ProcVirtualization", .str "Disabled")]
    [] rfl (by decide)

/-- C20 fails as stated: an observed read-only setting whose name contains "Password" is
rejected with a name error, not with a value error. -/
theorem ValidateHostFirmwareSettings_read_only_password :
    GoMap.get? passwordSchema.Spec.Schema "SysPassword" =
      some ⟨.string 0 20 false, true⟩ ∧
    (GoMap.get? (passwordSettings []).Status.Settings "SysPassword").isSome = true ∧
    ValidateHostFirmwareSettings (CheckSettingIsValid false)
        (some (passwordSettings [("SysPassword", .str "secret")]))
        (some passwordSchema) = some (.InvalidHostFirmwareNameError "SysPassword") := by
  decide

/-- C20 (amended): for an observed setting whose name does not contain "Password" and
whose schema entry is flagged read-only (with any attribute type) or unique, every
desired value is rejected by the schema check, and validation fails with the value error
of that entry once every entry visited before it passes. -/
theorem ValidateHostFirmwareSettings_read_only_or_unique (absent : Bool)
    (hfs : HostFirmwareSettings) (schema : FirmwareSchema) (name : String) (val : IntOrString)
    (entry : SettingSchema)
    (hpw : stringsContains name "Password" = false)
    (hobs : (GoMap.get? hfs.Status.Settings name).isSome = true)
    (hentry : GoMap.get? schema.Spec.Schema name = some entry)
    (hflag : entry.ReadOnly = true ∨
      ∃ minLength maxLength, entry.Attribute = .string minLength maxLength true) :
    CheckSettingIsValid absent schema name val schema.Spec.Schema = false ∧
    validateSetting (CheckSettingIsValid absent) hfs (some schema) name val =
      some (.InvalidHostFirmwareValueError name val.String) ∧
    (∀ pre post : List (String × IntOrString),
      GoMap.entries hfs.Spec.Settings = pre ++ (name, val) :: post →
      (∀ x ∈ pre, settingOK (CheckSettingIsValid absent) hfs (some schema) x.1 x.2 = true) →
      ValidateHostFirmwareSettings (CheckSettingIsValid absent) (some hfs) (some schema) =
        some (.InvalidHostFirmwareValueError name val.String)) := by
  have hrej : entry.accepts val = false := by
    unfold SettingSchema.accepts
    rcases hflag with h | ⟨lo, hi, h⟩
    · simp [h]
    · cases hr : entry.ReadOnly <;> simp [h]
  have hbad : settingOK (CheckSettingIsValid absent) hfs (some schema) name val = false := by
    rw [settingOK_entry absent hfs schema name val entry hpw hobs hentry, hrej]
  have hnot : ¬ (stringsContains name "Password" = true ∨
      (GoMap.get? hfs.Status.Settings name).isNone = true) := by
    cases hg : GoMap.get? hfs.Status.Settings name with
    | none => simp [hg] at hobs
    | some _ => simp [hpw]
  refine ⟨by simp [CheckSettingIsValid, hentry, hrej], ?_, ?_⟩
  · rw [validateSetting_error _ hfs (some schema) name val hbad, if_neg hnot]
  · intro pre post hsplit hpre
    exact validate_rejected absent hfs schema name val hpw hobs hbad pre post hsplit hpre

/-- Witness of C20 (amended): the read-only setting L2Cache and the unique setting
AssetTag of the test schema. -/
theorem ValidateHostFirmwareSettings_read_only_or_unique_witness :
    ValidateHostFirmwareSettings (CheckSettingIsValid false)
        (some (testSettings [("L2Cache", .str "10x512 KB")])) (some testSchema) =
      some (.InvalidHostFirmwareValueError "L2Cache" "10x512 KB") ∧
    CheckSettingIsValid false testSchema "AssetTag" (.str "X1") testSchema.Spec.Schema = false :=
  ⟨(ValidateHostFirmwareSettings_read_only_or_unique false
      (testSettings [("L2Cache", .str "10x512 KB")]) testSchema "L2Cache" (.str "10x512 KB")
      ⟨.string 0 20 false, true⟩ (by decide) (by decide) (by decide) (Or.inl rfl)).2.2
      [] [] rfl (by decide),
    (ValidateHostFirmwareSettings_read_only_or_unique false
      (testSettings [("AssetTag", .str "X1")]) testSchema "AssetTag" (.str "X1")
      ⟨.string 0 20 true, false⟩ (by decide) (by decide) (by decide)
      (Or.inr ⟨0, 20, rfl⟩)).1⟩

end Controllers

namespace Controllers

/-! ## The schema name -/

set_option maxRecDepth 100000

theorem sortStrings_eq_of_perm (keys1 keys2 : List String) (h : List.Perm keys1 keys2) :
    sortStrings keys1 = sortStrings keys2 := by
  haveI : IsTotal String (fun a b => a.toList ≤ b.toList) := ⟨fun a b => le_total _ _⟩
  haveI : IsTrans String (fun a b => a.toList ≤ b.toList) :=
    ⟨fun a b c hab hbc => le_trans hab hbc⟩
  haveI : IsAntisymm String (fun a b => a.toList ≤ b.toList) :=
    ⟨fun a b hab hba => String.ext (le_antisymm hab hba)⟩
  unfold sortStrings
  exact List.eq_of_perm_of_sorted
    (((List.perm_insertionSort _ keys1).trans h).trans (List.perm_insertionSort _ keys2).symm)
    (List.sorted_insertionSort _ keys1) (List.sorted_insertionSort _ keys2)

/-- The name is a function of the sorted key list. -/
theorem GetSchemaName_of_sorted (schema1 schema2 : GoMap SettingSchema)
    (h : sortStrings ((GoMap.entries schema1).map Prod.fst) =
      sortStrings ((GoMap.entries schema2).map Prod.fst)) :
    GetSchemaName schema1 = GetSchemaName schema2 := by
  unfold GetSchemaName
  simp only [h]

theorem GetSchemaName_of_key_set (schema1 schema2 : GoMap SettingSchema)
    (hnodup1 : ((GoMap.entries schema1).map Prod.fst).Nodup)
    (hnodup2 : ((GoMap.entries schema2).map Prod.fst).Nodup)
    (hkeys : ∀ k, k ∈ (GoMap.entries schema1).map Prod.fst ↔
      k ∈ (GoMap.entries schema2).map Prod.fst) :
    GetSchemaName schema1 = GetSchemaName schema2 :=
  GetSchemaName_of_sorted schema1 schema2
    (sortStrings_eq_of_perm _ _ ((List.perm_ext_iff_of_nodup hnodup1 hnodup2).mpr hkeys))

theorem GetSchemaName_testSchema : GetSchemaName testSchema.Spec.Schema = "schema-6579d6c1" := by
  decide

/-- C21: the schema name depends only on the set of setting names. Two schema maps with
the same keys get the same name, whatever their values and the order in which their keys
are enumerated; the five keys AssetTag, CustomPostMessage, L2Cache, NetworkBootRetryCount
and ProcVirtualization always give "schema-6579d6c1". -/
theorem GetSchemaName_key_set (schema1 schema2 : GoMap SettingSchema)
    (hnodup1 : ((GoMap.entries schema1).map Prod.fst).Nodup)
    (hnodup2 : ((GoMap.entries schema2).map Prod.fst).Nodup)
    (hkeys : ∀ k, k ∈ (GoMap.entries schema1).map Prod.fst ↔
      k ∈ (GoMap.entries schema2).map Prod.fst) :
    GetSchemaName schema1 = GetSchemaName schema2 ∧
    ((∀ k, k ∈ (GoMap.entries schema1).map Prod.fst ↔
        k ∈ ["AssetTag", "CustomPostMessage", "L2Cache", "NetworkBootRetryCount",
          "ProcVirtualization"]) →
      GetSchemaName schema1 = "schema-6579d6c1") := by
  refine ⟨GetSchemaName_of_key_set schema1 schema2 hnodup1 hnodup2 hkeys, ?_⟩
  intro hfive
  rw [← GetSchemaName_testSchema]
  exact GetSchemaName_of_key_set schema1 testSchema.Spec.Schema hnodup1 (by decide) hfive

/-- Witness of C21: the test schema and a schema with the same five keys in another
order and with other entries. -/
theorem GetSchemaName_key_set_witness :
    GetSchemaName (some [
      ("ProcVirtualization", ⟨.string 0 5 false, true⟩),
      ("L2Cache", ⟨.integer 1 2, false⟩),
      ("AssetTag", ⟨.enumeration ["a"], false⟩),
      ("NetworkBootRetryCount", ⟨.integer 0 99, false⟩),
      ("CustomPostMessage", ⟨.string 0 1 false, false⟩)]) = GetSchemaName testSchema.Spec.Schema :=
  (GetSchemaName_key_set _ testSchema.Spec.Schema (by decide) (by decide)
    (by
      intro k
      simp only [GoMap.entries, testSchema, List.map, List.mem_cons, List.not_mem_nil]
      tauto)).1

theorem hexDigit_mem (n : Nat) : hexDigit n ∈ "0123456789abcdef".toList := by
  unfold hexDigit
  by_cases h : n < 16
  · interval_cases n <;> decide
  · rw [List.getD_eq_default _ _ (by simpa using h)]
    decide

theorem sha256Sum_length (msg : List Nat) : (sha256Sum msg).length = 32 := by
  simp [sha256Sum, wordBytes]

theorem hexString_length (bytes : List Nat) : (hexString bytes).length = 2 * bytes.length := by
  induction bytes with
  | nil => rfl
  | cons b bs ih => simp only [hexString, List.flatMap_cons, List.length_append,
      List.length_cons, List.length_nil] at ih ⊢; omega

theorem hexString_mem (bytes : List Nat) : ∀ c ∈ hexString bytes,
    c ∈ "0123456789abcdef".toList := by
  intro c hc
  simp only [hexString, List.mem_flatMap, List.mem_cons, List.mem_singleton,
    List.not_mem_nil, or_false] at hc
  obtain ⟨b, _, rfl | rfl⟩ := hc
  · exact hexDigit_mem _
  · exact hexDigit_mem _

/-- The key list that is hashed is in increasing order and holds the keys of the map. -/
theorem sortStrings_sorted (keys : List String) :
    (sortStrings keys).Sorted (fun a b => a.toList ≤ b.toList) ∧
    (sortStrings keys).Perm keys := by
  haveI : IsTotal String (fun a b => a.toList ≤ b.toList) := ⟨fun a b => le_total _ _⟩
  haveI : IsTrans String (fun a b => a.toList ≤ b.toList) :=
    ⟨fun a b c hab hbc => le_trans hab hbc⟩
  exact ⟨List.sorted_insertionSort _ keys, List.perm_insertionSort _ keys⟩

/-- C22: for every schema map the schema name has exactly 15 characters: the prefix
"schema-" followed by the first 8 characters of the lowercase hexadecimal form of the
32-byte SHA-256 digest of the formatted key list, which holds the keys of the map in
lexicographically increasing order whatever the order the map enumerates them in: the
keys b, a are hashed as "[a b]" and give "schema-8df752f5", not the "schema-9f3d136e"
of "[b a]". -/
theorem GetSchemaName_format (schema : GoMap SettingSchema) :
    (GetSchemaName schema).length = 15 ∧
    GetSchemaName schema = "schema-" ++ String.mk ((hexString (sha256Sum (stringBytes
      (formatKeys (sortStrings ((GoMap.entries schema).map Prod.fst)))))).take 8) ∧
    (sortStrings ((GoMap.entries schema).map Prod.fst)).Sorted
      (fun a b => a.toList ≤ b.toList) ∧
    (sortStrings ((GoMap.entries schema).map Prod.fst)).Perm
      ((GoMap.entries schema).map Prod.fst) ∧
    (sha256Sum (stringBytes
      (formatKeys (sortStrings ((GoMap.entries schema).map Prod.fst))))).length = 32 ∧
    (∀ c ∈ ((GetSchemaName schema).toList.drop 7), c ∈ "0123456789abcdef".toList) ∧
    GetSchemaName none = "schema-4f53cda1" ∧
    formatKeys (sortStrings ["b", "a"]) = "[a b]" ∧
    GetSchemaName (some [("b", ⟨.integer 0 9, false⟩), ("a", ⟨.integer 0 9, false⟩)]) =
      "schema-8df752f5" ∧
    "schema-" ++ String.mk ((hexString (sha256Sum (stringBytes "[b a]"))).take 8) =
      "schema-9f3d136e" := by
  refine ⟨?_, rfl, (sortStrings_sorted _).1, (sortStrings_sorted _).2, sha256Sum_length _, ?_,
    by decide, by decide, by decide, by decide⟩
  · simp only [GetSchemaName, String.length_append, String.length_mk, List.length_take,
      hexString_length, sha256Sum_length]
    decide
  · intro c hc
    have hlist : (GetSchemaName schema).toList = "schema-".toList ++
        (hexString (sha256Sum (stringBytes
          (formatKeys (sortStrings ((GoMap.entries schema).map Prod.fst)))))).take 8 := by
      simp [GetSchemaName, String.toList]
    rw [hlist] at hc
    have h7 : "schema-".toList.length = 7 := by decide
    rw [List.drop_append_of_le_length (by omega), ← h7, List.drop_length, List.nil_append] at hc
    exact hexString_mem _ c (List.mem_of_mem_take hc)

/-! ## The reconcile pass -/

theorem validateAndFinish_client
    (check : FirmwareSchema → String → IntOrString → GoMap SettingSchema → Bool)
    (r : Client) (hfs : HostFirmwareSettings) (schema : Option FirmwareSchema)
    (log : List String) :
    (validateAndFinish check r hfs schema log).client = r ∧
    (validateAndFinish check r hfs schema log).result = {} ∧
    (validateAndFinish check r hfs schema log).err = none := by
  unfold validateAndFinish
  cases ValidateHostFirmwareSettings check (some hfs) schema <;> exact ⟨rfl, rfl, rfl⟩

/-- After a successful load the store a reconcile pass leaves behind is the one left by
the restoring block; nothing later writes to it. -/
theorem Reconcile_client
    (check : FirmwareSchema → String → IntOrString → GoMap SettingSchema → Bool)
    (nameKey namespaceKey : String) (r : Client) (req : NamespacedName)
    (hfs : HostFirmwareSettings) (hget : r.getSettings req = .ok hfs) :
    (Reconcile check nameKey namespaceKey r req).client =
      (restoreFirmwareSchema nameKey namespaceKey r req hfs ["start"]).2.1 := by
  unfold Reconcile
  simp only [hget]
  rcases restoreFirmwareSchema nameKey namespaceKey r req hfs ["start"] with
    ⟨hfs2, r2, log2⟩
  simp only
  split_ifs
  · rfl
  · cases hfs2.Status.FirmwareSchema with
    | none => exact (validateAndFinish_client check r2 hfs2 none log2).1
    | some ref =>
      simp only
      rcases r2.getSchema { Namespace := ref.Namespace, Name := ref.Name } with e | schema
      · cases e <;> rfl
      · exact (validateAndFinish_client check r2 hfs2 (some schema) log2).1

/-- Every return of a reconcile pass carries the empty result. -/
theorem Reconcile_result
    (check : FirmwareSchema → String → IntOrString → GoMap SettingSchema → Bool)
    (nameKey namespaceKey : String) (r : Client) (req : NamespacedName) :
    (Reconcile check nameKey namespaceKey r req).result = {} := by
  unfold Reconcile
  rcases r.getSettings req with e | hfs
  · cases e <;> rfl
  · simp only
    rcases restoreFirmwareSchema nameKey namespaceKey r req hfs ["start"] with
      ⟨hfs2, r2, log2⟩
    simp only
    split_ifs
    · rfl
    · cases hfs2.Status.FirmwareSchema with
      | none => exact (validateAndFinish_client check r2 hfs2 none log2).2.1
      | some ref =>
        simp only
        rcases r2.getSchema { Namespace := ref.Namespace, Name := ref.Name } with e | schema
        · cases e <;> rfl
        · exact (validateAndFinish_client check r2 hfs2 (some schema) log2).2.1

theorem lookup_map_replace {α β : Type} [DecidableEq α] (l : List (α × β)) (key : α) (v w : β)
    (h : l.lookup key = some w) :
    (l.map (fun e => if e.1 = key then (key, v) else e)).lookup key = some v := by
  induction l with
  | nil => simp at h
  | cons e l ih =>
    obtain ⟨a, b⟩ := e
    by_cases hak : a = key
    · subst hak
      simp [List.lookup_cons]
    · have hb : (key == a) = false := by simpa using fun hc => hak hc.symm
      simp only [List.lookup_cons, hb] at h
      simp only [List.map_cons, hak, if_false, List.lookup_cons, hb]
      exact ih h

theorem getSettings_ok (r : Client) (req : NamespacedName) (hfs : HostFirmwareSettings)
    (hget : r.getSettings req = .ok hfs) : r.settings.lookup req = some hfs := by
  unfold Client.getSettings at hget
  cases hf : r.getSettingsFault with
  | some m => simp [hf] at hget
  | none =>
    cases hl : r.settings.lookup req with
    | none => simp [hf, hl] at hget
    | some x =>
      simp only [hf, hl, Except.ok.injEq] at hget
      rw [hget]

/-- C29 fails as stated: when the update of the restored resource fails, the failure is
only logged and the stored resource stays without a schema reference. -/
theorem Reconcile_pivot_update_fails :
    GoMap.get? pivotSettings.Annotations "name" = some "schema-6579d6c1" ∧
    pivotSettings.Status.FirmwareSchema = none ∧
    ((Reconcile (CheckSettingIsValid false) "name" "namespace"
        { settings := [(testKey, pivotSettings)], updateFault := some "conflict" }
        testKey).client.settings.lookup testKey).map (fun stored => stored.Status.FirmwareSchema)
      = some none ∧
    (Reconcile (CheckSettingIsValid false) "name" "namespace"
        { settings := [(testKey, pivotSettings)], updateFault := some "conflict" }
        testKey).err = none := by
  decide

/-- C29 (amended): pivot recovery. For a loaded resource whose status has no schema
reference and whose annotations contain the schema-name annotation, the pass updates the
resource with the reference built from the two annotations; when the update succeeds the
stored resource carries that reference after the pass, and when it fails the store is
left as it was. A resource without the schema-name annotation is not written at all. -/
theorem Reconcile_pivot
    (check : FirmwareSchema → String → IntOrString → GoMap SettingSchema → Bool)
    (nameKey namespaceKey : String) (r : Client) (req : NamespacedName)
    (hfs : HostFirmwareSettings) (hget : r.getSettings req = .ok hfs)
    (hnoref : hfs.Status.FirmwareSchema = none) :
    (∀ name, GoMap.get? hfs.Annotations nameKey = some name →
      (r.updateFault = none →
        ∃ stored, (Reconcile check nameKey namespaceKey r req).client.settings.lookup
            req = some stored ∧
          stored.Status.FirmwareSchema = some
            { Name := name,
              Namespace := (GoMap.get? hfs.Annotations namespaceKey).getD "" } ∧
          stored.Status.Settings = hfs.Status.Settings ∧ stored.Spec = hfs.Spec ∧
          stored.Annotations = hfs.Annotations) ∧
      (r.updateFault ≠ none →
        (Reconcile check nameKey namespaceKey r req).client = r)) ∧
    (GoMap.get? hfs.Annotations nameKey = none →
      (Reconcile check nameKey namespaceKey r req).client = r) := by
  rw [Reconcile_client check nameKey namespaceKey r req hfs hget]
  have hstored := getSettings_ok r req hfs hget
  refine ⟨fun name hname => ⟨fun hok => ?_, fun hfail => ?_⟩, fun hnone => ?_⟩
  · simp only [restoreFirmwareSchema, hnoref, hname, Client.update, hok, hstored]
    exact ⟨_, lookup_map_replace r.settings req _ hfs hstored, rfl, rfl, rfl, rfl⟩
  · obtain ⟨m, hm⟩ := Option.ne_none_iff_exists'.mp hfail
    simp [restoreFirmwareSchema, hnoref, hname, Client.update, hm]
  · simp [restoreFirmwareSchema, hnoref, hnone]

/-- Witness of C29 (amended): the test `TestReconcilerAfterPivot`, in which the update
succeeds. -/
theorem Reconcile_pivot_witness :
    ∃ stored, (Reconcile (CheckSettingIsValid false) "name" "namespace"
        { settings := [(testKey, pivotSettings)] } testKey).client.settings.lookup testKey =
          some stored ∧
      stored.Status.FirmwareSchema =
        some { Name := "schema-6579d6c1", Namespace := "myHostNamespace" } :=
  match ((Reconcile_pivot (CheckSettingIsValid false) "name" "namespace"
      { settings := [(testKey, pivotSettings)] } testKey pivotSettings (by decide)
      (by decide)).1 "schema-6579d6c1" (by decide)).1 rfl with
  | ⟨stored, h1, h2, _⟩ => ⟨stored, h1, h2⟩

theorem validateAndFinish_log
    (check : FirmwareSchema → String → IntOrString → GoMap SettingSchema → Bool)
    (r : Client) (hfs : HostFirmwareSettings) (schema : Option FirmwareSchema)
    (log : List String)
    (hinvalid : ValidateHostFirmwareSettings check (some hfs) schema ≠ none) :
    "hostFirmwareSetting validation failed" ∈ (validateAndFinish check r hfs schema log).log := by
  unfold validateAndFinish
  cases hv : ValidateHostFirmwareSettings check (some hfs) schema with
  | none => exact absurd hv hinvalid
  | some e => simp

/-- C30: a validation failure never causes a retry. When the settings resource is loaded,
the schema it refers to is loaded (or no schema is referred to) and validation returns an
error, the pass returns the empty result and a nil error; the failure is written to the
log when the observed settings are not nil, the case in which validation is reached. -/
theorem Reconcile_validation_failure
    (check : FirmwareSchema → String → IntOrString → GoMap SettingSchema → Bool)
    (nameKey namespaceKey : String) (r : Client) (req : NamespacedName)
    (hfs : HostFirmwareSettings) (schema : Option FirmwareSchema)
    (hget : r.getSettings req = .ok hfs)
    (hschema : match (restoreFirmwareSchema nameKey namespaceKey r req hfs
          ["start"]).1.Status.FirmwareSchema with
      | none => schema = none
      | some ref => ∃ loaded, schema = some loaded ∧
          (restoreFirmwareSchema nameKey namespaceKey r req hfs
            ["start"]).2.1.getSchema { Namespace := ref.Namespace, Name := ref.Name } = .ok loaded)
    (hinvalid : ValidateHostFirmwareSettings check
      (some (restoreFirmwareSchema nameKey namespaceKey r req hfs ["start"]).1)
      schema ≠ none) :
    (Reconcile check nameKey namespaceKey r req).result = {} ∧
    (Reconcile check nameKey namespaceKey r req).err = none ∧
    ((restoreFirmwareSchema nameKey namespaceKey r req hfs
        ["start"]).1.Status.Settings ≠ none →
      "hostFirmwareSetting validation failed" ∈
        (Reconcile check nameKey namespaceKey r req).log) := by
  refine ⟨Reconcile_result check nameKey namespaceKey r req, ?_⟩
  unfold Reconcile
  simp only [hget]
  rcases hr : restoreFirmwareSchema nameKey namespaceKey r req hfs ["start"] with
    ⟨hfs2, r2, log2⟩
  rw [hr] at hschema hinvalid
  simp only at hschema hinvalid ⊢
  split_ifs with hsettings
  · exact ⟨rfl, fun h => absurd hsettings h⟩
  · cases hs : hfs2.Status.FirmwareSchema with
    | none =>
      rw [hs] at hschema
      simp only at hschema
      subst hschema
      exact ⟨(validateAndFinish_client check r2 hfs2 none log2).2.2,
        fun _ => validateAndFinish_log check r2 hfs2 none log2 hinvalid⟩
    | some ref =>
      rw [hs] at hschema
      obtain ⟨loaded, hsome, hload⟩ := hschema
      subst hsome
      simp only [hload]
      exact ⟨(validateAndFinish_client check r2 hfs2 (some loaded) log2).2.2,
        fun _ => validateAndFinish_log check r2 hfs2 (some loaded) log2 hinvalid⟩

/-- Witness of C30: the stored resource of the test "invalid enum" with its schema. -/
theorem Reconcile_validation_failure_witness :
    (Reconcile (CheckSettingIsValid false) "name" "namespace"
      { settings := [(testKey,
          { Spec := { Settings := some [("ProcVirtualization", .str "Not enabled")] },
            Status := { testStatus with
              FirmwareSchema := some ⟨"schema-6579d6c1", "myHostNamespace"⟩ } })],
        schemas := [(⟨"myHostNamespace", "schema-6579d6c1"⟩, testSchema)] } testKey).result = {} ∧
    (Reconcile (CheckSettingIsValid false) "name" "namespace"
      { settings := [(testKey,
          { Spec := { Settings := some [("ProcVirtualization", .str "Not enabled")] },
            Status := { testStatus with
              FirmwareSchema := some ⟨"schema-6579d6c1", "myHostNamespace"⟩ } })],
        schemas := [(⟨"myHostNamespace", "schema-6579d6c1"⟩, testSchema)] } testKey).err = none :=
  (fun h => ⟨h.1, h.2.1⟩) <| Reconcile_validation_failure (CheckSettingIsValid false) "name" "namespace"
    { settings := [(testKey,
        { Spec := { Settings := some [("ProcVirtualization", .str "Not enabled")] },
          Status := { testStatus with
            FirmwareSchema := some ⟨"schema-6579d6c1", "myHostNamespace"⟩ } })],
      schemas := [(⟨"myHostNamespace", "schema-6579d6c1"⟩, testSchema)] } testKey
    { Spec := { Settings := some [("ProcVirtualization", .str "Not enabled")] },
      Status := { testStatus with
        FirmwareSchema := some ⟨"schema-6579d6c1", "myHostNamespace"⟩ } }
    (some testSchema) (by decide) ⟨testSchema, rfl, by decide⟩ (by decide)

end Controllers

namespace BMC

/-! ## The factory registry -/

theorem registry_lookup_filter_ne {V : Type} (m : List (String × V)) (k n : String) (h : n ≠ k) :
    (m.filter (fun e => e.1 ≠ k)).lookup n = m.lookup n := by
  induction m with
  | nil => rfl
  | cons e m ih =>
    obtain ⟨a, b⟩ := e
    by_cases hak : a = k
    · subst hak
      have hna : (n == a) = false := by simpa using h
      have hd : decide (a ≠ a) = false := by simp
      rw [List.filter_cons]
      simp only [hd, Bool.false_eq_true, if_false, List.lookup_cons, hna]
      exact ih
    · have : decide (a ≠ k) = true := by simpa using hak
      simp only [List.filter_cons, this, if_true, List.lookup_cons, ih]

theorem Registry.lookup_after_set {A F : Type} (factories : Registry A F) (k n : String)
    (factory : AccessDetailsFactory A F) :
    (Registry.set factories k factory).lookup n =
      if n = k then some factory else factories.lookup n := by
  unfold Registry.set
  by_cases h : n = k
  · subst h; simp [List.lookup_cons]
  · have hb : (n == k) = false := by simpa using h
    simp only [List.lookup_cons, hb, h, if_false]
    exact registry_lookup_filter_ne factories k n h

/-- The loop of `RegisterFactory`: a key of the form `name+scheme` is mapped to the
factory, every other key keeps its mapping. -/
theorem registerLoop_lookup {A F : Type} (name : String) (factory : AccessDetailsFactory A F)
    (schemes : List String) :
    ∀ (factories : Registry A F) (k : String),
      ((∃ s ∈ schemes, k = name ++ "+" ++ s) →
        (schemes.foldl (fun factories scheme =>
          Registry.set factories (name ++ "+" ++ scheme) factory) factories).lookup k =
            some factory) ∧
      ((∀ s ∈ schemes, k ≠ name ++ "+" ++ s) →
        (schemes.foldl (fun factories scheme =>
          Registry.set factories (name ++ "+" ++ scheme) factory) factories).lookup k =
            factories.lookup k) := by
  induction schemes with
  | nil =>
    intro factories k
    exact ⟨fun ⟨s, hs, _⟩ => absurd hs (List.not_mem_nil s), fun _ => rfl⟩
  | cons s0 rest ih =>
    intro factories k
    simp only [List.foldl_cons]
    constructor
    · rintro ⟨s, hs, hk⟩
      by_cases hrest : ∃ s ∈ rest, k = name ++ "+" ++ s
      · exact (ih _ k).1 hrest
      · have hnot : ∀ s ∈ rest, k ≠ name ++ "+" ++ s := fun s hs hk => hrest ⟨s, hs, hk⟩
        rw [(ih _ k).2 hnot, Registry.lookup_after_set]
        rcases List.mem_cons.mp hs with h | h
        · rw [if_pos (by rw [hk, h])]
        · exact absurd hk (hnot s h)
    · intro hall
      rw [(ih _ k).2 (fun s hs => hall s (List.mem_cons_of_mem _ hs)), Registry.lookup_after_set,
        if_neg (hall s0 (List.mem_cons_self _ _))]

/-- C25: after a registration the registry maps the name and every key name+scheme to
the factory, replacing earlier registrations of those keys, and maps every other key as
before; with an empty scheme list only the name is registered. -/
theorem RegisterFactory_lookup {A F : Type} (factories : Registry A F) (name : String)
    (factory : AccessDetailsFactory A F) (schemes : List String) :
    (RegisterFactory factories name factory schemes).lookup name = some factory ∧
    (∀ s ∈ schemes,
      (RegisterFactory factories name factory schemes).lookup (name ++ "+" ++ s) =
        some factory) ∧
    (∀ k, k ≠ name → (∀ s ∈ schemes, k ≠ name ++ "+" ++ s) →
      (RegisterFactory factories name factory schemes).lookup k = factories.lookup k) ∧
    (∀ k, k ≠ name → (RegisterFactory factories name factory []).lookup k = factories.lookup k) := by
  unfold RegisterFactory
  refine ⟨?_, ?_, ?_, ?_⟩
  · by_cases h : ∃ s ∈ schemes, name = name ++ "+" ++ s
    · exact (registerLoop_lookup name factory schemes _ name).1 h
    · rw [(registerLoop_lookup name factory schemes _ name).2
        (fun s hs hk => h ⟨s, hs, hk⟩), Registry.lookup_after_set, if_pos rfl]
  · intro s hs
    exact (registerLoop_lookup name factory schemes _ _).1 ⟨s, hs, rfl⟩
  · intro k hk hall
    rw [(registerLoop_lookup name factory schemes _ k).2 hall, Registry.lookup_after_set, if_neg hk]
  · intro k hk
    simp only [List.foldl_nil]
    rw [Registry.lookup_after_set, if_neg hk]

/-! ## `NewAccessDetails` -/

/-- C23: the empty address is rejected at once: whatever the parser, the registry and the
verification flag are, the call returns the error "missing BMC address" and no
descriptor, so none of them is consulted. -/
theorem NewAccessDetails_empty {A E E2 F : Type} (Parse : String → Except E URL)
    (splitHostPort : String → Except E2 (String × String)) (factories : Registry A F)
    (disableCertificateVerification : Bool) :
    NewAccessDetails Parse splitHostPort factories "" disableCertificateVerification =
      (none, some .missingAddress) := by
  simp [NewAccessDetails]

/-- C24: scheme dispatch. For a non-empty address that `getParsedURL` parses to a URL,
the call returns the result of the factory registered under the scheme of the URL,
applied to the URL and the verification flag; when no factory is registered under the
scheme it returns the `UnknownBMCTypeError` with the address and the scheme. -/
theorem NewAccessDetails_dispatch {A E E2 F : Type} (Parse : String → Except E URL)
    (splitHostPort : String → Except E2 (String × String)) (factories : Registry A F)
    (address : String) (disableCertificateVerification : Bool) (u : URL)
    (hne : address ≠ "") (hparse : getParsedURL Parse splitHostPort address = .ok u) :
    (∀ factory, factories.lookup u.Scheme = some factory →
      NewAccessDetails Parse splitHostPort factories address disableCertificateVerification =
        ((factory u disableCertificateVerification).1,
          (factory u disableCertificateVerification).2.map .factory)) ∧
    (factories.lookup u.Scheme = none →
      NewAccessDetails Parse splitHostPort factories address disableCertificateVerification =
        (none, some (.UnknownBMCTypeError address u.Scheme))) := by
  constructor
  · intro factory hf
    simp [NewAccessDetails, hne, hparse, hf]
  · intro hf
    simp [NewAccessDetails, hne, hparse, hf]

/-- Witness of C24: a redfish address over https, dispatched to the redfish factory. -/
theorem NewAccessDetails_dispatch_witness :
    NewAccessDetails urlParse SplitHostPort sampleRegistry
        "redfish+https://192.0.2.5/redfish/v1/Systems/1" true =
      (some ("redfish", "192.0.2.5"), none) :=
  (NewAccessDetails_dispatch urlParse SplitHostPort sampleRegistry
    "redfish+https://192.0.2.5/redfish/v1/Systems/1" true
    { Scheme := "redfish+https", Host := "192.0.2.5", Path := "/redfish/v1/Systems/1" }
    (by decide) (by decide)).1 (sampleFactory "redfish") rfl

/-! ## `getParsedURL` -/

theorem parseAuthorityAndPath_keeps (url u : URL) (rest : List Char)
    (h : parseAuthorityAndPath url rest = .ok u) :
    u.Scheme = url.Scheme ∧ u.Opaque = url.Opaque := by
  unfold parseAuthorityAndPath at h
  split_ifs at h
  · split at h
    · cases h
    · split at h
      · cases h
      · cases h; exact ⟨rfl, rfl⟩
  · split at h
    · cases h
    · cases h; exact ⟨rfl, rfl⟩

/-- The parser of the library sets `Opaque` only together with a scheme. -/
theorem parse_opaque_scheme (rawURL : List Char) (u : URL) (h : parse rawURL = .ok u)
    (hscheme : u.Scheme = "") : u.Opaque = "" := by
  unfold parse at h
  split_ifs at h with h1 h2
  · cases h; rfl
  · split at h
    · cases h
    · rename_i scheme rest hs
      simp only at h
      split_ifs at h with h3 h4 h5 h6 h7 h8
      all_goals first
        | (cases h; simp_all)
        | (have hk := parseAuthorityAndPath_keeps _ _ _ h
           simp_all)

theorem urlParse_opaque_scheme (address : String) (u : URL) (h : urlParse address = .ok u)
    (hscheme : u.Scheme = "") : u.Opaque = "" := by
  unfold urlParse at h
  split at h
  · cases h
  · rename_i url hp
    split_ifs at h
    · cases h; exact parse_opaque_scheme _ _ hp hscheme
    · split at h
      · cases h
      · cases h; exact parse_opaque_scheme _ url hp hscheme

/-- C26: a bare host resolves to the ipmi scheme. Every address that strict parsing
accepts with an empty scheme and an empty hostname (and, as the library parser always
does without a scheme, no opaque part) is parsed again as "ipmi://" followed by the
address; so the address "192.0.2.1" gets the scheme "ipmi" and the host "192.0.2.1". -/
theorem getParsedURL_bare_host {E E2 : Type} (Parse : String → Except E URL)
    (splitHostPort : String → Except E2 (String × String)) (address : String) (u : URL)
    (hparse : Parse address = .ok u) (hplain : u.Opaque = "") (hscheme : u.Scheme = "")
    (hhost : u.Hostname = "") :
    getParsedURL Parse splitHostPort address =
      (match Parse ("ipmi://" ++ address) with
        | .error err => .error ⟨"failed to parse BMC address information", err⟩
        | .ok reparsed => .ok reparsed) ∧
    getParsedURL urlParse SplitHostPort "192.0.2.1" =
      .ok { Scheme := "ipmi", Host := "192.0.2.1" } ∧
    (∀ (address2 : String) (u2 : URL), urlParse address2 = .ok u2 → u2.Scheme = "" →
      u2.Opaque = "") := by
  refine ⟨?_, by decide, urlParse_opaque_scheme⟩
  simp only [getParsedURL, hparse, hplain, ne_eq, not_true_eq_false, if_false, hscheme,
    hhost, if_true]

/-- Witness of C26: a bare host name. -/
theorem getParsedURL_bare_host_witness :
    getParsedURL urlParse SplitHostPort "my.favoritebmc.com" =
      .ok { Scheme := "ipmi", Host := "my.favoritebmc.com" } :=
  ((getParsedURL_bare_host urlParse SplitHostPort "my.favoritebmc.com"
    { Path := "my.favoritebmc.com" } (by decide) rfl rfl (by decide)).1).trans (by decide)

/-- C27 fails as stated: the address "%zz" has no colon; strict parsing rejects it and
so does the host:port split, yet the descriptor with scheme "ipmi" is fabricated. -/
theorem getParsedURL_fabricates_without_split :
    urlParse "%zz" = .error "invalid URL escape" ∧
    SplitHostPort "%zz" = .error "missing port in address" ∧
    getParsedURL urlParse SplitHostPort "%zz" = .ok { Scheme := "ipmi", Host := "%zz" } := by
  decide

/-- C27 (amended): for an address on which strict parsing fails, the descriptor with
scheme "ipmi" and the address as host is fabricated when the address contains no colon
or its host:port split succeeds; when the address contains a colon and the split fails,
the error wrapping the original parse error is returned, and no descriptor. -/
theorem getParsedURL_parse_failure {E E2 : Type} (Parse : String → Except E URL)
    (splitHostPort : String → Except E2 (String × String)) (address : String) (err : E)
    (hfail : Parse address = .error err) :
    ((Controllers.stringsContains address ":" = false ∨
        ∃ hostport, splitHostPort address = .ok hostport) →
      getParsedURL Parse splitHostPort address = .ok { Scheme := "ipmi", Host := address }) ∧
    (Controllers.stringsContains address ":" = true →
      (∃ err2, splitHostPort address = .error err2) →
      getParsedURL Parse splitHostPort address =
        .error ⟨"failed to parse BMC address information", err⟩) := by
  constructor
  · rintro (h | ⟨hp, h⟩)
    · simp [getParsedURL, hfail, h]
    · cases hc : Controllers.stringsContains address ":" <;> simp [getParsedURL, hfail, hc, h]
  · rintro hc ⟨err2, h⟩
    simp [getParsedURL, hfail, hc, h]

/-- Witness of C27 (amended): a host with a port, and an IPv6 address without brackets. -/
theorem getParsedURL_parse_failure_witness :
    getParsedURL urlParse SplitHostPort "192.168.122.1:6233" =
      .ok { Scheme := "ipmi", Host := "192.168.122.1:6233" } ∧
    getParsedURL urlParse SplitHostPort "2001:db8::1" =
      .error ⟨"failed to parse BMC address information",
        "first path segment in URL cannot contain colon"⟩ :=
  ⟨(getParsedURL_parse_failure urlParse SplitHostPort "192.168.122.1:6233"
      "first path segment in URL cannot contain colon" (by decide)).1
      (Or.inr ⟨("192.168.122.1", "6233"), by decide⟩),
    (getParsedURL_parse_failure urlParse SplitHostPort "2001:db8::1"
      "first path segment in URL cannot contain colon" (by decide)).2 (by decide)
      ⟨"too many colons in address", by decide⟩⟩

/-- C28 fails as stated: the address "//192.0.2.1" carries no scheme, and it is resolved
to a URL with the host "192.0.2.1" and an empty scheme. -/
theorem getParsedURL_empty_scheme :
    getParsedURL urlParse SplitHostPort "//192.0.2.1" = .ok { Host := "192.0.2.1" } ∧
    ({ Host := "192.0.2.1" } : URL).Scheme = "" := by
  decide

/-- C28 (amended): absence of a scheme defaults to ipmi when the address has no
authority part. A successful result has the scheme "ipmi" when strict parsing fails and
when strict parsing gives an empty scheme and an empty hostname, for a parser that keeps
the scheme of "ipmi://" followed by the address. The function succeeds with a URL of
empty scheme exactly when that URL has a non-empty hostname and is what strict parsing
returned for the address (or for the address with its first colon replaced, after an
opaque parse); it is passed on unchanged. -/
theorem getParsedURL_scheme {E E2 : Type} (Parse : String → Except E URL)
    (splitHostPort : String → Except E2 (String × String)) (address : String) (result : URL)
    (hipmi : ∀ u, Parse ("ipmi://" ++ address) = .ok u → u.Scheme = "ipmi") :
    (getParsedURL Parse splitHostPort address = .ok result →
      (∃ err, Parse address = .error err) → result = { Scheme := "ipmi", Host := address }) ∧
    (getParsedURL Parse splitHostPort address = .ok result →
      ∀ u, Parse address = .ok u → u.Opaque = "" → u.Scheme = "" → u.Hostname = "" →
        result.Scheme = "ipmi") ∧
    ((getParsedURL Parse splitHostPort address = .ok result ∧ result.Scheme = "") ↔
      (result.Scheme = "" ∧ result.Hostname ≠ "" ∧
        ((Parse address = .ok result ∧ result.Opaque = "") ∨
          ∃ u, Parse address = .ok u ∧ u.Opaque ≠ "" ∧
            Parse (String.mk (replaceFirst [':'] [':', '/', '/'] address.toList)) =
              .ok result))) := by
  have hne : ("ipmi" : String) ≠ "" := by decide
  refine ⟨?_, ?_, ⟨?_, ?_⟩⟩
  · rintro hres ⟨err, hfail⟩
    unfold getParsedURL at hres
    simp only [hfail] at hres
    split_ifs at hres
    · split at hres
      · cases hres
      · cases hres; rfl
    · cases hres; rfl
  · intro hres u hparse hplain hscheme hhost
    simp only [getParsedURL, hparse, hplain, ne_eq, not_true_eq_false, if_false, hscheme,
      hhost, if_true] at hres
    split at hres
    · cases hres
    · rename_i reparsed hre
      cases hres
      exact hipmi _ hre
  · rintro ⟨hres, hempty⟩
    refine ⟨hempty, ?_⟩
    unfold getParsedURL at hres
    cases hparse : Parse address with
    | error err =>
      simp only [hparse] at hres
      split_ifs at hres
      · split at hres
        · cases hres
        · cases hres; exact absurd hempty hne
      · cases hres; exact absurd hempty hne
    | ok u =>
      simp only [hparse] at hres
      by_cases hop : u.Opaque = ""
      · simp only [hop, ne_eq, not_true_eq_false, if_false] at hres
        split_ifs at hres with h1 h2
        · split at hres
          · cases hres
          · rename_i reparsed hre
            cases hres
            exact absurd ((hipmi _ hre).symm.trans hempty) hne
        · cases hres; exact ⟨h2, Or.inl ⟨rfl, hop⟩⟩
        · cases hres; exact absurd hempty h1
      · simp only [hop, ne_eq, not_false_eq_true, if_true] at hres
        cases hre : Parse (String.mk (replaceFirst [':'] [':', '/', '/'] address.toList)) with
        | error e => simp only [hre] at hres; cases hres
        | ok v =>
          simp only [hre] at hres
          split_ifs at hres with h1 h2
          · split at hres
            · cases hres
            · rename_i reparsed hre2
              cases hres
              exact absurd ((hipmi _ hre2).symm.trans hempty) hne
          · cases hres; exact ⟨h2, Or.inr ⟨u, rfl, hop, rfl⟩⟩
          · cases hres; exact absurd hempty h1
  · rintro ⟨hempty, hhost, ⟨hparse, hplain⟩ | ⟨u, hparse, hop, hre⟩⟩
    · refine ⟨?_, hempty⟩
      simp only [getParsedURL, hparse, hplain, ne_eq, not_true_eq_false, if_false, hempty,
        if_true, hhost]
    · refine ⟨?_, hempty⟩
      simp only [getParsedURL, hparse, hop, ne_eq, not_false_eq_true, if_true, hre, hempty,
        hhost, if_false]

/-- Witness of C28 (amended): the address "//192.0.2.1", which strict parsing reads as a
host without a scheme and which is passed on with its empty scheme, and the bare address
"192.0.2.1", which strict parsing reads as a path and which gets the scheme "ipmi". -/
theorem getParsedURL_scheme_witness :
    (getParsedURL urlParse SplitHostPort "//192.0.2.1" = .ok { Host := "192.0.2.1" } ∧
      ({ Host := "192.0.2.1" } : URL).Scheme = "") ∧
    ({ Scheme := "ipmi", Host := "192.0.2.1" } : URL).Scheme = "ipmi" :=
  ⟨(getParsedURL_scheme urlParse SplitHostPort "//192.0.2.1" { Host := "192.0.2.1" }
      (by
        intro u hu
        have h : (match urlParse ("ipmi://" ++ "//192.0.2.1") with
            | .ok v => decide (v.Scheme = "ipmi")
            | .error _ => true) = true := by decide
        rw [hu] at h
        simpa using h)).2.2.mpr
      ⟨rfl, by decide, Or.inl ⟨by decide, rfl⟩⟩,
    (getParsedURL_scheme urlParse SplitHostPort "192.0.2.1"
      { Scheme := "ipmi", Host := "192.0.2.1" }
      (by
        intro u hu
        have h : (match urlParse ("ipmi://" ++ "192.0.2.1") with
            | .ok v => decide (v.Scheme = "ipmi")
            | .error _ => true) = true := by decide
        rw [hu] at h
        simpa using h)).2.1 (by decide) { Path := "192.0.2.1" } (by decide) rfl rfl
      (by decide)⟩

end BMC

namespace Ironic

/-! ## Plans and builds side by side -/

theorem Slice.toList_append_none {α : Type} (xs : List α) :
    Slice.toList (Slice.append none xs) = xs := by
  cases xs <;> rfl

theorem Slice.len_append_none {α : Type} (xs : List α) :
    Slice.len (Slice.append none xs) = xs.length := by
  cases xs <;> rfl

theorem stripSoftware_eq_of_hardware {H : Type} (t e : RAIDConfig H)
    (h : t.HardwareRAIDVolumes = e.HardwareRAIDVolumes) :
    stripSoftware (some t) = stripSoftware (some e) := by
  simp [stripSoftware, h]

/-- C33 fails as stated: with a hardware interface, an absent target against an applied
spec without volumes, and a nil hardware list against an empty one, both plan
raid/delete_configuration although neither side describes a hardware volume. -/
theorem BuildRAIDCleanSteps_absent_vs_empty :
    (BuildRAIDCleanSteps hardwareInterface (none : Option (RAIDConfig Unit))
        (some ⟨none, none⟩)).cleanSteps = some [⟨"raid", "delete_configuration"⟩] ∧
    (BuildRAIDCleanSteps hardwareInterface (some (⟨none, none⟩ : RAIDConfig Unit))
        (some ⟨some [], none⟩)).cleanSteps = some [⟨"raid", "delete_configuration"⟩] := by
  decide

/-- C33 (amended): for every interface other than "no-raid" and "agent", when the target
and the applied spec are both absent, or both present with equal hardware volume lists
(a nil list being equal only to a nil list), the planner produces no clean steps. -/
theorem BuildRAIDCleanSteps_same_hardware {H : Type} [DecidableEq H]
    (raidInterface : String) (target existed : Option (RAIDConfig H))
    (hno : raidInterface ≠ "no-raid") (hag : raidInterface ≠ "agent")
    (hsame : (target = none ∧ existed = none) ∨
      ∃ t e, target = some t ∧ existed = some e ∧
        t.HardwareRAIDVolumes = e.HardwareRAIDVolumes) :
    (BuildRAIDCleanSteps raidInterface target existed).cleanSteps = none := by
  have heq : stripSoftware target = stripSoftware existed := by
    rcases hsame with ⟨rfl, rfl⟩ | ⟨t, e, rfl, rfl, h⟩
    · rfl
    · exact stripSoftware_eq_of_hardware t e h
  cases hcheck : checkRAIDConfigure raidInterface target with
  | some err => simp [BuildRAIDCleanSteps, hcheck]
  | none => simp [BuildRAIDCleanSteps, hcheck, hno, hag, heq]

/-- Witness of C33 (amended): the same two named volumes on both sides, the software
lists differing. -/
theorem BuildRAIDCleanSteps_same_hardware_witness :
    (BuildRAIDCleanSteps hardwareInterface
        (some ⟨some [hwVolume "1" "a", hwVolume "5" "b"], some [swVolume "1"]⟩)
        (some ⟨some [hwVolume "1" "a", hwVolume "5" "b"], none⟩)).cleanSteps = none :=
  BuildRAIDCleanSteps_same_hardware hardwareInterface
    (some ⟨some [hwVolume "1" "a", hwVolume "5" "b"], some [swVolume "1"]⟩)
    (some ⟨some [hwVolume "1" "a", hwVolume "5" "b"], none⟩) (by decide) (by decide)
    (Or.inr ⟨_, _, rfl, rfl, rfl⟩)

theorem hardwareLogicalDisk_Controller (volume : HardwareRAIDVolume) :
    (hardwareLogicalDisk volume).Controller = "" := by
  unfold hardwareLogicalDisk
  rcases volume.Rotational with _ | _ | _ <;> rcases volume.NumberOfPhysicalDisks with _ | _ <;> rfl

/-- C34: hardware volumes take precedence. For a spec with a non-empty hardware volume list
the build is the hardware build of that list, it is the same for every software volume
list, it never returns the first-level error of the software builder, and every returned
disk has an empty controller. -/
theorem BuildTargetRAIDCfg_hardware_precedence {H : Type} (MakeHintMap : H → HintMap)
    (raid : RAIDConfig H) (hhw : Slice.len raid.HardwareRAIDVolumes ≠ 0) :
    BuildTargetRAIDCfg MakeHintMap (some raid) =
      buildTargetHardwareRAIDCfg raid.HardwareRAIDVolumes ∧
    (∀ software : Slice (SoftwareRAIDVolume H),
      BuildTargetRAIDCfg MakeHintMap (some { raid with SoftwareRAIDVolumes := software }) =
        BuildTargetRAIDCfg MakeHintMap (some raid)) ∧
    (BuildTargetRAIDCfg MakeHintMap (some raid)).2 ≠ some .firstLevelNotRAID1 ∧
    ∀ d ∈ Slice.toList (BuildTargetRAIDCfg MakeHintMap (some raid)).1, d.Controller = "" := by
  have hbuild : ∀ software : Slice (SoftwareRAIDVolume H),
      BuildTargetRAIDCfg MakeHintMap (some { raid with SoftwareRAIDVolumes := software }) =
        buildTargetHardwareRAIDCfg raid.HardwareRAIDVolumes := by
    intro software
    dsimp only [BuildTargetRAIDCfg]
    rw [if_pos hhw]
  have hself : BuildTargetRAIDCfg MakeHintMap (some raid) =
      buildTargetHardwareRAIDCfg raid.HardwareRAIDVolumes := hbuild raid.SoftwareRAIDVolumes
  refine ⟨hself, fun software => (hbuild software).trans hself.symm, ?_, ?_⟩
  · rw [hself]
    rcases buildTargetHardwareRAIDCfg_spec raid.HardwareRAIDVolumes with
      ⟨hres, _⟩ | ⟨n, j, i, hres, _⟩
    · rw [hres]; simp
    · rw [hres]; simp
  · rw [hself]
    rcases buildTargetHardwareRAIDCfg_spec raid.HardwareRAIDVolumes with
      ⟨hres, _⟩ | ⟨n, j, i, hres, _⟩
    · rw [hres]
      intro d hd
      rw [Slice.toList_append_none] at hd
      obtain ⟨w, _, rfl⟩ := List.mem_map.mp hd
      exact hardwareLogicalDisk_Controller w
    · rw [hres]; simp [Slice.toList]

/-- Witness of C34: one hardware volume next to a software list that starts with RAID-5. -/
theorem BuildTargetRAIDCfg_hardware_precedence_witness :
    BuildTargetRAIDCfg noHints (some ⟨some [hwVolume "5" "data"], some [swVolume "5"]⟩) =
      buildTargetHardwareRAIDCfg (some [hwVolume "5" "data"]) ∧
    (BuildTargetRAIDCfg noHints
      (some ⟨some [hwVolume "5" "data"], some [swVolume "5"]⟩)).2 ≠ some .firstLevelNotRAID1 :=
  ⟨(BuildTargetRAIDCfg_hardware_precedence noHints
      ⟨some [hwVolume "5" "data"], some [swVolume "5"]⟩ (by decide)).1,
    (BuildTargetRAIDCfg_hardware_precedence noHints
      ⟨some [hwVolume "5" "data"], some [swVolume "5"]⟩ (by decide)).2.2.1⟩

/-- The plans of `BuildRAIDCleanSteps`: none, the two agent plans, the two hardware plans.
A plan with raid/create_configuration comes with a target that passed the check and has
the volumes of the interface. -/
theorem BuildRAIDCleanSteps_shapes {H : Type} [DecidableEq H]
    (raidInterface : String) (target existed : Option (RAIDConfig H)) :
    (BuildRAIDCleanSteps raidInterface target existed).cleanSteps = none ∨
    (BuildRAIDCleanSteps raidInterface target existed).cleanSteps =
      some [⟨"raid", "delete_configuration"⟩, ⟨"deploy", "erase_devices_metadata"⟩] ∨
    (BuildRAIDCleanSteps raidInterface target existed).cleanSteps =
      some [⟨"raid", "delete_configuration"⟩] ∨
    ((BuildRAIDCleanSteps raidInterface target existed).cleanSteps =
        some [⟨"raid", "delete_configuration"⟩, ⟨"deploy", "erase_devices_metadata"⟩,
          ⟨"raid", "create_configuration"⟩] ∧
      ∃ t, target = some t ∧
        (BuildRAIDCleanSteps raidInterface target existed).target = some t ∧
        Slice.len t.SoftwareRAIDVolumes ≠ 0) ∨
    ((BuildRAIDCleanSteps raidInterface target existed).cleanSteps =
        some [⟨"raid", "delete_configuration"⟩, ⟨"raid", "create_configuration"⟩] ∧
      ∃ t, target = some t ∧
        (BuildRAIDCleanSteps raidInterface target existed).target =
          some { t with SoftwareRAIDVolumes := none } ∧
        Slice.len t.HardwareRAIDVolumes ≠ 0) := by
  cases hcheck : checkRAIDConfigure raidInterface target with
  | some err => left; simp [BuildRAIDCleanSteps, hcheck]
  | none =>
    by_cases hno : raidInterface = "no-raid"
    · subst hno
      left; simp [BuildRAIDCleanSteps, hcheck]
    · by_cases hag : raidInterface = "agent"
      · subst hag
        cases target with
        | none =>
          right; left
          simp [BuildRAIDCleanSteps, hcheck, Slice.append, Slice.toList]
        | some t =>
          by_cases hsw : Slice.len t.SoftwareRAIDVolumes = 0
          · right; left
            simp [BuildRAIDCleanSteps, hcheck, hsw, Slice.append, Slice.toList]
          · right; right; right; left
            simp [BuildRAIDCleanSteps, hcheck, hsw, Slice.append, Slice.toList]
      · by_cases heq : stripSoftware target = stripSoftware existed
        · left; simp [BuildRAIDCleanSteps, hcheck, hno, hag, heq]
        · cases target with
          | none =>
            right; right; left
            simp [BuildRAIDCleanSteps, hcheck, hno, hag, heq, Slice.append, Slice.toList]
            simp [stripSoftware]
          | some t =>
            by_cases hhw : Slice.len t.HardwareRAIDVolumes = 0
            · right; right; left
              simp [BuildRAIDCleanSteps, hcheck, hno, hag, heq, Slice.append, Slice.toList]
              simp [stripSoftware, hhw]
            · right; right; right; right
              simp [BuildRAIDCleanSteps, hcheck, hno, hag, heq, Slice.append, Slice.toList]
              simp [stripSoftware, hhw]

/-- A spec with a volume in one of its lists never builds to an empty list without error. -/
theorem BuildTargetRAIDCfg_nonempty {H : Type} (MakeHintMap : H → HintMap) (t : RAIDConfig H)
    (h : Slice.len t.HardwareRAIDVolumes ≠ 0 ∨ Slice.len t.SoftwareRAIDVolumes ≠ 0) :
    (BuildTargetRAIDCfg MakeHintMap (some t)).2 ≠ none ∨
      Slice.len (BuildTargetRAIDCfg MakeHintMap (some t)).1 ≠ 0 := by
  dsimp only [BuildTargetRAIDCfg]
  by_cases hhw : Slice.len t.HardwareRAIDVolumes ≠ 0
  · rw [if_pos hhw]
    rcases buildTargetHardwareRAIDCfg_spec t.HardwareRAIDVolumes with
      ⟨hres, _⟩ | ⟨n, j, i, hres, _⟩
    · right
      rw [hres]
      simp only [Slice.len_append_none, List.length_map, Slice.len_toList]
      exact hhw
    · left; rw [hres]; simp
  · rw [if_neg hhw]
    have hsw : Slice.len t.SoftwareRAIDVolumes ≠ 0 := h.resolve_left hhw
    rw [if_pos hsw]
    rcases buildTargetSoftwareRAIDCfg_spec MakeHintMap t.SoftwareRAIDVolumes with
      ⟨h0, _⟩ | ⟨_, _, _, _, hres⟩ | ⟨first, rest, _, _, hres⟩
    · exact absurd h0 hsw
    · left; rw [hres]; simp
    · right; rw [hres]; simp [Slice.len]

/-- C35: the plan and the build agree. When the planner returns no error and a plan that
holds raid/create_configuration, building the logical disks of the target, as given and
as the planner leaves it, returns an error or a non-empty list; and in every plan each
raid/create_configuration has a raid/delete_configuration at an earlier position. -/
theorem BuildRAIDCleanSteps_create_agrees {H : Type} [DecidableEq H]
    (MakeHintMap : H → HintMap) (raidInterface : String)
    (target existed : Option (RAIDConfig H)) :
    ((BuildRAIDCleanSteps raidInterface target existed).err = none →
      (⟨"raid", "create_configuration"⟩ : CleanStep) ∈
        Slice.toList (BuildRAIDCleanSteps raidInterface target existed).cleanSteps →
      ((BuildTargetRAIDCfg MakeHintMap target).2 ≠ none ∨
        Slice.len (BuildTargetRAIDCfg MakeHintMap target).1 ≠ 0) ∧
      ((BuildTargetRAIDCfg MakeHintMap
          (BuildRAIDCleanSteps raidInterface target existed).target).2 ≠ none ∨
        Slice.len (BuildTargetRAIDCfg MakeHintMap
          (BuildRAIDCleanSteps raidInterface target existed).target).1 ≠ 0)) ∧
    (∀ i : Nat,
      (Slice.toList (BuildRAIDCleanSteps raidInterface target existed).cleanSteps)[i]? =
        some ⟨"raid", "create_configuration"⟩ →
      ∃ j : Nat, j < i ∧
        (Slice.toList (BuildRAIDCleanSteps raidInterface target existed).cleanSteps)[j]? =
          some ⟨"raid", "delete_configuration"⟩) := by
  rcases BuildRAIDCleanSteps_shapes raidInterface target existed with
    h | h | h | ⟨h, t, rfl, ht, hsw⟩ | ⟨h, t, rfl, ht, hhw⟩
  · rw [h]; simp [Slice.toList]
  · rw [h]
    refine ⟨by simp [Slice.toList], ?_⟩
    intro i hi
    rcases i with _ | _ | i <;> simp [Slice.toList] at hi
  · rw [h]
    refine ⟨by simp [Slice.toList], ?_⟩
    intro i hi
    rcases i with _ | i <;> simp [Slice.toList] at hi
  · rw [h, ht]
    refine ⟨fun _ _ => ⟨?_, ?_⟩, ?_⟩
    · exact BuildTargetRAIDCfg_nonempty MakeHintMap t (Or.inr hsw)
    · exact BuildTargetRAIDCfg_nonempty MakeHintMap t (Or.inr hsw)
    · intro i hi
      rcases i with _ | i
      · simp [Slice.toList] at hi
      · exact ⟨0, Nat.succ_pos i, rfl⟩
  · rw [h, ht]
    refine ⟨fun _ _ => ⟨?_, ?_⟩, ?_⟩
    · exact BuildTargetRAIDCfg_nonempty MakeHintMap t (Or.inl hhw)
    · exact BuildTargetRAIDCfg_nonempty MakeHintMap _ (Or.inl hhw)
    · intro i hi
      rcases i with _ | i
      · simp [Slice.toList] at hi
      · exact ⟨0, Nat.succ_pos i, rfl⟩

/-! ## The disks of each builder, field by field -/

/-- The fields of the logical disk built from one hardware volume. -/
theorem hardwareLogicalDisk_fields (v : HardwareRAIDVolume) :
    (hardwareLogicalDisk v).SizeGB = v.SizeGibibytes ∧
    (hardwareLogicalDisk v).RAIDLevel = v.Level ∧
    (hardwareLogicalDisk v).VolumeName = v.Name ∧
    (v.Rotational = some true → (hardwareLogicalDisk v).DiskType = "hdd") ∧
    (v.Rotational = some false → (hardwareLogicalDisk v).DiskType = "ssd") ∧
    (v.Rotational = none → (hardwareLogicalDisk v).DiskType = "") ∧
    (∀ n, v.NumberOfPhysicalDisks = some n → (hardwareLogicalDisk v).NumberOfPhysicalDisks = n) ∧
    (v.NumberOfPhysicalDisks = none → (hardwareLogicalDisk v).NumberOfPhysicalDisks = 0) ∧
    (hardwareLogicalDisk v).IsRootVolume = none := by
  obtain ⟨size, level, name, rotational, count⟩ := v
  rcases rotational with _ | _ | _ <;> rcases count with _ | n <;>
    simp [hardwareLogicalDisk, HDD, SSD]

/-- C36: for a list of hardware volumes in which no non-empty name occurs twice, the
hardware builder returns no error and one logical disk per volume in the same order; disk
k has the size, level and name of volume k, disk type "hdd", "ssd" or none after
`Rotational`, the physical-disk count of the volume or zero, and no root-volume mark. -/
theorem buildTargetHardwareRAIDCfg_disks (volumes : Slice HardwareRAIDVolume)
    (hnames : NoRepeat (volumeNames (Slice.toList volumes))) :
    (buildTargetHardwareRAIDCfg volumes).2 = none ∧
    Slice.len (buildTargetHardwareRAIDCfg volumes).1 = Slice.len volumes ∧
    ∀ (k : Nat) (v : HardwareRAIDVolume), (Slice.toList volumes)[k]? = some v →
      ∃ d, (Slice.toList (buildTargetHardwareRAIDCfg volumes).1)[k]? = some d ∧
        d.SizeGB = v.SizeGibibytes ∧ d.RAIDLevel = v.Level ∧ d.VolumeName = v.Name ∧
        (v.Rotational = some true → d.DiskType = "hdd") ∧
        (v.Rotational = some false → d.DiskType = "ssd") ∧
        (v.Rotational = none → d.DiskType = "") ∧
        (∀ n, v.NumberOfPhysicalDisks = some n → d.NumberOfPhysicalDisks = n) ∧
        (v.NumberOfPhysicalDisks = none → d.NumberOfPhysicalDisks = 0) ∧
        d.IsRootVolume = none := by
  rcases buildTargetHardwareRAIDCfg_spec volumes with ⟨hres, _⟩ | ⟨n, j, i, _, hrep⟩
  · rw [hres]
    refine ⟨rfl, ?_, ?_⟩
    · simp only [Slice.len_append_none, List.length_map, Slice.len_toList]
    · intro k v hk
      refine ⟨hardwareLogicalDisk v, ?_, hardwareLogicalDisk_fields v⟩
      simp only [Slice.toList_append_none, List.getElem?_map, hk, Option.map_some']
  · obtain ⟨hij, hn, hj, hi, _⟩ := hrep
    exact absurd (hnames i j n hij hn hi hj) id

/-- Witness of C36: a rotational volume with two disks, an unnamed solid-state volume and
a volume that leaves both open. -/
theorem buildTargetHardwareRAIDCfg_disks_witness :
    buildTargetHardwareRAIDCfg (some [⟨some 100, "1", "root", some true, some 2⟩,
        ⟨none, "5", "", some false, none⟩, hwVolume "0" ""]) =
      (some [{ SizeGB := some 100, RAIDLevel := "1", VolumeName := "root", DiskType := "hdd",
               NumberOfPhysicalDisks := 2 },
             { RAIDLevel := "5", DiskType := "ssd" }, { RAIDLevel := "0" }], none) ∧
    (buildTargetHardwareRAIDCfg (some [⟨some 100, "1", "root", some true, some 2⟩,
        ⟨none, "5", "", some false, none⟩, hwVolume "0" ""])).2 = none :=
  ⟨by decide, (buildTargetHardwareRAIDCfg_disks (some [⟨some 100, "1", "root", some true, some 2⟩,
      ⟨none, "5", "", some false, none⟩, hwVolume "0" ""])
    (by intro i j n hij hn hi hj
        rcases j with _ | _ | _ | j
        · omega
        · simp [volumeNames, Slice.toList, hwVolume] at hj
          exact hn hj.symm
        · simp [volumeNames, Slice.toList, hwVolume] at hj
          exact hn hj.symm
        · simp [volumeNames, Slice.toList] at hj)).1⟩

/-- C37: for a non-empty list of software volumes whose first level is RAID-1, the
software builder returns no error and one logical disk per volume in the same order; disk
k has the size and level of volume k, controller "software", no volume name, no
root-volume mark, and as physical disks the hint map of each hint of volume k in order. -/
theorem buildTargetSoftwareRAIDCfg_disks {H : Type} (MakeHintMap : H → HintMap)
    (volumes : Slice (SoftwareRAIDVolume H)) (first : SoftwareRAIDVolume H)
    (rest : List (SoftwareRAIDVolume H)) (hvolumes : Slice.toList volumes = first :: rest)
    (hlevel : first.Level = RAID1) :
    ∃ disks : List LogicalDisk,
      buildTargetSoftwareRAIDCfg MakeHintMap volumes = .ok (some disks, none) ∧
      disks.length = Slice.len volumes ∧
      ∀ (k : Nat) (v : SoftwareRAIDVolume H), (Slice.toList volumes)[k]? = some v →
        ∃ d, disks[k]? = some d ∧
          d.SizeGB = v.SizeGibibytes ∧ d.RAIDLevel = v.Level ∧ d.Controller = "software" ∧
          d.VolumeName = "" ∧ d.IsRootVolume = none ∧
          Slice.toList d.PhysicalDisks = (Slice.toList v.PhysicalDisks).map MakeHintMap ∧
          Slice.len d.PhysicalDisks = Slice.len v.PhysicalDisks := by
  rcases buildTargetSoftwareRAIDCfg_spec MakeHintMap volumes with
    ⟨h0, _⟩ | ⟨f, r, hl, hne, _⟩ | ⟨f, r, hl, _, hres⟩
  · rw [← Slice.len_toList, hvolumes] at h0
    exact absurd h0 (by simp)
  · rw [hvolumes] at hl
    obtain ⟨rfl, _⟩ := List.cons.inj hl
    exact absurd hlevel hne
  · refine ⟨(f :: r).map (softwareLogicalDisk MakeHintMap), hres, ?_, ?_⟩
    · rw [List.length_map, ← hl, Slice.len_toList]
    · intro k v hk
      refine ⟨softwareLogicalDisk MakeHintMap v, ?_, rfl, rfl, rfl, rfl, rfl, ?_, ?_⟩
      · rw [← hl, List.getElem?_map, hk]; rfl
      · exact Slice.toList_append_none _
      · simp only [softwareLogicalDisk, Slice.len_append_none, List.length_map,
          Slice.len_toList]

/-- Witness of C37: a RAID-1 volume on two hinted disks followed by a RAID-0 volume. -/
theorem buildTargetSoftwareRAIDCfg_disks_witness :
    ∃ disks : List LogicalDisk,
      buildTargetSoftwareRAIDCfg (fun h : String => [("name", h)])
        (some [⟨some 50, "1", some ["/dev/sda", "/dev/sdb"]⟩, ⟨none, "0", none⟩]) =
          .ok (some disks, none) ∧
      disks = [{ SizeGB := some 50, RAIDLevel := "1", Controller := "software",
                 PhysicalDisks := some [[("name", "/dev/sda")], [("name", "/dev/sdb")]] },
               { RAIDLevel := "0", Controller := "software" }] := by
  obtain ⟨disks, hres, _, _⟩ := buildTargetSoftwareRAIDCfg_disks
    (fun h : String => [("name", h)])
    (some [⟨some 50, "1", some ["/dev/sda", "/dev/sdb"]⟩, ⟨none, "0", none⟩])
    ⟨some 50, "1", some ["/dev/sda", "/dev/sdb"]⟩ [⟨none, "0", none⟩] rfl rfl
  refine ⟨disks, hres, ?_⟩
  have hval : buildTargetSoftwareRAIDCfg (fun h : String => [("name", h)])
      (some [⟨some 50, "1", some ["/dev/sda", "/dev/sdb"]⟩, ⟨none, "0", none⟩]) =
        .ok (some [{ SizeGB := some 50, RAIDLevel := "1", Controller := "software",
                     PhysicalDisks := some [[("name", "/dev/sda")], [("name", "/dev/sdb")]] },
                   { RAIDLevel := "0", Controller := "software" }], none) := by
    decide
  rw [hval] at hres
  injection hres with hres
  injection hres with hres _
  injection hres with hres
  exact hres.symm

end Ironic

namespace Controllers

/-! ## What the digest of the schema name reads -/

theorem intercalate_go_data (s : String) (l : List String) :
    ∀ acc : String, (String.intercalate.go acc s l).data =
      acc.data ++ (l.map (fun a => s.data ++ a.data)).flatten := by
  induction l with
  | nil => intro acc; simp [String.intercalate.go]
  | cons a as ih =>
    intro acc
    simp [String.intercalate.go, ih, String.data_append, List.append_assoc]

theorem list_intercalate_cons {α : Type} (sep : List α) (xs : List (List α)) :
    ∀ x : List α, List.intercalate sep (x :: xs) = x ++ (xs.map (fun a => sep ++ a)).flatten := by
  induction xs with
  | nil => intro x; simp [List.intercalate]
  | cons y ys ih =>
    intro x
    have h := ih y
    simp only [List.intercalate] at h ⊢
    simp [List.intersperse_cons_cons, h]

/-- Joining strings is joining their character lists. -/
theorem intercalate_data (s : String) (l : List String) :
    (s.intercalate l).data = List.intercalate s.data (l.map String.data) := by
  cases l with
  | nil => simp [String.intercalate, List.intercalate]
  | cons a as =>
    rw [List.map_cons, list_intercalate_cons]
    simp [String.intercalate, intercalate_go_data, List.map_map, Function.comp_def]

/-- On keys that are not empty and hold no space the formatted list gives the keys back. -/
theorem formatKeys_injective (keys1 keys2 : List String)
    (h1 : ∀ k ∈ keys1, k ≠ "" ∧ ' ' ∉ k.toList) (h2 : ∀ k ∈ keys2, k ≠ "" ∧ ' ' ∉ k.toList)
    (h : formatKeys keys1 = formatKeys keys2) : keys1 = keys2 := by
  have hdata : List.intercalate [' '] (keys1.map String.data) =
      List.intercalate [' '] (keys2.map String.data) := by
    have h3 := congrArg String.data h
    simp only [formatKeys, String.data_append] at h3
    have h4 := List.append_cancel_left (List.append_cancel_right h3)
    rw [intercalate_data, intercalate_data] at h4
    exact h4
  have hnil : ∀ keys : List String, (∀ k ∈ keys, k ≠ "" ∧ ' ' ∉ k.toList) → keys ≠ [] →
      List.intercalate [' '] (keys.map String.data) ≠ [] := by
    intro keys hk hne
    cases keys with
    | nil => exact absurd rfl hne
    | cons a as =>
      rw [List.map_cons, list_intercalate_cons]
      intro hcontra
      have ha : a.data = [] := (List.append_eq_nil.mp hcontra).1
      exact (hk a (List.mem_cons_self _ _)).1 (String.ext ha)
  have hsplit : ∀ keys : List String, (∀ k ∈ keys, k ≠ "" ∧ ' ' ∉ k.toList) → keys ≠ [] →
      (List.intercalate [' '] (keys.map String.data)).splitOn ' ' = keys.map String.data := by
    intro keys hk hne
    apply List.splitOn_intercalate
    · intro l hl
      obtain ⟨k, hkm, rfl⟩ := List.mem_map.mp hl
      exact (hk k hkm).2
    · simpa using hne
  by_cases e1 : keys1 = []
  · by_cases e2 : keys2 = []
    · rw [e1, e2]
    · exfalso
      apply hnil keys2 h2 e2
      rw [← hdata, e1]; rfl
  · by_cases e2 : keys2 = []
    · exfalso
      apply hnil keys1 h1 e1
      rw [hdata, e2]; rfl
    · have hmap : keys1.map String.data = keys2.map String.data := by
        rw [← hsplit keys1 h1 e1, ← hsplit keys2 h2 e2, hdata]
      exact List.map_injective_iff.mpr (fun a b hab => String.ext hab) hmap

theorem mem_sortStrings (keys : List String) (k : String) : k ∈ sortStrings keys ↔ k ∈ keys :=
  (List.perm_insertionSort _ keys).mem_iff

/-- C38 fails as stated: a map with the one key "a b" and a map with the two keys "a" and
"b" have different key sets, yet both are formatted as "[a b]" and so get the same schema
name without any collision of the digest; the empty key set and the set of the empty key
are both formatted as "[]". -/
theorem GetSchemaName_space_in_key :
    (¬ ∀ k, k ∈ (GoMap.entries (some [("a b", (⟨.integer 0 9, false⟩ : SettingSchema))])).map
        Prod.fst ↔
      k ∈ (GoMap.entries (some [("a", (⟨.integer 0 9, false⟩ : SettingSchema)),
        ("b", ⟨.integer 0 9, false⟩)])).map Prod.fst) ∧
    formatKeys (sortStrings ["a b"]) = "[a b]" ∧
    formatKeys (sortStrings ["a", "b"]) = "[a b]" ∧
    GetSchemaName (some [("a b", ⟨.integer 0 9, false⟩)]) =
      GetSchemaName (some [("a", ⟨.integer 0 9, false⟩), ("b", ⟨.integer 0 9, false⟩)]) ∧
    formatKeys (sortStrings []) = formatKeys (sortStrings [""]) := by
  have hfmt : formatKeys (sortStrings ["a b"]) = formatKeys (sortStrings ["a", "b"]) := by
    decide
  refine ⟨?_, by decide, by decide, ?_, by decide⟩
  · intro h
    have hmem := (h "a").mpr (by simp [GoMap.entries])
    simp [GoMap.entries] at hmem
  · exact congrArg
      (fun s => "schema-" ++ String.mk ((hexString (sha256Sum (stringBytes s))).take 8)) hfmt

/-- C38 (amended): for two schema maps whose keys are not empty and hold no space, different
key sets give different formatted sorted key lists; the name of a map is "schema-" and
the first eight hex digits of the digest of that formatted list. -/
theorem GetSchemaName_hashed_keys (schema1 schema2 : GoMap SettingSchema)
    (h1 : ∀ k ∈ (GoMap.entries schema1).map Prod.fst, k ≠ "" ∧ ' ' ∉ k.toList)
    (h2 : ∀ k ∈ (GoMap.entries schema2).map Prod.fst, k ≠ "" ∧ ' ' ∉ k.toList)
    (hdiff : ¬ ∀ k, k ∈ (GoMap.entries schema1).map Prod.fst ↔
      k ∈ (GoMap.entries schema2).map Prod.fst) :
    formatKeys (sortStrings ((GoMap.entries schema1).map Prod.fst)) ≠
      formatKeys (sortStrings ((GoMap.entries schema2).map Prod.fst)) ∧
    GetSchemaName schema1 = "schema-" ++ String.mk ((hexString (sha256Sum (stringBytes
      (formatKeys (sortStrings ((GoMap.entries schema1).map Prod.fst)))))).take 8) ∧
    GetSchemaName schema2 = "schema-" ++ String.mk ((hexString (sha256Sum (stringBytes
      (formatKeys (sortStrings ((GoMap.entries schema2).map Prod.fst)))))).take 8) := by
  refine ⟨?_, rfl, rfl⟩
  intro hfmt
  apply hdiff
  have hsorted := formatKeys_injective _ _
    (fun k hk => h1 k ((mem_sortStrings _ k).mp hk))
    (fun k hk => h2 k ((mem_sortStrings _ k).mp hk)) hfmt
  intro k
  rw [← mem_sortStrings _ k, hsorted, mem_sortStrings]

/-- Witness of C38 (amended): the keys L2Cache and AssetTag against the key L2Cache alone. -/
theorem GetSchemaName_hashed_keys_witness :
    formatKeys (sortStrings ((GoMap.entries (some [("L2Cache",
        (⟨.integer 0 9, false⟩ : SettingSchema)), ("AssetTag", ⟨.integer 0 9, false⟩)])).map
          Prod.fst)) ≠
      formatKeys (sortStrings ((GoMap.entries (some [("L2Cache",
        (⟨.integer 0 9, false⟩ : SettingSchema))])).map Prod.fst)) :=
  (GetSchemaName_hashed_keys
    (some [("L2Cache", ⟨.integer 0 9, false⟩), ("AssetTag", ⟨.integer 0 9, false⟩)])
    (some [("L2Cache", ⟨.integer 0 9, false⟩)])
    (by decide) (by decide)
    (by
      intro h
      have hmem := (h "AssetTag").mp (by simp [GoMap.entries])
      simp [GoMap.entries] at hmem)).1

end Controllers

namespace BMC

/-! ## The binary search behind the exclusion test -/

theorem searchLoop_fuel (f : Nat → Bool) :
    ∀ (fuel1 fuel2 i j : Nat), j - i ≤ fuel1 → j - i ≤ fuel2 →
      searchLoop f fuel1 i j = searchLoop f fuel2 i j := by
  intro fuel1
  induction fuel1 with
  | zero =>
    intro fuel2 i j h1 _
    have hij : ¬ i < j := by omega
    cases fuel2 with
    | zero => rfl
    | succ fuel2 => simp [searchLoop, hij]
  | succ fuel1 ih =>
    intro fuel2 i j h1 h2
    cases fuel2 with
    | zero =>
      have hij : ¬ i < j := by omega
      simp [searchLoop, hij]
    | succ fuel2 =>
      by_cases hij : i < j
      · simp only [searchLoop, hij, if_true]
        by_cases hf : f ((i + j) / 2) = true
        · simp only [hf, Bool.not_true, Bool.false_eq_true, if_false]
          exact ih fuel2 i ((i + j) / 2) (by omega) (by omega)
        · simp only [hf, Bool.not_eq_true] at *
          simp only [hf, Bool.not_false, if_true]
          exact ih fuel2 ((i + j) / 2 + 1) j (by omega) (by omega)
      · simp [searchLoop, hij]

theorem searchLoop_spec (f : Nat → Bool) (n : Nat)
    (hmono : ∀ k l, k ≤ l → l < n → f k = true → f l = true) :
    ∀ (fuel i j : Nat), j - i ≤ fuel → i ≤ j → j ≤ n →
      (∀ k, k < i → f k = false) → (∀ k, j ≤ k → k < n → f k = true) →
      (∀ k, k < searchLoop f fuel i j → f k = false) ∧
      (∀ k, searchLoop f fuel i j ≤ k → k < n → f k = true) ∧
      searchLoop f fuel i j ≤ n := by
  intro fuel
  induction fuel with
  | zero =>
    intro i j h1 hij hjn hlo hhi
    have : i = j := by omega
    subst this
    exact ⟨hlo, hhi, hjn⟩
  | succ fuel ih =>
    intro i j h1 hij hjn hlo hhi
    by_cases hlt : i < j
    · simp only [searchLoop, hlt, if_true]
      by_cases hf : f ((i + j) / 2) = true
      · simp only [hf, Bool.not_true, Bool.false_eq_true, if_false]
        refine ih i ((i + j) / 2) (by omega) (by omega) (by omega) hlo ?_
        intro k hk hkn
        exact hmono _ k hk hkn hf
      · have hf2 : f ((i + j) / 2) = false := by simpa using hf
        simp only [hf2, Bool.not_false, if_true]
        refine ih ((i + j) / 2 + 1) j (by omega) (by omega) hjn ?_ hhi
        intro k hk
        by_contra hk2
        have hk3 : f k = true := by simpa using hk2
        have := hmono k ((i + j) / 2) (by omega) (by omega) hk3
        rw [hf2] at this
        exact Bool.false_ne_true this
    · have : i = j := by omega
      subst this
      simp only [searchLoop, hlt, if_false]
      exact ⟨hlo, hhi, hjn⟩

/-- On a list in increasing order the test `SearchStrings(a, x) != len(a)` holds exactly
when some element of the list is at least `x`. -/
theorem SearchStrings_ne_length_iff (a : List String) (x : String)
    (hsorted : a.Pairwise (fun s t => s.toList ≤ t.toList)) :
    SearchStrings a x ≠ a.length ↔ ∃ s ∈ a, x.toList ≤ s.toList := by
  have hmono : ∀ k l, k ≤ l → l < a.length →
      (match a[k]? with | some s => decide (x.toList ≤ s.toList) | none => false) = true →
      (match a[l]? with | some s => decide (x.toList ≤ s.toList) | none => false) = true := by
    intro k l hkl hl hk
    have hk2 : k < a.length := by omega
    rw [List.getElem?_eq_getElem hk2] at hk
    rw [List.getElem?_eq_getElem hl]
    simp only [decide_eq_true_eq] at hk ⊢
    rcases Nat.lt_or_eq_of_le hkl with hlt | rfl
    · exact le_trans hk (List.pairwise_iff_getElem.mp hsorted k l hk2 hl hlt)
    · exact hk
  obtain ⟨hlo, hhi, hle⟩ := searchLoop_spec _ a.length hmono a.length 0 a.length (by omega)
    (by omega) (le_refl _) (by intro k hk; omega) (by intro k hk hkn; omega)
  constructor
  · intro hne
    have hlt : SearchStrings a x < a.length := lt_of_le_of_ne hle hne
    have h := hhi _ (le_refl _) hlt
    unfold SearchStrings Search at hlt
    rw [List.getElem?_eq_getElem hlt] at h
    exact ⟨_, List.getElem_mem _, by simpa using h⟩
  · rintro ⟨s, hs, hxs⟩ heq
    obtain ⟨k, hk, rfl⟩ := List.getElem_of_mem hs
    have h := hlo k (by unfold SearchStrings Search at heq; rw [heq]; exact hk)
    rw [List.getElem?_eq_getElem hk] at h
    simp only [decide_eq_false_iff_not] at h
    exact h hxs

/-! ## Rendering and the settings loop -/

theorem toDigitsCore_ne_nil (base : Nat) :
    ∀ (fuel n : Nat) (ds : List Char), (fuel ≠ 0 ∨ ds ≠ []) →
      Nat.toDigitsCore base fuel n ds ≠ [] := by
  intro fuel
  induction fuel with
  | zero =>
    intro n ds h
    rcases h with h | h
    · exact absurd rfl h
    · simpa [Nat.toDigitsCore] using h
  | succ fuel ih =>
    intro n ds _
    simp only [Nat.toDigitsCore]
    split
    · simp
    · exact ih _ _ (Or.inr (by simp))

theorem repr_ne_empty (n : Nat) : Nat.repr n ≠ "" := by
  intro h
  have hdata := congrArg String.data h
  simp only [Nat.repr, List.asString] at hdata
  exact toDigitsCore_ne_nil 10 (n + 1) n [] (Or.inl (by omega)) hdata

theorem FormatInt_ne_empty (i : Int) : FormatInt i ≠ "" := by
  unfold FormatInt
  split
  · intro h
    have hdata := congrArg String.data h
    simp [String.data_append] at hdata
  · exact repr_ne_empty _

theorem FormatBool_ne_empty (b : Bool) : FormatBool b ≠ "" := by
  cases b <;> decide

theorem SearchStrings_nil (x : String) : SearchStrings [] x = 0 := rfl

/-- The entry the loop adds for one field, `none` when the field renders as "". -/
theorem biosLoop_no_exclude {F : Type} (FormatFloat : F → String)
    (exclude : Ironic.Slice String) (nameMap valueMap : Controllers.GoMap String)
    (hexclude : Ironic.Slice.len exclude = 0) (fields : List (String × FieldValue F)) :
    ∀ settings : Ironic.Slice (Controllers.GoMap String),
      biosLoop FormatFloat exclude nameMap valueMap fields settings =
        Ironic.Slice.append settings (fields.filterMap (fun field =>
          if renderValue FormatFloat field.2 = "" then none
          else some (settingEntry
            (if mapIndex nameMap field.1 ≠ "" then mapIndex nameMap field.1 else field.1)
            (if mapIndex valueMap (renderValue FormatFloat field.2) ≠ "" then
              mapIndex valueMap (renderValue FormatFloat field.2)
            else renderValue FormatFloat field.2)))) := by
  have hlist : Ironic.Slice.toList exclude = [] := by
    cases exclude with
    | none => rfl
    | some l => simpa [Ironic.Slice.len, Ironic.Slice.toList] using hexclude
  have hmap : ∀ (m : Controllers.GoMap String) (k : String),
      (mapLen m ≠ 0 ∧ mapIndex m k ≠ "") ↔ mapIndex m k ≠ "" := by
    intro m k
    constructor
    · exact fun h => h.2
    · intro h
      refine ⟨?_, h⟩
      intro hlen
      apply h
      cases m with
      | none => rfl
      | some l =>
        have : l = [] := by simpa [mapLen, Controllers.GoMap.entries] using hlen
        subst this
        rfl
  induction fields with
  | nil => intro settings; simp [biosLoop, Ironic.Slice.append]
  | cons field rest ih =>
    intro settings
    simp only [biosLoop, hlist, SearchStrings_nil, hexclude, ne_eq, not_true_eq_false,
      if_false]
    by_cases hvalue : renderValue FormatFloat field.2 = ""
    · simp only [hvalue, if_true, List.filterMap_cons]
      exact ih settings
    · simp only [hvalue, if_false, List.filterMap_cons]
      rw [ih, Ironic.Slice.append_append]
      congr 2
      · simp only [settingEntry]
        have h1 := hmap nameMap field.1
        have h2 := hmap valueMap (renderValue FormatFloat field.2)
        simp only [ne_eq] at h1 h2
        simp only [h1, h2, ne_eq]

/-- C39, the code at a failing input: with the exclude list ["SriovEnabled"], which is in
ascending order, the field LLCPrefetchEnabled is not in the list and renders as "true",
yet no setting is returned for it; the search index of its name is 0, not the length 1. -/
theorem buildBIOSSettings_excludes_smaller_name :
    buildBIOSSettings noFloats
        (.struct [("LLCPrefetchEnabled", .bool true), ("SriovEnabled", .bool true)])
        (some ["SriovEnabled"]) none none = (none, none) ∧
    "LLCPrefetchEnabled" ∉ ["SriovEnabled"] ∧
    renderValue noFloats (.bool true) = "true" ∧
    SearchStrings ["SriovEnabled"] "LLCPrefetchEnabled" = 0 ∧
    buildBIOSSettings noFloats
        (.struct [("LLCPrefetchEnabled", .bool true), ("SriovEnabled", .bool true)])
        none none none =
      (some [settingEntry "LLCPrefetchEnabled" "true", settingEntry "SriovEnabled" "true"],
        none) := by
  refine ⟨by decide, by decide, rfl, by decide, by decide⟩

/-- C40: with an empty exclude list the builder returns no error and, in field order,
one entry for each field whose rendered value is not empty, a map that holds the name
under "name" and the value under "value". A string renders as itself, a boolean as
"true" or "false", an integer in decimal, so that only an empty rendering is skipped; the
name is the `nameMap` entry of the field name when that entry is not empty and the field
name otherwise, the value likewise through `valueMap`; no returned name or value is
empty. -/
theorem buildBIOSSettings_no_exclude {F : Type} (FormatFloat : F → String)
    (fields : List (String × FieldValue F)) (exclude : Ironic.Slice String)
    (nameMap valueMap : Controllers.GoMap String)
    (hexclude : Ironic.Slice.len exclude = 0) (hnames : ∀ field ∈ fields, field.1 ≠ "") :
    buildBIOSSettings FormatFloat (.struct fields) exclude nameMap valueMap =
      (Ironic.Slice.append none (fields.filterMap (fun field =>
        if renderValue FormatFloat field.2 = "" then none
        else some (some
          [("name",
              if mapIndex nameMap field.1 ≠ "" then mapIndex nameMap field.1 else field.1),
           ("value",
              if mapIndex valueMap (renderValue FormatFloat field.2) ≠ "" then
                mapIndex valueMap (renderValue FormatFloat field.2)
              else renderValue FormatFloat field.2)]))), none) ∧
    (∀ s : String, renderValue FormatFloat (.string s) = s) ∧
    renderValue FormatFloat (.bool true) = "true" ∧
    renderValue FormatFloat (.bool false) = "false" ∧
    renderValue FormatFloat (.int 0) = "0" ∧
    renderValue FormatFloat (.int (-12)) = "-12" ∧
    renderValue FormatFloat (.uint 255) = "255" ∧
    (∀ i : Int, renderValue FormatFloat (.int i) ≠ "") ∧
    (∀ n : Nat, renderValue FormatFloat (.uint n) ≠ "") ∧
    (∀ entry ∈ Ironic.Slice.toList
        (buildBIOSSettings FormatFloat (.struct fields) exclude nameMap valueMap).1,
      ∃ name value, entry = some [("name", name), ("value", value)] ∧
        Controllers.GoMap.get? entry "name" = some name ∧
        Controllers.GoMap.get? entry "value" = some value ∧
        mapLen entry = 2 ∧ name ≠ "" ∧ value ≠ "") := by
  have hbuild := biosLoop_no_exclude FormatFloat exclude nameMap valueMap hexclude fields none
  have h0 : FormatInt 0 = "0" := by decide
  have h12 : FormatInt (-12) = "-12" := by decide
  have h255 : FormatUint 255 = "255" := by decide
  refine ⟨?_, fun _ => rfl, rfl, rfl, h0, h12, h255,
    fun i => FormatInt_ne_empty i, fun n => repr_ne_empty n, ?_⟩
  · simp only [buildBIOSSettings, hbuild, settingEntry]
  · intro entry hentry
    simp only [buildBIOSSettings, hbuild, Ironic.Slice.toList_append_none,
      List.mem_filterMap] at hentry
    obtain ⟨field, hfield, hsome⟩ := hentry
    by_cases hvalue : renderValue FormatFloat field.2 = ""
    · simp [hvalue] at hsome
    · rw [if_neg hvalue] at hsome
      have hentry := (Option.some.inj hsome).symm
      subst hentry
      refine ⟨_, _, rfl, ?_, ?_, rfl, ?_, ?_⟩
      · simp [settingEntry, Controllers.GoMap.get?, Controllers.GoMap.entries, List.lookup]
      · simp [settingEntry, Controllers.GoMap.get?, Controllers.GoMap.entries, List.lookup]
      · by_cases hn : mapIndex nameMap field.1 = ""
        · simpa [hn] using hnames field hfield
        · simp [hn]
      · by_cases hv : mapIndex valueMap (renderValue FormatFloat field.2) = ""
        · simpa [hv] using hvalue
        · simp [hv]

/-- Witness of C40: six fields of five kinds, a name map with one usable entry and a value
map for "false". -/
theorem buildBIOSSettings_no_exclude_witness :
    buildBIOSSettings noFloats
        (.struct [("A", .bool false), ("B", .int 0), ("C", .string ""), ("D", .int (-12)),
          ("E", .uint 255), ("G", .other)])
        none (some [("A", "Alpha"), ("B", "")]) (some [("false", "Disabled")]) =
      (some [some [("name", "Alpha"), ("value", "Disabled")],
        some [("name", "B"), ("value", "0")], some [("name", "D"), ("value", "-12")],
        some [("name", "E"), ("value", "255")]], none) :=
  (buildBIOSSettings_no_exclude noFloats
    [("A", .bool false), ("B", .int 0), ("C", .string ""), ("D", .int (-12)),
      ("E", .uint 255), ("G", .other)]
    none (some [("A", "Alpha"), ("B", "")]) (some [("false", "Disabled")]) rfl
    (by decide)).1.trans (by decide)

end BMC

namespace Ironic

/-! ## The capability string -/

set_option maxRecDepth 100000 in
/-- The builder passes every row of the table of `TestBuildCapabilitiesValue`. -/
theorem buildCapabilitiesValue_table :
    ∀ tc ∈ capabilitiesCases,
      buildCapabilitiesValue tc.Node tc.Mode = (tc.ExpectedOp, tc.ExpectedValue) := by
  decide

/-- No piece of a split holds a separator. -/
theorem splitOnP_pieces {α : Type} (p : α → Bool) (xs : List α) :
    ∀ l ∈ xs.splitOnP p, ∀ c ∈ l, p c = false := by
  induction xs with
  | nil => intro l hl c hc; simp [List.splitOnP_nil] at hl; subst hl; simp at hc
  | cons x xs ih =>
    intro l hl c hc
    rw [List.splitOnP_cons] at hl
    by_cases hx : p x = true
    · rw [if_pos hx] at hl
      rcases List.mem_cons.mp hl with rfl | hl
      · simp at hc
      · exact ih l hl c hc
    · rw [if_neg hx] at hl
      cases hsplit : xs.splitOnP p with
      | nil => rw [hsplit] at hl; simp [List.modifyHead] at hl
      | cons first rest =>
        rw [hsplit] at hl ih
        simp only [List.modifyHead, List.mem_cons] at hl
        rcases hl with rfl | hl
        · rcases List.mem_cons.mp hc with rfl | hc
          · simpa using hx
          · exact ih first (List.mem_cons_self _ _) c hc
        · exact ih l (List.mem_cons_of_mem _ hl) c hc

theorem capabilityTokens_no_comma (capabilities : String) :
    ∀ t ∈ capabilityTokens capabilities, ',' ∉ t := by
  intro t ht hc
  unfold capabilityTokens at ht
  split at ht
  · simp at ht
  · have := splitOnP_pieces (· == ',') capabilities.toList t ht ',' hc
    simp at this

theorem intercalate_ne_nil {α : Type} (sep : List α) (ts : List (List α)) (t : List α)
    (ht : t ∈ ts) (hne : t ≠ []) : List.intercalate sep ts ≠ [] := by
  cases ts with
  | nil => simp at ht
  | cons x xs =>
    rw [Controllers.list_intercalate_cons]
    intro h
    obtain ⟨hx, hrest⟩ := List.append_eq_nil.mp h
    rcases List.mem_cons.mp ht with rfl | ht
    · exact hne hx
    · have := List.flatten_eq_nil_iff.mp hrest (sep ++ t) (List.mem_map.mpr ⟨t, ht, rfl⟩)
      exact hne (List.append_eq_nil.mp this).2

/-- Parsing a joined token list gives the tokens back. -/
theorem capabilityTokens_joinTokens (ts : List (List Char)) (hcomma : ∀ t ∈ ts, ',' ∉ t)
    (t : List Char) (ht : t ∈ ts) (hne : t ≠ []) :
    capabilityTokens (joinTokens ts) = ts := by
  have hnil : ts ≠ [] := List.ne_nil_of_mem ht
  have hjoin : joinTokens ts ≠ "" := by
    intro h
    exact intercalate_ne_nil [','] ts t ht hne (congrArg String.data h)
  unfold capabilityTokens
  rw [if_neg hjoin]
  exact List.splitOn_intercalate ts ',' hcomma hnil

theorem bootModeCapabilities_facts (bootMode : BootMode) :
    isBootMode (bootModeCapabilities bootMode).toList = true ∧
    ',' ∉ (bootModeCapabilities bootMode).toList ∧
    (bootModeCapabilities bootMode).toList ≠ [] ∧
    joinTokens [(bootModeCapabilities bootMode).toList] = bootModeCapabilities bootMode := by
  cases bootMode <;> decide

/-- The value built from a string is the joined token list after the update. -/
theorem buildCapabilitiesValue_some (existing : String) (bootMode : BootMode) :
    buildCapabilitiesValue (some existing) bootMode =
      (.ReplaceOp, joinTokens
        (if (capabilityTokens existing).any isBootMode then
          (capabilityTokens existing).map (fun token =>
            if isBootMode token then (bootModeCapabilities bootMode).toList else token)
        else capabilityTokens existing ++ [(bootModeCapabilities bootMode).toList])) := by
  unfold buildCapabilitiesValue
  by_cases h : (capabilityTokens existing).any isBootMode = true
  · simp only [h, if_true]
  · simp only [h, if_false, Bool.false_eq_true]

/-- A token list in which the token of the mode occurs, every `boot_mode` token is that
token and no token holds a comma is left as it is by the builder. -/
theorem buildCapabilitiesValue_settled (bootMode : BootMode) (ts : List (List Char))
    (hcomma : ∀ t ∈ ts, ',' ∉ t) (hmem : (bootModeCapabilities bootMode).toList ∈ ts)
    (hboot : ∀ t ∈ ts, isBootMode t = true → t = (bootModeCapabilities bootMode).toList) :
    buildCapabilitiesValue (some (joinTokens ts)) bootMode = (.ReplaceOp, joinTokens ts) := by
  obtain ⟨hbm, _, hne, _⟩ := bootModeCapabilities_facts bootMode
  rw [buildCapabilitiesValue_some, capabilityTokens_joinTokens ts hcomma _ hmem hne]
  have hany : ts.any isBootMode = true := List.any_eq_true.mpr ⟨_, hmem, hbm⟩
  rw [if_pos hany]
  have hmap : ts.map (fun token =>
      if isBootMode token then (bootModeCapabilities bootMode).toList else token) = ts := by
    conv_rhs => rw [← List.map_id ts]
    apply List.map_congr_left
    intro t ht
    by_cases hb : isBootMode t = true
    · simp [hb, hboot t ht hb]
    · simp [hb]
  rw [hmap]

/-- The updated token list of a string: comma-free, holding the token of the mode, and
with no other `boot_mode` token. -/
theorem updatedTokens_settled (existing : String) (bootMode : BootMode) :
    (∀ t ∈ (if (capabilityTokens existing).any isBootMode then
          (capabilityTokens existing).map (fun token =>
            if isBootMode token then (bootModeCapabilities bootMode).toList else token)
        else capabilityTokens existing ++ [(bootModeCapabilities bootMode).toList]),
      ',' ∉ t ∧ (isBootMode t = true → t = (bootModeCapabilities bootMode).toList)) ∧
    (bootModeCapabilities bootMode).toList ∈
      (if (capabilityTokens existing).any isBootMode then
          (capabilityTokens existing).map (fun token =>
            if isBootMode token then (bootModeCapabilities bootMode).toList else token)
        else capabilityTokens existing ++ [(bootModeCapabilities bootMode).toList]) := by
  obtain ⟨hbm, hnc, _, _⟩ := bootModeCapabilities_facts bootMode
  have hts := capabilityTokens_no_comma existing
  by_cases hany : (capabilityTokens existing).any isBootMode = true
  · rw [if_pos hany]
    constructor
    · intro t ht
      obtain ⟨u, hu, rfl⟩ := List.mem_map.mp ht
      by_cases hb : isBootMode u = true
      · rw [if_pos hb]
        exact ⟨hnc, fun _ => rfl⟩
      · rw [if_neg hb]
        exact ⟨hts u hu, fun h => absurd h hb⟩
    · obtain ⟨u, hu, hb⟩ := List.any_eq_true.mp hany
      exact List.mem_map.mpr ⟨u, hu, by simp [hb]⟩
  · rw [if_neg hany]
    constructor
    · intro t ht
      rcases List.mem_append.mp ht with ht | ht
      · refine ⟨hts t ht, fun hb => ?_⟩
        exact absurd (List.any_eq_true.mpr ⟨t, ht, hb⟩) hany
      · rw [List.mem_singleton] at ht
        subst ht
        exact ⟨hnc, fun _ => rfl⟩
    · simp

/-- C31 fails as stated: from the empty capability string and the mode UEFI the builder
returns "boot_mode:uefi" with the operation "replace", as the row "empty" of the test
table expects; "add" is the operation for a node without the property. -/
theorem buildCapabilitiesValue_empty_string :
    buildCapabilitiesValue (some "") .UEFI = (.ReplaceOp, "boot_mode:uefi") ∧
    UpdateOp.ReplaceOp ≠ UpdateOp.AddOp ∧
    ({ Scenario := "empty", Node := some "", Mode := .UEFI, ExpectedValue := "boot_mode:uefi",
       ExpectedOp := .ReplaceOp } : CapabilitiesCase) ∈ capabilitiesCases := by
  decide

/-- C31 (amended): capability round trip. For a node without a capabilities property
and the mode UEFI the builder returns "boot_mode:uefi" with the operation "add", for
the empty string the same value with "replace"; and for every mode and every current
property, applying the builder with the same mode to its own output returns that same
string with the operation "replace". -/
theorem buildCapabilitiesValue_round_trip (bootMode : BootMode) (capabilities : Option String) :
    buildCapabilitiesValue none .UEFI = (.AddOp, "boot_mode:uefi") ∧
    buildCapabilitiesValue (some "") .UEFI = (.ReplaceOp, "boot_mode:uefi") ∧
    buildCapabilitiesValue (some (buildCapabilitiesValue capabilities bootMode).2) bootMode =
      (.ReplaceOp, (buildCapabilitiesValue capabilities bootMode).2) := by
  refine ⟨rfl, by decide, ?_⟩
  obtain ⟨hbm, hnc, hne, hjoin⟩ := bootModeCapabilities_facts bootMode
  cases capabilities with
  | none =>
    show buildCapabilitiesValue (some (bootModeCapabilities bootMode)) bootMode = _
    have h := buildCapabilitiesValue_settled bootMode [(bootModeCapabilities bootMode).toList]
      (by simpa using hnc) (by simp) (by simp)
    rw [hjoin] at h
    exact h
  | some existing =>
    obtain ⟨hall, hmem⟩ := updatedTokens_settled existing bootMode
    rw [show (buildCapabilitiesValue (some existing) bootMode).2 = _ from
      congrArg Prod.snd (buildCapabilitiesValue_some existing bootMode)]
    exact buildCapabilitiesValue_settled bootMode _ (fun t ht => (hall t ht).1) hmem
      (fun t ht => (hall t ht).2)

/-- C32: updating boot_mode preserves unrelated capabilities. For every current string
and mode, parsing the built string gives, at each position of the current token list,
the same token when its key is not boot_mode and the boot_mode token of the mode (uefi
or bios, in lower case) when it is; with a boot_mode token present the number of tokens
is unchanged, and with none present the token of the mode is appended at the end. -/
theorem buildCapabilitiesValue_preserves (existing : String) (bootMode : BootMode) :
    (∀ (i : Nat) (t : List Char), (capabilityTokens existing)[i]? = some t →
      isBootMode t = false →
      (capabilityTokens (buildCapabilitiesValue (some existing) bootMode).2)[i]? = some t) ∧
    (∀ (i : Nat) (t : List Char), (capabilityTokens existing)[i]? = some t →
      isBootMode t = true →
      (capabilityTokens (buildCapabilitiesValue (some existing) bootMode).2)[i]? =
        some (bootModeCapabilities bootMode).toList) ∧
    ((∃ t ∈ capabilityTokens existing, isBootMode t = true) →
      (capabilityTokens (buildCapabilitiesValue (some existing) bootMode).2).length =
        (capabilityTokens existing).length) ∧
    ((∀ t ∈ capabilityTokens existing, isBootMode t = false) →
      capabilityTokens (buildCapabilitiesValue (some existing) bootMode).2 =
        capabilityTokens existing ++ [(bootModeCapabilities bootMode).toList]) := by
  obtain ⟨hbm, hnc, hne, hjoin⟩ := bootModeCapabilities_facts bootMode
  obtain ⟨hall, hmem⟩ := updatedTokens_settled existing bootMode
  have hparse := capabilityTokens_joinTokens _ (fun t ht => (hall t ht).1) _ hmem hne
  rw [show (buildCapabilitiesValue (some existing) bootMode).2 = _ from
    congrArg Prod.snd (buildCapabilitiesValue_some existing bootMode), hparse]
  by_cases hany : (capabilityTokens existing).any isBootMode = true
  · simp only [hany, if_true]
    refine ⟨?_, ?_, ?_, ?_⟩
    · intro i t hi hb
      simp [List.getElem?_map, hi, hb]
    · intro i t hi hb
      simp [List.getElem?_map, hi, hb]
    · intro _; simp
    · intro hnone
      obtain ⟨u, hu, hb⟩ := List.any_eq_true.mp hany
      rw [hnone u hu] at hb
      exact absurd hb (by simp)
  · simp only [hany, if_false, Bool.false_eq_true]
    refine ⟨?_, ?_, ?_, ?_⟩
    · intro i t hi _
      rw [List.getElem?_append_left (List.getElem?_eq_some_iff.mp hi).1]
      exact hi
    · intro i t hi hb
      obtain ⟨hlt, rfl⟩ := List.getElem?_eq_some_iff.mp hi
      exact absurd (List.any_eq_true.mpr ⟨_, List.getElem_mem hlt, hb⟩) hany
    · rintro ⟨t, ht, hb⟩
      exact absurd (List.any_eq_true.mpr ⟨t, ht, hb⟩) hany
    · simp

end Ironic
